import Mathlib

/-!
# Verification of the EDUPLANNERS genetic-algorithm timetable core

A shallow embedding of `src/core/genetic_algorithm.py`, the genetic
algorithm that generates weekly academic timetables, together with
theorems settling the specification claims about it.

Modelling conventions:

* Python's `random` module is modelled by an explicit stream of natural
  numbers (`Rng`).  Each primitive draw consumes one number.  Quantifying
  over all streams covers every possible sequence of random outcomes;
  `random.shuffle` is a stream-driven Fisher-Yates (all permutations are
  reachable and nothing else is produced), `random.choice` picks an index
  modulo length, `random.random()` comparison/tie-break values are drawn
  from the stream (only their order matters for the program).
* Python dicts are association lists updated in place (`assocUpd`), which
  reproduces CPython's insertion-order iteration; sets are lists used
  only through membership (`List.insert` adds a missing element).
* Python floats are modelled by `ℚ`.  All fitness terms except the
  workload-balance average are integer-valued and far below 2^53, so the
  idealisation only touches the sign-irrelevant balance term.
* Database ids, hours and counts are `ℕ`; periods are `ℤ` (the wider
  system stores non-teaching rows with special period numbers); days are
  `String` ("MON".."FRI").
-/

set_option maxHeartbeats 1000000

namespace EduPlanner

/-- Random source: the stream of draws that `random` would produce. -/
abbrev Rng := List ℕ

/-- Consume one draw (an exhausted stream keeps yielding 0; every actual
run consumes finitely many values, so quantifying over `List ℕ` covers
all behaviours). -/
def rngNext : Rng → ℕ × Rng
  | [] => (0, [])
  | n :: r => (n, r)

/-- `random.choice(l)`: pick the element at a stream-chosen index.
(CPython raises on an empty list; call sites in the source only reach an
empty list in degenerate configurations, where we return `dflt`.) -/
def randomChoice {α : Type} (l : List α) (dflt : α) (r : Rng) : α × Rng :=
  let nr := rngNext r
  (l.getD (nr.1 % l.length) dflt, nr.2)

/-- `random.random() > rate` draws a unit-interval float; modelled as a
rational in `[0,1]` with resolution 1/1000 (only the comparison with the
rate is ever used). -/
def randomUnit (r : Rng) : ℚ × Rng :=
  let nr := rngNext r
  (((nr.1 % 1001 : ℕ) : ℚ) / 1000, nr.2)

/-- Fisher-Yates core for `random.shuffle`: repeatedly extract a
stream-chosen element.  `fuel` is the list length, so the `0` case is
unreachable. -/
def shuffleGo {α : Type} : ℕ → List α → Rng → List α × Rng
  | 0, xs, r => (xs, r)
  | fuel + 1, xs, r =>
    match xs with
    | [] => ([], r)
    | y :: ys =>
      let nr := rngNext r
      let i := nr.1 % (y :: ys).length
      let x := (y :: ys).getD i y
      let rest := (y :: ys).eraseIdx i
      let sr := shuffleGo fuel rest nr.2
      (x :: sr.1, sr.2)

/-- `random.shuffle(l)`. -/
def randomShuffle {α : Type} (xs : List α) (r : Rng) : List α × Rng :=
  shuffleGo xs.length xs r

/-- `random.sample(l, k)`: `k` distinct stream-chosen elements. -/
def sampleGo {α : Type} : ℕ → List α → Rng → List α × Rng
  | 0, _, r => ([], r)
  | k + 1, xs, r =>
    match xs with
    | [] => ([], r)
    | y :: ys =>
      let nr := rngNext r
      let i := nr.1 % (y :: ys).length
      let x := (y :: ys).getD i y
      let rest := (y :: ys).eraseIdx i
      let sr := sampleGo k rest nr.2
      (x :: sr.1, sr.2)

/-- Association-list lookup (`dict.get` / `dict.__getitem__`). -/
def aget {κ α : Type} [DecidableEq κ] : List (κ × α) → κ → Option α
  | [], _ => none
  | (k, v) :: t, q => if q = k then some v else aget t q

/-- In-place dict update `d[k] = v`: replaces the binding if the key is
present (keeping its position, like CPython), else appends. -/
def assocUpd {κ α : Type} [DecidableEq κ] : List (κ × α) → κ → α → List (κ × α)
  | [], k, v => [(k, v)]
  | (k0, v0) :: t, k, v =>
    if k = k0 then (k0, v) :: t else (k0, v0) :: assocUpd t k v

/-- `defaultdict`-style update of the value at `k` (default `d`). -/
def assocAdjust {κ α : Type} [DecidableEq κ] (m : List (κ × α)) (k : κ) (d : α)
    (f : α → α) : List (κ × α) :=
  assocUpd m k (f ((aget m k).getD d))

/-- Truthiness of an optional Python integer (`if x:`): `None` and `0`
are falsy. -/
def optTruthy : Option ℕ → Bool
  | none => false
  | some a => a ≠ 0

/-- Stable insertion into a `le`-sorted list, placing the new element
after existing `le`-equal ones (this is how a stable ascending sort
treats later elements). -/
def insertSorted {α : Type} (le : α → α → Bool) (x : α) : List α → List α
  | [] => [x]
  | y :: ys => if le y x then y :: insertSorted le x ys else x :: y :: ys

/-- Stable sort (Python `list.sort`): left-to-right insertion. -/
def stableSort {α : Type} (le : α → α → Bool) (l : List α) : List α :=
  l.foldl (fun acc x => insertSorted le x acc) []

/-! ## Data model (`Gene`, `Chromosome`, the `GeneticAlgorithm` snapshot) -/

/-- `Gene`: a single timetable entry. -/
structure Gene where
  class_id : ℕ
  subject_id : ℕ
  faculty_id : ℕ
  time_slot_id : ℕ
  is_lab : Bool := false
  assistant_faculty_id : Option ℕ := none
  deriving DecidableEq

/-- `Chromosome`: a complete timetable solution. -/
structure Chromosome where
  genes : List Gene := []
  fitness : ℚ := 0
  deriving DecidableEq

def dummyGene : Gene := ⟨0, 0, 0, 0, false, none⟩

def dummyChrom : Chromosome := ⟨[], 0⟩

/-- One row of `self.time_slots` (`.values('id', 'day', 'period')`). -/
structure SlotInfo where
  id : ℕ
  day : String
  period : ℤ
  deriving DecidableEq

/-- One row of `self.subjects` (subject dict after the loader added
`hours_per_week`). -/
structure SubjectInfo where
  id : ℕ
  code : String
  subject_type : String
  hours_per_week : ℕ
  semester_id : ℕ
  deriving DecidableEq

/-- One row of `self.faculties` (after the loader added `max_hours`). -/
structure FacultyInfo where
  id : ℕ
  max_hours : ℕ
  deriving DecidableEq

/-- One row of `self.classes`. -/
structure ClassInfo where
  id : ℕ
  semester_id : ℕ
  deriving DecidableEq

/-- The `GeneticAlgorithm` object after `__init__` and `load_data`:
parameters plus the immutable problem snapshot.  The derived dicts
`class_subjects` / `subject_info` are recomputed by functions below,
which agrees with the eagerly built dicts whenever ids are not
duplicated (they are database primary keys). -/
structure GeneticAlgorithm where
  population_size : ℕ := 100
  generations : ℕ := 500
  crossover_rate : ℚ := 8 / 10
  mutation_rate : ℚ := 1 / 10
  elite_count : ℕ := 5
  tournament_size : ℕ := 5
  classes : List ClassInfo := []
  subjects : List SubjectInfo := []
  faculties : List FacultyInfo := []
  time_slots : List SlotInfo := []
  faculty_preferences : List (ℕ × List String) := []
  faculty_history : List (ℕ × List String) := []
  pre_booked_slots : List (ℕ × List ℕ) := []
  faculty_workload_limits : List (ℕ × ℕ) := []

/-- The constraint-weight table `GeneticAlgorithm.WEIGHTS`. -/
def WEIGHTS (k : String) : ℚ :=
  if k = "faculty_clash" then -1000
  else if k = "class_clash" then -1000
  else if k = "workload_exceeded" then -500
  else if k = "lab_continuity" then -5000
  else if k = "lab_timing" then -100
  else if k = "lab_day_clash" then -800
  else if k = "lab_room_clash" then -1500
  else if k = "cross_dept_clash" then -2000
  else if k = "two_labs_per_week" then -500
  else if k = "subject_rotation" then -50
  else if k = "faculty_preference" then 100
  else if k = "workload_balance" then -30
  else 0

/-- `self.subject_info[sid]` (dict built keyed by id; later duplicate
ids overwrite, hence the last matching row). -/
def subject_info (ga : GeneticAlgorithm) (sid : ℕ) : Option SubjectInfo :=
  (ga.subjects.filter (fun s => s.id = sid)).getLast?

/-- `self.class_subjects[c.id]` for a class row `c`: ids of the subjects
sharing the class's semester, in subject-list order. -/
def class_subjects (ga : GeneticAlgorithm) (c : ClassInfo) : List ℕ :=
  (ga.subjects.filter (fun s => s.semester_id = c.semester_id)).map (fun s => s.id)

/-- Subject type of `sid` as the dict pass sees it (empty for missing). -/
def subjectTypeOf (ga : GeneticAlgorithm) (sid : ℕ) : String :=
  ((subject_info ga sid).map (fun s => s.subject_type)).getD ""

/-- Subject code `self.subject_info.get(sid, dict()).get('code', '')`. -/
def subjectCodeOf (ga : GeneticAlgorithm) (sid : ℕ) : String :=
  ((subject_info ga sid).map (fun s => s.code)).getD ""

/-- `_get_eligible_faculty_for_subject`: faculty explicitly preferring
the subject's code, else all faculty. -/
def get_eligible_faculty_for_subject (ga : GeneticAlgorithm) (sid : ℕ) : List ℕ :=
  let code := subjectCodeOf ga sid
  let preferred := (ga.faculties.filter
    (fun f => code ∈ ((aget ga.faculty_preferences f.id).getD []))).map (fun f => f.id)
  if preferred ≠ [] then preferred else ga.faculties.map (fun f => f.id)

/-- All slot ids, `[ts['id'] for ts in self.time_slots]`. -/
def slotIds (ga : GeneticAlgorithm) : List ℕ :=
  ga.time_slots.map (fun s => s.id)

/-! ## `_find_lab_slots` -/

/-- `slots_by_day`: group the slots that are available and unused by
day, in first-encounter order (`defaultdict` insertion order). -/
def slotsByDay (ga : GeneticAlgorithm) (available used : List ℕ) :
    List (String × List SlotInfo) :=
  ga.time_slots.foldl
    (fun m s =>
      if s.id ∈ available ∧ s.id ∉ used then
        assocAdjust m s.day [] (fun l => l ++ [s])
      else m)
    []

/-- One day's morning/afternoon block candidates: `(day, morning?,
slot_ids)` in the order the source appends them. -/
def dayCandidates (day : String) (dslots : List SlotInfo) :
    List (String × Bool × List ℕ) :=
  let ds := stableSort (fun a b => a.period ≤ b.period) dslots
  let morning := ds.filter (fun s => s.period ≤ 3)
  let mper := morning.map (fun s => s.period)
  let c1 : List (String × Bool × List ℕ) :=
    if 3 ≤ morning.length ∧ (1 : ℤ) ∈ mper ∧ (2 : ℤ) ∈ mper ∧ (3 : ℤ) ∈ mper then
      [(day, true, ((morning.filter (fun s => s.period ≤ 3)).map (fun s => s.id)).take 3)]
    else []
  let afternoon := ds.filter (fun s => 5 ≤ s.period)
  let aper := afternoon.map (fun s => s.period)
  let c2 : List (String × Bool × List ℕ) :=
    if 3 ≤ afternoon.length ∧ (5 : ℤ) ∈ aper ∧ (6 : ℤ) ∈ aper ∧ (7 : ℤ) ∈ aper then
      [(day, false, ((afternoon.filter (fun s => 5 ≤ s.period)).map (fun s => s.id)).take 3)]
    else []
  c1 ++ c2

/-- The scan `for i in range(len(day_slots) - 2)` over a period-sorted
day list, returning the first three consecutive-period slots. -/
def scanTriple : List SlotInfo → Option (List ℕ)
  | a :: b :: c :: rest =>
    if b.period = a.period + 1 ∧ c.period = a.period + 2 then
      some [a.id, b.id, c.id]
    else scanTriple (b :: c :: rest)
  | _ => none

/-- The fallback loop over shuffled days: first day that yields any
three continuous slots. -/
def fallbackScan (sbd : List (String × List SlotInfo)) :
    List String → List ℕ
  | [] => []
  | day :: rest =>
    let dslots := (aget sbd day).getD []
    if 3 ≤ dslots.length then
      match scanTriple (stableSort (fun a b => a.period ≤ b.period) dslots) with
      | some ids => ids
      | none => fallbackScan sbd rest
    else fallbackScan sbd rest

/-- Draw one `random.random()` sort key (modelled as `ℕ`) per candidate,
in list order — Python's `sort(key=...)` evaluates keys once, in order. -/
def drawKeys {α : Type} : List α → Rng → List (α × ℕ) × Rng
  | [], r => ([], r)
  | x :: xs, r =>
    let nr := rngNext r
    let dr := drawKeys xs nr.2
    ((x, nr.1) :: dr.1, dr.2)

/-- `lst.sort(key=lambda c: (day_usage.get((day, half), 0), random.random()))`
followed by taking the head's slot ids. -/
def sortPick (day_usage : List ((String × Bool) × ℕ))
    (cands : List (String × Bool × List ℕ)) (r : Rng) : List ℕ × Rng :=
  let kr := drawKeys cands r
  let usage := fun (c : (String × Bool × List ℕ) × ℕ) =>
    (aget day_usage (c.1.1, c.1.2.1)).getD 0
  let sorted := stableSort
    (fun a b => usage a < usage b ∨ (usage a = usage b ∧ a.2 ≤ b.2)) kr.1
  (((sorted.head?).map (fun c => c.1.2.2)).getD [], kr.2)

/-- `_find_lab_slots`: three continuous periods for a lab session. -/
def find_lab_slots (ga : GeneticAlgorithm) (available used : List ℕ)
    (exclude_days : List String) (day_usage : List ((String × Bool) × ℕ))
    (r : Rng) : List ℕ × Rng :=
  let sbd := slotsByDay ga available used
  let candidates := sbd.foldl (fun acc p => acc ++ dayCandidates p.1 p.2) []
  if candidates = [] then
    let dr := randomShuffle (sbd.map (fun p => p.1)) r
    (fallbackScan sbd dr.1, dr.2)
  else
    let preferred := candidates.filter (fun c => c.1 ∉ exclude_days)
    let fallback := candidates.filter (fun c => c.1 ∈ exclude_days)
    if preferred ≠ [] then sortPick day_usage preferred r
    else sortPick day_usage fallback r

/-! ## `_create_random_chromosome` -/

/-- The chromosome-wide mutable state of `_create_random_chromosome`:
the gene list under construction plus the three global trackers. -/
structure BuildSt where
  genes : List Gene
  day_usage : List ((String × Bool) × ℕ)
  room_usage : List (ℕ × List ℕ)
  fac_sched : List (ℕ × List ℕ)
  rng : Rng

/-- The per-class state: slots already used by this class and days this
class already holds a lab on. -/
structure ClassSt where
  used : List ℕ
  lab_days : List String

/-- Body of the `for slot_id in lab_slots` loop of the lab pass: append
the lab gene and record the slot in the trackers. -/
def labFoldStep (cid lab_id main_faculty : ℕ) (assistant_faculty : Option ℕ)
    (acc : BuildSt × ClassSt) (slot_id : ℕ) : BuildSt × ClassSt :=
  let fs1 := assocAdjust acc.1.fac_sched main_faculty [] (fun l => l.insert slot_id)
  ({ acc.1 with
      genes := acc.1.genes ++ [⟨cid, lab_id, main_faculty, slot_id, true, assistant_faculty⟩],
      room_usage := assocAdjust acc.1.room_usage lab_id [] (fun l => l.insert slot_id),
      fac_sched :=
        if optTruthy assistant_faculty then
          assocAdjust fs1 (assistant_faculty.getD 0) [] (fun l => l.insert slot_id)
        else fs1 },
   { acc.2 with used := acc.2.used.insert slot_id })

/-- One iteration of `for lab_id in lab_subjects_for_class[:2]`. -/
def labPassOne (ga : GeneticAlgorithm) (cid : ℕ) (st : BuildSt) (cs : ClassSt)
    (lab_id : ℕ) : BuildSt × ClassSt :=
  let lab_blocked := (aget st.room_usage lab_id).getD []
  let fr := find_lab_slots ga (slotIds ga) (cs.used ++ lab_blocked)
    cs.lab_days st.day_usage st.rng
  let lab_slots := fr.1
  let r1 := fr.2
  if lab_slots = [] then ({ st with rng := r1 }, cs)
  else
    let elig0 := get_eligible_faculty_for_subject ga lab_id
    let elig := elig0.filter (fun f => ¬ lab_slots.any (fun s =>
      decide (s ∈ (aget ga.pre_booked_slots f).getD []) ||
      decide (s ∈ (aget st.fac_sched f).getD [])))
    let mar :=
      if 2 ≤ elig.length then
        let mr := randomChoice elig 0 r1
        let ar := randomChoice (elig.filter (fun f => f ≠ mr.1)) 0 mr.2
        (mr.1, some ar.1, ar.2)
      else if elig.length = 1 then (elig.headD 0, (none : Option ℕ), r1)
      else
        let mr := randomChoice (ga.faculties.map (fun f => f.id)) 0 r1
        (mr.1, (none : Option ℕ), mr.2)
    let main_faculty := mar.1
    let assistant_faculty := mar.2.1
    let r2 := mar.2.2
    let info := ga.time_slots.filter (fun ts => ts.id = lab_slots.headD 0)
    let dl :=
      match info.head? with
      | some s0 =>
        (assocAdjust st.day_usage (s0.day, decide (s0.period ≤ 3)) 0 (fun n => n + 1),
         cs.lab_days.insert s0.day)
      | none => (st.day_usage, cs.lab_days)
    let day_usage1 := dl.1
    let lab_days1 := dl.2
    lab_slots.foldl (labFoldStep cid lab_id main_faculty assistant_faculty)
      ({ st with day_usage := day_usage1, rng := r2 }, { cs with lab_days := lab_days1 })

/-- Body of the theory-pass placement loop: append a theory gene and
record the slot. -/
def theoryFoldStep (cid subject_id faculty_id : ℕ)
    (acc : BuildSt × ClassSt) (slot_id : ℕ) : BuildSt × ClassSt :=
  ({ acc.1 with
      genes := acc.1.genes ++ [⟨cid, subject_id, faculty_id, slot_id, false, none⟩],
      fac_sched := assocAdjust acc.1.fac_sched faculty_id [] (fun l => l.insert slot_id) },
   { acc.2 with used := acc.2.used.insert slot_id })

/-- One iteration of the theory pass (`for subject_id in
theory_subjects_for_class`). -/
def theoryPassOne (ga : GeneticAlgorithm) (cid : ℕ) (st : BuildSt) (cs : ClassSt)
    (subject_id : ℕ) : BuildSt × ClassSt :=
  let hours_needed := match subject_info ga subject_id with
    | some s => s.hours_per_week
    | none => 3
  let elig := get_eligible_faculty_for_subject ga subject_id
  let fcr :=
    if elig ≠ [] then randomChoice elig 0 st.rng
    else randomChoice (ga.faculties.map (fun f => f.id)) 0 st.rng
  let faculty_id := fcr.1
  let r1 := fcr.2
  let faculty_blocked := (aget ga.pre_booked_slots faculty_id).getD [] ++
    (aget st.fac_sched faculty_id).getD []
  let remaining0 := (slotIds ga).filter
    (fun s => s ∉ cs.used ∧ s ∉ faculty_blocked)
  let sh := randomShuffle remaining0 r1
  let remaining1 := sh.1
  let r2 := sh.2
  let remaining := if remaining1.length < hours_needed then
      remaining1 ++ (slotIds ga).filter (fun s => s ∉ cs.used ∧ s ∈ faculty_blocked)
    else remaining1
  (remaining.take hours_needed).foldl (theoryFoldStep cid subject_id faculty_id)
    ({ st with rng := r2 }, cs)

/-- The mutable state of the round-robin fill loop. -/
structure FillSt where
  genes : List Gene
  fac_sched : List (ℕ × List ℕ)
  used : List ℕ
  queue : List ℕ
  sf_map : List (ℕ × ℕ)
  fill_idx : ℕ
  attempts : ℕ
  rng : Rng

/-- The `while slot_queue and attempts < max_attempts` fill loop.  The
`fuel` argument only bounds the recursion; the caller passes more fuel
than the loop can consume (each iteration pops the queue or raises
`attempts`, see `fillLoop_measure` below), so the `0` case is
unreachable and the semantics are exactly the source loop's. -/
def fillLoop (ga : GeneticAlgorithm) (cid : ℕ) (fillable : List ℕ) (maxAtt : ℕ) :
    ℕ → FillSt → FillSt
  | 0, st => st
  | fuel + 1, st =>
    if st.queue = [] ∨ maxAtt ≤ st.attempts then st
    else
      let slot_id := st.queue.headD 0
      let sid := fillable.getD (st.fill_idx % fillable.length) 0
      let fac0 := aget st.sf_map sid
      let fsr :=
        if optTruthy fac0 then (fac0.getD 0, st.sf_map, st.rng)
        else
          let elig := get_eligible_faculty_for_subject ga sid
          let fa := if elig ≠ [] then randomChoice elig 0 st.rng
                    else randomChoice (ga.faculties.map (fun f => f.id)) 0 st.rng
          (fa.1, assocUpd st.sf_map sid fa.1, fa.2)
      let faculty_id := fsr.1
      let sf1 := fsr.2.1
      let r1 := fsr.2.2
      if slot_id ∈ (aget st.fac_sched faculty_id).getD [] then
        let att := st.attempts + 1
        if att % fillable.length = 0 then
          fillLoop ga cid fillable maxAtt fuel
            { genes := st.genes ++ [⟨cid, sid, faculty_id, slot_id, false, none⟩],
              fac_sched := assocAdjust st.fac_sched faculty_id [] (fun l => l.insert slot_id),
              used := st.used.insert slot_id,
              queue := st.queue.tail,
              sf_map := sf1,
              fill_idx := st.fill_idx + 2,
              attempts := att,
              rng := r1 }
        else
          fillLoop ga cid fillable maxAtt fuel
            { st with sf_map := sf1, fill_idx := st.fill_idx + 1, attempts := att, rng := r1 }
      else
        fillLoop ga cid fillable maxAtt fuel
          { genes := st.genes ++ [⟨cid, sid, faculty_id, slot_id, false, none⟩],
            fac_sched := assocAdjust st.fac_sched faculty_id [] (fun l => l.insert slot_id),
            used := st.used.insert slot_id,
            queue := st.queue.tail,
            sf_map := sf1,
            fill_idx := st.fill_idx + 1,
            attempts := 0,
            rng := r1 }

/-- Schedule one class: lab pass, theory pass, then the fill pass. -/
def scheduleClass (ga : GeneticAlgorithm) (st : BuildSt) (class_info : ClassInfo) :
    BuildSt :=
  let cid := class_info.id
  let csubs := class_subjects ga class_info
  let labs := (csubs.filter (fun sid => subjectTypeOf ga sid = "LAB")).take 2
  let lt := labs.foldl (fun acc lab_id => labPassOne ga cid acc.1 acc.2 lab_id)
    (st, ⟨[], []⟩)
  let theories := csubs.filter (fun sid => subjectTypeOf ga sid = "THEORY")
  let tt := theories.foldl (fun acc sid => theoryPassOne ga cid acc.1 acc.2 sid) lt
  let st2 := tt.1
  let cs2 := tt.2
  let fillable := csubs.filter
    (fun sid => subjectTypeOf ga sid = "THEORY" ∨ subjectTypeOf ga sid = "ELECTIVE")
  if fillable = [] then st2
  else
    let remaining0 := (slotIds ga).filter (fun s => s ∉ cs2.used)
    let qr := randomShuffle remaining0 st2.rng
    let queue := qr.1
    let r1 := qr.2
    let sf_map := st2.genes.foldl
      (fun m g => if g.class_id = cid ∧ g.is_lab = false then
          assocUpd m g.subject_id g.faculty_id
        else m) []
    let maxAtt := remaining0.length * fillable.length
    let fuel := (remaining0.length + 1) * (maxAtt + 1)
    let fst := fillLoop ga cid fillable maxAtt fuel
      ⟨st2.genes, st2.fac_sched, cs2.used, queue, sf_map, 0, 0, r1⟩
    { st2 with genes := fst.genes, fac_sched := fst.fac_sched, rng := fst.rng }

/-- `_create_random_chromosome`. -/
def create_random_chromosome (ga : GeneticAlgorithm) (r : Rng) : Chromosome × Rng :=
  let sh := randomShuffle ga.classes r
  let st := sh.1.foldl (scheduleClass ga) ⟨[], [], [], [], sh.2⟩
  (⟨st.genes, 0⟩, st.rng)

/-- `initialize_population`. -/
def initPopGo (ga : GeneticAlgorithm) : ℕ → Rng → List Chromosome × Rng
  | 0, r => ([], r)
  | n + 1, r =>
    let cr := create_random_chromosome ga r
    let pr := initPopGo ga n cr.2
    (cr.1 :: pr.1, pr.2)

def initialize_population (ga : GeneticAlgorithm) (r : Rng) : List Chromosome × Rng :=
  initPopGo ga ga.population_size r

/-! ## `calculate_fitness` -/

/-- `_check_lab_continuity`: three slots, same day, consecutive
periods. -/
def check_lab_continuity (ga : GeneticAlgorithm) (slot_ids : List ℕ) : Bool :=
  if slot_ids.length ≠ 3 then false
  else
    let slots := ga.time_slots.filter (fun ts => ts.id ∈ slot_ids)
    if slots.length ≠ 3 then false
    else
      let days := (slots.map (fun s => s.day)).dedup
      if days.length ≠ 1 then false
      else
        let periods : List ℤ := stableSort (fun a b => decide (a ≤ b)) (slots.map (fun s => s.period))
        decide (periods.getD 1 0 = periods.getD 0 0 + 1 ∧
                periods.getD 2 0 = periods.getD 1 0 + 1)

/-- `_check_lab_timing`: all morning (≤ 3) or all afternoon (≥ 5). -/
def check_lab_timing (ga : GeneticAlgorithm) (slot_ids : List ℕ) : Bool :=
  let slots := ga.time_slots.filter (fun ts => ts.id ∈ slot_ids)
  slots.all (fun s => s.period ≤ 3) || slots.all (fun s => 5 ≤ s.period)

/-- The state accumulated by the first `for gene in chromosome.genes`
pass of `calculate_fitness`. -/
structure FitSt where
  fitness : ℚ
  faculty_schedule : List (ℕ × List ℕ)
  class_schedule : List (ℕ × List ℕ)
  faculty_hours : List (ℕ × ℕ)
  class_labs : List (ℕ × List Gene)

/-- One gene of the first fitness pass, in source order: faculty clash
(main then assistant), class clash, hour counting, lab grouping,
preference bonus, cross-department clash (main then assistant). -/
def fitStep (ga : GeneticAlgorithm) (st : FitSt) (g : Gene) : FitSt :=
  let fit1 := st.fitness +
    (if g.time_slot_id ∈ (aget st.faculty_schedule g.faculty_id).getD [] then
      WEIGHTS "faculty_clash" else 0)
  let fs1 := assocAdjust st.faculty_schedule g.faculty_id [] (fun l => l.insert g.time_slot_id)
  let fit2 := fit1 +
    (if optTruthy g.assistant_faculty_id ∧
        g.time_slot_id ∈ (aget fs1 (g.assistant_faculty_id.getD 0)).getD [] then
      WEIGHTS "faculty_clash" else 0)
  let fs2 := if optTruthy g.assistant_faculty_id then
      assocAdjust fs1 (g.assistant_faculty_id.getD 0) [] (fun l => l.insert g.time_slot_id)
    else fs1
  let fit3 := fit2 +
    (if g.time_slot_id ∈ (aget st.class_schedule g.class_id).getD [] then
      WEIGHTS "class_clash" else 0)
  let cs1 := assocAdjust st.class_schedule g.class_id [] (fun l => l.insert g.time_slot_id)
  let fh1 := assocAdjust st.faculty_hours g.faculty_id 0 (fun n => n + 1)
  let fh2 := if optTruthy g.assistant_faculty_id then
      assocAdjust fh1 (g.assistant_faculty_id.getD 0) 0 (fun n => n + 1)
    else fh1
  let cl1 := if g.is_lab then
      assocAdjust st.class_labs g.class_id [] (fun l => l ++ [g])
    else st.class_labs
  let fit4 := fit3 +
    (if subjectCodeOf ga g.subject_id ∈ (aget ga.faculty_preferences g.faculty_id).getD [] then
      WEIGHTS "faculty_preference" else 0)
  let fit5 := fit4 +
    (match aget ga.pre_booked_slots g.faculty_id with
     | some s => if g.time_slot_id ∈ s then WEIGHTS "cross_dept_clash" else 0
     | none => 0)
  let fit6 := fit5 +
    (if optTruthy g.assistant_faculty_id then
      match aget ga.pre_booked_slots (g.assistant_faculty_id.getD 0) with
      | some s => if g.time_slot_id ∈ s then WEIGHTS "cross_dept_clash" else 0
      | none => 0
     else 0)
  ⟨fit6, fs2, cs1, fh2, cl1⟩

def fitPass1 (ga : GeneticAlgorithm) (genes : List Gene) : FitSt :=
  genes.foldl (fitStep ga) ⟨0, [], [], [], []⟩

/-- Workload cap of a faculty,
`self.faculty_workload_limits.get(faculty_id, 20)`. -/
def workLimit (ga : GeneticAlgorithm) (f : ℕ) : ℕ :=
  (aget ga.faculty_workload_limits f).getD 20

/-- `for faculty_id, hours in faculty_hours.items(): ...` workload
penalty. -/
def workloadTerm (ga : GeneticAlgorithm) (fh : List (ℕ × ℕ)) : ℚ :=
  fh.foldl
    (fun acc p =>
      acc + (if workLimit ga p.1 < p.2 then
        WEIGHTS "workload_exceeded" * ((p.2 : ℚ) - (workLimit ga p.1 : ℚ))
      else 0))
    0

/-- The fitness term for one scheduled lab subject of one class:
`-10000` when the gene count is not 3, else the continuity and timing
penalties. -/
def subjectLabPenalty (ga : GeneticAlgorithm) (lab_genes : List Gene) (sid : ℕ) : ℚ :=
  let slot_ids := (lab_genes.filter (fun g => g.subject_id = sid)).map (fun g => g.time_slot_id)
  if slot_ids.length ≠ 3 then WEIGHTS "lab_continuity" * 2
  else
    (if check_lab_continuity ga slot_ids then 0 else WEIGHTS "lab_continuity") +
    (if check_lab_timing ga slot_ids then 0 else WEIGHTS "lab_timing")

/-- `for class_id, lab_genes in class_labs.items(): for lab_subject_id
in lab_subjects_scheduled: ...` (the sum over a set is iteration-order
independent, so `dedup` order is immaterial). -/
def labConstraintsTerm (ga : GeneticAlgorithm) (class_labs : List (ℕ × List Gene)) : ℚ :=
  class_labs.foldl
    (fun acc p =>
      acc + ((p.2.map (fun g => g.subject_id)).dedup.foldl
        (fun a sid => a + subjectLabPenalty ga p.2 sid) 0))
    0

/-- `next((ts for ts in self.time_slots if ts['id'] == slot_id), None)`. -/
def slotInfoFirst (ga : GeneticAlgorithm) (slot_id : ℕ) : Option SlotInfo :=
  ga.time_slots.find? (fun ts => ts.id = slot_id)

/-- Build `lab_day_half_usage` and apply the lab-day-clash penalty. -/
def labDayTerm (ga : GeneticAlgorithm) (class_labs : List (ℕ × List Gene)) : ℚ :=
  let usage := class_labs.foldl
    (fun u p =>
      (p.2.foldl
        (fun acc g =>
          match slotInfoFirst ga g.time_slot_id with
          | some si =>
            let dh := (si.day, decide (si.period ≤ 3))
            if dh ∈ acc.1 then acc
            else (dh :: acc.1, assocAdjust acc.2 dh 0 (fun n => n + 1))
          | none => acc)
        (([] : List (String × Bool)), u)).2)
    ([] : List ((String × Bool) × ℕ))
  usage.foldl
    (fun acc p => acc + (if 1 < p.2 then WEIGHTS "lab_day_clash" * ((p.2 : ℚ) - 1) else 0))
    0

/-- Build `lab_slot_usage` (subject → slot → class set) and apply the
lab-room-clash penalty. -/
def labRoomTerm (_ga : GeneticAlgorithm) (genes : List Gene) : ℚ :=
  let usage := genes.foldl
    (fun (u : List (ℕ × List (ℕ × List ℕ))) g =>
      if g.is_lab then
        assocAdjust u g.subject_id []
          (fun inner => assocAdjust inner g.time_slot_id [] (fun cls => cls.insert g.class_id))
      else u)
    []
  usage.foldl
    (fun acc p =>
      acc + (p.2.foldl
        (fun a q =>
          a + (if 1 < q.2.length then
            WEIGHTS "lab_room_clash" * ((q.2.length : ℚ) - 1) else 0))
        0))
    0

/-- The soft workload-balance term (real-valued: mean hours). -/
def workloadBalanceTerm (fh : List (ℕ × ℕ)) : ℚ :=
  if fh = [] then 0
  else
    let avg : ℚ := (fh.foldl (fun a p => a + (p.2 : ℚ)) 0) / (fh.length : ℚ)
    fh.foldl
      (fun acc p =>
        let dev := |(p.2 : ℚ) - avg|
        acc + (if 5 < dev then WEIGHTS "workload_balance" * (dev - 5) else 0))
      0

/-- The subject-rotation pass over all genes. -/
def subjectRotationTerm (ga : GeneticAlgorithm) (genes : List Gene) : ℚ :=
  genes.foldl
    (fun acc g =>
      acc + (if subjectCodeOf ga g.subject_id ∈ (aget ga.faculty_history g.faculty_id).getD [] then
        WEIGHTS "subject_rotation" else 0))
    0

/-- `calculate_fitness`: the first gene pass followed by the aggregate
passes, in source order.  (The Python code accumulates everything into
one running float; rational addition is commutative and associative, so
summing the blocks is the same value.) -/
def calculate_fitness (ga : GeneticAlgorithm) (c : Chromosome) : ℚ :=
  let st := fitPass1 ga c.genes
  st.fitness
    + workloadTerm ga st.faculty_hours
    + labConstraintsTerm ga st.class_labs
    + labDayTerm ga st.class_labs
    + labRoomTerm ga c.genes
    + workloadBalanceTerm st.faculty_hours
    + subjectRotationTerm ga c.genes

/-- `calculate_fitness` also stores the score on the chromosome
(`chromosome.fitness = fitness`). -/
def evalChrom (ga : GeneticAlgorithm) (c : Chromosome) : Chromosome :=
  { c with fitness := calculate_fitness ga c }

/-! ## `_repair_labs`

The Python code mutates shared `Gene` objects in place; the embedding
identifies a gene by its position in `chromosome.genes` (positions,
classes, subjects, faculty and the lab flag never change during repair,
only `time_slot_id` fields are rewritten) and threads the current gene
list through the per-class, per-subject folds. -/

/-- Repair one `(class, lab subject)` group (`grp` holds the group's
gene positions paired with the original genes). -/
def repairGroup (ga : GeneticAlgorithm) (class_idx_genes : List (ℕ × Gene)) (sid : ℕ)
    (grp : List (ℕ × Gene)) (cur : List Gene) (r : Rng) : List Gene × Rng :=
  if grp.length ≠ 3 then (cur, r)
  else
    let slot_ids := grp.map (fun ig => (cur.getD ig.1 dummyGene).time_slot_id)
    if check_lab_continuity ga slot_ids then (cur, r)
    else
      let all_used := class_idx_genes.foldl
        (fun (u : List ℕ) ig =>
          let g := cur.getD ig.1 dummyGene
          if g.subject_id ≠ sid ∨ g.is_lab = false then u.insert g.time_slot_id else u)
        []
      let fr := find_lab_slots ga (slotIds ga) all_used [] [] r
      let new_slots := fr.1
      let r1 := fr.2
      if new_slots ≠ [] ∧ new_slots.length = 3 then
        if new_slots.any (fun s => s ∈ all_used) then (cur, r1)
        else
          ((List.zip grp new_slots).foldl
            (fun cg p =>
              cg.set p.1.1 { (cg.getD p.1.1 dummyGene) with time_slot_id := p.2 })
            cur, r1)
      else (cur, r1)

/-- Repair all broken lab groups of one class. -/
def repairClass (ga : GeneticAlgorithm) (class_idx_genes : List (ℕ × Gene))
    (cur : List Gene) (r : Rng) : List Gene × Rng :=
  let lab_groups := class_idx_genes.foldl
    (fun (m : List (ℕ × List (ℕ × Gene))) ig =>
      if ig.2.is_lab then assocAdjust m ig.2.subject_id [] (fun l => l ++ [ig]) else m)
    []
  lab_groups.foldl
    (fun acc grp => repairGroup ga class_idx_genes grp.1 grp.2 acc.1 acc.2)
    (cur, r)

/-- `_repair_labs`. -/
def repair_labs (ga : GeneticAlgorithm) (c : Chromosome) (r : Rng) : Chromosome × Rng :=
  let idxGenes := (List.range c.genes.length).zip c.genes
  let genes_by_class := idxGenes.foldl
    (fun (m : List (ℕ × List (ℕ × Gene))) ig =>
      assocAdjust m ig.2.class_id [] (fun l => l ++ [ig]))
    []
  let res := genes_by_class.foldl
    (fun acc cp => repairClass ga cp.2 acc.1 acc.2)
    (c.genes, r)
  ({ c with genes := res.1 }, res.2)

/-! ## Selection, crossover, mutation -/

/-- Python `max(lst, key=lambda c: c.fitness)`: the first maximum. -/
def maxByFitness : List Chromosome → Chromosome
  | [] => dummyChrom
  | h :: t => t.foldl (fun b c => if b.fitness < c.fitness then c else b) h

/-- `tournament_selection`. -/
def tournament_selection (ga : GeneticAlgorithm) (population : List Chromosome)
    (r : Rng) : Chromosome × Rng :=
  let tr := sampleGo (min ga.tournament_size population.length) population r
  (maxByFitness tr.1, tr.2)

/-- Partition a gene list by `class_id` (`defaultdict` insertion
order). -/
def groupByClass (genes : List Gene) : List (ℕ × List Gene) :=
  genes.foldl (fun m g => assocAdjust m g.class_id [] (fun l => l ++ [g])) []

/-- `crossover`: clone below the rate, else swap a random half of the
class partitions.  (`set(p1) | set(p2)` iterates in an unspecified
order in CPython; it is modelled as first-encounter order — every
property stated about crossover is independent of this order.) -/
def crossover (ga : GeneticAlgorithm) (p1 p2 : Chromosome) (r : Rng) :
    Chromosome × Chromosome × Rng :=
  let ur := randomUnit r
  if ga.crossover_rate < ur.1 then (p1, p2, ur.2)
  else
    let p1c := groupByClass p1.genes
    let p2c := groupByClass p2.genes
    let all_classes := (p1c.map Prod.fst ++ p2c.map Prod.fst).dedup
    let sw := sampleGo (all_classes.length / 2) all_classes ur.2
    let classes_to_swap := sw.1
    let r2 := sw.2
    let child1_genes := (all_classes.map (fun cl =>
      if cl ∈ classes_to_swap then (aget p2c cl).getD [] else (aget p1c cl).getD [])).flatten
    let child2_genes := (all_classes.map (fun cl =>
      if cl ∈ classes_to_swap then (aget p1c cl).getD [] else (aget p2c cl).getD [])).flatten
    ({ p1 with genes := child1_genes }, { p2 with genes := child2_genes }, r2)

/-- `mutate`: one of the three variants below the rate.  Python picks
gene *objects* with `random.choice`; the embedding picks the gene's
position, which is the same uniform draw. -/
def mutate (ga : GeneticAlgorithm) (c : Chromosome) (r : Rng) : Chromosome × Rng :=
  let ur := randomUnit r
  if ga.mutation_rate < ur.1 then (c, ur.2)
  else
    let mtr := randomChoice ["swap_slot", "change_faculty", "swap_subjects"] "" ur.2
    let mt := mtr.1
    let r2 := mtr.2
    if c.genes = [] then (c, r2)
    else if mt = "swap_slot" then
      let idxs := (List.range c.genes.length).filter
        (fun i => (c.genes.getD i dummyGene).is_lab = false)
      if idxs ≠ [] then
        let ir := randomChoice idxs 0 r2
        let i1 := ir.1
        let g1 := c.genes.getD i1 dummyGene
        let cands := (List.range c.genes.length).filter (fun j =>
          let g := c.genes.getD j dummyGene
          g.class_id = g1.class_id ∧ g ≠ g1 ∧ g.is_lab = false)
        if cands ≠ [] then
          let jr := randomChoice cands 0 ir.2
          let g2 := c.genes.getD jr.1 dummyGene
          let genes1 := (c.genes.set i1 { g1 with time_slot_id := g2.time_slot_id }).set
            jr.1 { g2 with time_slot_id := g1.time_slot_id }
          ({ c with genes := genes1 }, jr.2)
        else (c, ir.2)
      else (c, r2)
    else if mt = "change_faculty" then
      let ir := randomChoice (List.range c.genes.length) 0 r2
      let g := c.genes.getD ir.1 dummyGene
      let elig := get_eligible_faculty_for_subject ga g.subject_id
      if elig ≠ [] then
        let fpr := randomChoice elig 0 ir.2
        ({ c with genes := c.genes.set ir.1 { g with faculty_id := fpr.1 } }, fpr.2)
      else (c, ir.2)
    else
      let ir := randomChoice (List.range c.genes.length) 0 r2
      let i1 := ir.1
      let g1 := c.genes.getD i1 dummyGene
      let cands := (List.range c.genes.length).filter (fun j =>
        let g := c.genes.getD j dummyGene
        g.time_slot_id = g1.time_slot_id ∧ g.class_id ≠ g1.class_id)
      if cands ≠ [] then
        let jr := randomChoice cands 0 ir.2
        let g2 := c.genes.getD jr.1 dummyGene
        let genes1 := (c.genes.set i1 { g1 with faculty_id := g2.faculty_id }).set
          jr.1 { g2 with faculty_id := g1.faculty_id }
        ({ c with genes := genes1 }, jr.2)
      else (c, ir.2)

/-! ## `evolve` -/

/-- The evolver's loop state. -/
structure EvSt where
  population : List Chromosome
  best_ever : Chromosome
  fitness_history : List ℚ
  rng : Rng

/-- `population.sort(key=lambda c: c.fitness, reverse=True)` — a stable
descending sort. -/
def sortPopDesc (pop : List Chromosome) : List Chromosome :=
  stableSort (fun a b => decide (b.fitness ≤ a.fitness)) pop

/-- The `while len(new_population) < self.population_size` breeding
loop.  `fuel = population_size` suffices: every iteration appends at
least one chromosome and the loop stops as soon as the population is
full, so running out of fuel can only happen with the guard already
false. -/
def buildPopGo (ga : GeneticAlgorithm) (sorted : List Chromosome) :
    ℕ → List Chromosome → Rng → List Chromosome × Rng
  | 0, acc, r => (acc, r)
  | fuel + 1, acc, r =>
    if ga.population_size ≤ acc.length then (acc, r)
    else
      let p1r := tournament_selection ga sorted r
      let p2r := tournament_selection ga sorted p1r.2
      let xr := crossover ga p1r.1 p2r.1 p2r.2
      let m1 := mutate ga xr.1 xr.2.2
      let m2 := mutate ga xr.2.1 m1.2
      let rp1 := repair_labs ga m1.1 m2.2
      let rp2 := repair_labs ga m2.1 rp1.2
      let c1 := evalChrom ga rp1.1
      let c2 := evalChrom ga rp2.1
      let acc1 := acc ++ [c1]
      let acc2 := if acc1.length < ga.population_size then acc1 ++ [c2] else acc1
      buildPopGo ga sorted fuel acc2 rp2.2

/-- One generation of `evolve`: sort, track the best, record history,
then either stop (early termination on fitness ≥ 0) or breed the next
population.  Returns the new state and the stop flag. -/
def genStep (ga : GeneticAlgorithm) (st : EvSt) : EvSt × Bool :=
  let pop := sortPopDesc st.population
  let current_best := pop.headD dummyChrom
  let best := if st.best_ever.fitness < current_best.fitness then current_best
    else st.best_ever
  let hist := st.fitness_history ++ [current_best.fitness]
  if 0 ≤ current_best.fitness then
    ({ population := pop, best_ever := best, fitness_history := hist, rng := st.rng }, true)
  else
    let elites := pop.take ga.elite_count
    let bp := buildPopGo ga pop ga.population_size elites st.rng
    ({ population := bp.1, best_ever := best, fitness_history := hist, rng := bp.2 }, false)

/-- `for generation in range(self.generations)` with the early break. -/
def evolveLoop (ga : GeneticAlgorithm) : ℕ → EvSt → EvSt
  | 0, st => st
  | n + 1, st =>
    let s := genStep ga st
    if s.2 then s.1 else evolveLoop ga n s.1

/-- `evolve`: returns `(best_chromosome, fitness_history)`. -/
def evolve (ga : GeneticAlgorithm) (r : Rng) : Chromosome × List ℚ :=
  let ip := initialize_population ga r
  let pop := ip.1.map (evalChrom ga)
  let best0 := maxByFitness pop
  let stF := evolveLoop ga ga.generations ⟨pop, best0, [], ip.2⟩
  (stF.best_ever, stF.fitness_history)

/-! ## Predicates used by the claims -/

/-- The lab genes of one class, as collected by the first fitness pass
into `class_labs`. -/
def labGenesOf (genes : List Gene) (cid : ℕ) : List Gene :=
  genes.filter (fun g => g.is_lab = true ∧ g.class_id = cid)

/-- Two genes that agree on everything except possibly the time slot. -/
def sameButSlot (g1 g2 : Gene) : Prop :=
  g1.class_id = g2.class_id ∧ g1.subject_id = g2.subject_id ∧
  g1.faculty_id = g2.faculty_id ∧ g1.assistant_faculty_id = g2.assistant_faculty_id ∧
  g1.is_lab = g2.is_lab

/-- The slots of the lab genes of one `(class, subject)` pair. -/
def labGroupSlots (genes : List Gene) (cid sid : ℕ) : List ℕ :=
  (genes.filter (fun g => g.is_lab = true ∧ g.class_id = cid ∧ g.subject_id = sid)).map
    (fun g => g.time_slot_id)

/-- A `(class, subject)` lab group of exactly three genes whose slots
are not three contiguous same-day periods. -/
def brokenTriple (ga : GeneticAlgorithm) (genes : List Gene) (cid sid : ℕ) : Prop :=
  (labGroupSlots genes cid sid).length = 3 ∧
  check_lab_continuity ga (labGroupSlots genes cid sid) = false

/-- The genes of one class in a chromosome. -/
def genesFor (genes : List Gene) (cid : ℕ) : List Gene :=
  genes.filter (fun g => g.class_id = cid)

/-- The faculty a gene books: the main faculty plus the assistant when
the assistant id is truthy (exactly the ids the fitness pass inserts
into `faculty_schedule` / counts in `faculty_hours`). -/
def geneFacs (g : Gene) : List ℕ :=
  g.faculty_id ::
    (if optTruthy g.assistant_faculty_id then [g.assistant_faculty_id.getD 0] else [])

/-- Total hours booked for faculty `f` over a gene list (one per role). -/
def hoursOf (genes : List Gene) (f : ℕ) : ℕ :=
  ((genes.map geneFacs).flatten).count f

/-- Invariant of the per-class passes of the constructor: the genes
appended so far for class `cid` (past the fixed prefix `base`) all carry
`cid`, their slots are exactly the class's `used` set (in reverse append
order, since each placement conses onto `used`), `used` is
duplicate-free and holds only real slot ids. -/
def ClassInv (ga : GeneticAlgorithm) (cid : ℕ) (base : List Gene)
    (p : BuildSt × ClassSt) : Prop :=
  ∃ new : List Gene,
    p.1.genes = base ++ new ∧
    (∀ g ∈ new, g.class_id = cid) ∧
    new.map (fun g => g.time_slot_id) = p.2.used.reverse ∧
    p.2.used.Nodup ∧
    (∀ s ∈ p.2.used, s ∈ slotIds ga)

/-- The same invariant for the fill loop, extended with the facts that
the pending slot queue is duplicate-free, disjoint from `used` and made
of real slot ids. -/
def FillInv (ga : GeneticAlgorithm) (cid : ℕ) (base : List Gene)
    (fs : FillSt) : Prop :=
  ∃ new : List Gene,
    fs.genes = base ++ new ∧
    (∀ g ∈ new, g.class_id = cid) ∧
    new.map (fun g => g.time_slot_id) = fs.used.reverse ∧
    fs.used.Nodup ∧
    (∀ s ∈ fs.used, s ∈ slotIds ga) ∧
    fs.queue.Nodup ∧
    (∀ s ∈ fs.queue, s ∉ fs.used ∧ s ∈ slotIds ga)

/-- Slot changes from `orig` to `cur` happen only at genes of broken
lab triples of `orig` (the frame property of `_repair_labs`). -/
def slotChangedOK (ga : GeneticAlgorithm) (orig cur : List Gene) : Prop :=
  ∀ i : ℕ, (cur.getD i dummyGene).time_slot_id ≠ (orig.getD i dummyGene).time_slot_id →
    (orig.getD i dummyGene).is_lab = true ∧
    brokenTriple ga orig (orig.getD i dummyGene).class_id (orig.getD i dummyGene).subject_id

/-- Number of genes of one (class, subject) pair. -/
def countPair (l : List Gene) (cid sid : ℕ) : ℕ :=
  (l.filter (fun g => g.class_id = cid ∧ g.subject_id = sid)).length

/-- The slot ids of the lab genes of one (class, subject) pair. -/
def pairLabSlots (l : List Gene) (cid sid : ℕ) : List ℕ :=
  (l.filter (fun g => g.class_id = cid ∧ g.subject_id = sid ∧ g.is_lab = true)).map
    (fun g => g.time_slot_id)

/-- A set of slot ids that avoids period 4 and is closed under
same-day-same-half completion: whenever it holds one slot of a
morning/afternoon half of a day it holds the whole half.  Unions of
half-day lab blocks have this shape. -/
def HalfUnion (ga : GeneticAlgorithm) (used : List ℕ) : Prop :=
  ∀ t ∈ ga.time_slots, t.id ∈ used →
    (t.period ≤ 3 ∨ 5 ≤ t.period) ∧
    ∀ t' ∈ ga.time_slots, t'.day = t.day →
      ((t'.period ≤ 3 ∧ t.period ≤ 3) ∨ (5 ≤ t'.period ∧ 5 ≤ t.period)) →
      t'.id ∈ used

/-- The id set of one complete morning ({1,2,3}) or afternoon ({5,6,7})
half of one day. -/
def FullHalf (ga : GeneticAlgorithm) (ids : List ℕ) : Prop :=
  ∃ day : String,
    (∀ t ∈ ga.time_slots, (t.id ∈ ids ↔ t.day = day ∧ t.period ≤ 3)) ∨
    (∀ t ∈ ga.time_slots, (t.id ∈ ids ↔ t.day = day ∧ 5 ≤ t.period))

/-- Every per-lab global room-usage entry is a union of half-day
blocks. -/
def RoomHU (ga : GeneticAlgorithm) (st : BuildSt) : Prop :=
  ∀ k : ℕ, HalfUnion ga ((aget st.room_usage k).getD [])

/-- The teaching grid is intact: every day that appears in the slot
table carries exactly the seven periods 1..7, once each. -/
def GridOK (ga : GeneticAlgorithm) : Prop :=
  ∀ t ∈ ga.time_slots,
    ((ga.time_slots.filter (fun t2 => t2.day = t.day)).map
      (fun t2 => t2.period)).Perm [1, 2, 3, 4, 5, 6, 7]

/-- A concrete 7-period × 5-day teaching grid (ids 1..35), used to
instantiate theorems on a checkable configuration. -/
def demoSlots : List SlotInfo :=
  (List.range 35).map (fun i =>
    ⟨i + 1, ["MON", "TUE", "WED", "THU", "FRI"].getD (i / 7) "", ((i % 7 : ℕ) : ℤ) + 1⟩)

/-- A small concrete problem snapshot: one class, one 5-hour theory
subject, one faculty member, the full 35-slot grid. -/
def demoGA : GeneticAlgorithm :=
  { population_size := 1, generations := 1,
    classes := [⟨1, 1⟩],
    subjects := [⟨10, "MA101", "THEORY", 5, 1⟩],
    faculties := [⟨7, 18⟩],
    time_slots := demoSlots }

/-- Like `demoGA` but with a single lab subject, exercising the lab
pass of the constructor. -/
def demoLabGA : GeneticAlgorithm :=
  { population_size := 1, generations := 1,
    classes := [⟨1, 1⟩],
    subjects := [⟨20, "PH101L", "LAB", 6, 1⟩],
    faculties := [⟨7, 18⟩],
    time_slots := demoSlots }

/-- A snapshot with non-empty faculty preferences: two classes on a
6-slot day, faculty 1 teaching all of class 1 (subject 10, code "A")
plus one hour of class 2 (subject 21, code "B1"), faculty 2..6 one hour
each of class 2, and every faculty preferring the codes of the subjects
they teach. -/
def demoPrefGA : GeneticAlgorithm :=
  { population_size := 1, generations := 1,
    classes := [⟨1, 1⟩, ⟨2, 2⟩],
    subjects := [⟨10, "A", "THEORY", 6, 1⟩,
                 ⟨21, "B1", "THEORY", 1, 2⟩, ⟨22, "B2", "THEORY", 1, 2⟩,
                 ⟨23, "B3", "THEORY", 1, 2⟩, ⟨24, "B4", "THEORY", 1, 2⟩,
                 ⟨25, "B5", "THEORY", 1, 2⟩, ⟨26, "B6", "THEORY", 1, 2⟩],
    faculties := [⟨1, 20⟩, ⟨2, 20⟩, ⟨3, 20⟩, ⟨4, 20⟩, ⟨5, 20⟩, ⟨6, 20⟩],
    time_slots := [⟨1, "MON", 1⟩, ⟨2, "MON", 2⟩, ⟨3, "MON", 3⟩,
                   ⟨4, "MON", 4⟩, ⟨5, "MON", 5⟩, ⟨6, "MON", 6⟩],
    faculty_preferences := [(1, ["A", "B1"]), (2, ["B2"]), (3, ["B3"]),
                            (4, ["B4"]), (5, ["B5"]), (6, ["B6"])] }

/-- A full 2-class timetable for `demoPrefGA` with exactly one faculty
double-booking: faculty 1 holds class 1 on all six slots and class 2's
subject 21 on slot 1 again. -/
def demoClashGenes : List Gene :=
  [⟨1, 10, 1, 1, false, none⟩, ⟨1, 10, 1, 2, false, none⟩,
   ⟨1, 10, 1, 3, false, none⟩, ⟨1, 10, 1, 4, false, none⟩,
   ⟨1, 10, 1, 5, false, none⟩, ⟨1, 10, 1, 6, false, none⟩,
   ⟨2, 21, 1, 1, false, none⟩, ⟨2, 22, 2, 2, false, none⟩,
   ⟨2, 23, 3, 3, false, none⟩, ⟨2, 24, 4, 4, false, none⟩,
   ⟨2, 25, 5, 5, false, none⟩, ⟨2, 26, 6, 6, false, none⟩]

/-- The clashing chromosome, evaluated (its twelve preference bonuses
outweigh the one faculty-clash penalty: fitness 12·100 − 1000 = 200). -/
def demoPrefChrom : Chromosome := evalChrom demoPrefGA ⟨demoClashGenes, 0⟩

/-- An evolver state holding the evaluated clashing chromosome. -/
def demoPrefEvSt : EvSt := ⟨[demoPrefChrom], demoPrefChrom, [], []⟩

/-- An evaluated empty chromosome over the preference-free `demoGA`. -/
def demoCleanChrom : Chromosome := evalChrom demoGA ⟨[], 0⟩

/-- An evolver state holding the evaluated empty chromosome. -/
def demoCleanEvSt : EvSt := ⟨[demoCleanChrom], demoCleanChrom, [], []⟩

/-! ## The database layer of `generate_department_timetable`

The Django model rows (the `core.models` module itself is not part of
`src/`; the row shapes follow the fields the loader reads, per the
spec's data model, and the designation→cap table
`Faculty.WORKLOAD_LIMITS` is carried as part of the snapshot).  A `DB`
value is the visible database state; the loader function returns `none`
where the Python code would raise an uncaught exception (missing
department row, `config` being `None` inside an error f-string), and
otherwise `some` of the result dict and the new database state. -/

structure DeptRow where
  id : ℕ
  name : String
  code : String
  deriving DecidableEq

structure ConfigRow where
  active_semester_type : String
  deriving DecidableEq

structure SemRow where
  id : ℕ
  department_id : ℕ
  number : ℕ
  deriving DecidableEq

structure ClassRow where
  id : ℕ
  name : String
  semester_id : ℕ
  deriving DecidableEq

structure SubjRow where
  id : ℕ
  name : String
  code : String
  subject_type : String
  lecture_hours : ℕ
  tutorial_hours : ℕ
  practical_hours : ℕ
  semester_id : ℕ
  deriving DecidableEq

structure FacRow where
  id : ℕ
  name : String
  designation : String
  preferences : String
  is_active : Bool
  department_id : Option ℕ
  deriving DecidableEq

structure SlotRow where
  id : ℕ
  day : String
  period : ℤ
  slot_type : String
  deriving DecidableEq

structure EntryRow where
  class_section_id : ℕ
  subject_id : ℕ
  faculty_id : ℕ
  time_slot_id : ℕ
  semester_instance : String
  is_lab_session : Bool
  assistant_faculty_id : Option ℕ
  deriving DecidableEq

structure AssignRow where
  faculty_id : ℕ
  subject_id : ℕ
  semester_instance : String
  class_section_id : ℕ
  is_main : Bool
  deriving DecidableEq

structure DB where
  departments : List DeptRow
  config : Option ConfigRow
  semesters : List SemRow
  classes : List ClassRow
  subjects : List SubjRow
  faculties : List FacRow
  time_slots : List SlotRow
  entries : List EntryRow
  assignments : List AssignRow
  workload_limits : List (String × ℕ)
  deriving DecidableEq

/-- The result dict, reduced to the fields the claims talk about. -/
structure GenResult where
  success : Bool
  error : String
  deriving DecidableEq

/-- `needle` starts the list (char-by-char). -/
def listLeadsWith : List Char → List Char → Bool
  | [], _ => true
  | _ :: _, [] => false
  | a :: as, b :: bs => a = b && listLeadsWith as bs

/-- Django `field__contains=needle` on a string field. -/
def strContains (hay needle : String) : Bool :=
  (List.range (hay.data.length + 1)).any
    (fun i => listLeadsWith needle.data (hay.data.drop i))

/-- `[1,3,5,7]` when the configuration row exists and is ODD, else
`[2,4,6,8]` (an absent configuration row is falsy). -/
def semesterNumbers (db : DB) : List ℕ :=
  match db.config with
  | some cfg => if cfg.active_semester_type = "ODD" then [1, 3, 5, 7] else [2, 4, 6, 8]
  | none => [2, 4, 6, 8]

/-- `Semester.objects.filter(department_id=…, number__in=…).order_by('number')`. -/
def matchingSemesters (db : DB) (dep : ℕ) : List SemRow :=
  stableSort (fun a b => decide (a.number ≤ b.number))
    (db.semesters.filter (fun s => s.department_id = dep ∧ s.number ∈ semesterNumbers db))

def deptSemesterIds (db : DB) (dep : ℕ) : List ℕ :=
  (matchingSemesters db dep).map (fun s => s.id)

/-- `ClassSection.objects.filter(semester_id__in=semester_ids)`. -/
def deptClasses (db : DB) (dep : ℕ) : List ClassRow :=
  db.classes.filter (fun c => c.semester_id ∈ deptSemesterIds db dep)

def subjHours (s : SubjRow) : ℕ :=
  s.lecture_hours + s.tutorial_hours + s.practical_hours

/-- The department's subjects with the zero-hour rows skipped. -/
def deptValidSubjects (db : DB) (dep : ℕ) : List SubjRow :=
  (db.subjects.filter (fun s => s.semester_id ∈ deptSemesterIds db dep)).filter
    (fun s => subjHours s ≠ 0)

/-- `TimeSlot.objects.filter(slot_type__in=['MORNING','AFTERNOON'])`. -/
def teachingSlots (db : DB) : List SlotRow :=
  db.time_slots.filter (fun t => t.slot_type = "MORNING" ∨ t.slot_type = "AFTERNOON")

/-- The department + unassigned faculty, the cross-department faculty
whose preference string contains one of the subject codes, and the
all-active fallback when the union is empty. -/
def deptFaculties (db : DB) (dep : ℕ) : List FacRow :=
  let subject_codes := (deptValidSubjects db dep).map (fun s => s.code)
  let dept_fac := db.faculties.filter
    (fun f => f.is_active = true ∧ (f.department_id = some dep ∨ f.department_id = none))
  let cross_fac := db.faculties.filter
    (fun f => f.is_active = true ∧ f.department_id ≠ some dep ∧ f.department_id ≠ none ∧
      subject_codes.any (fun c => strContains f.preferences c))
  let combined := (dept_fac ++ cross_fac).dedup
  if combined = [] then db.faculties.filter (fun f => f.is_active = true) else combined

def classSemesterOf (db : DB) (cid : ℕ) : Option ℕ :=
  (db.classes.find? (fun c => c.id = cid)).map (fun c => c.semester_id)

def subjectCodeOfRow (db : DB) (sid : ℕ) : String :=
  ((db.subjects.find? (fun s => s.id = sid)).map (fun s => s.code)).getD ""

/-- `exclude(class_section__semester_id__in=semester_ids)`: the entry's
class belongs to another department's semesters. -/
def entryOutsideDept (db : DB) (dep : ℕ) (cid : ℕ) : Bool :=
  match classSemesterOf db cid with
  | some s => decide (s ∉ deptSemesterIds db dep)
  | none => true

/-- Build the `GeneticAlgorithm` snapshot exactly as
`generate_department_timetable` feeds `load_data`. -/
def loadGA (db : DB) (dep : ℕ) (inst : String) : GeneticAlgorithm :=
  let semester_ids := deptSemesterIds db dep
  let classes := deptClasses db dep
  let subjects := deptValidSubjects db dep
  let faculties := deptFaculties db dep
  let faculty_ids := faculties.map (fun f => f.id)
  let prefs := faculties.foldl
    (fun (m : List (ℕ × List String)) f =>
      if f.preferences ≠ "" then
        assocUpd m f.id ((f.preferences.splitOn ",").map (fun p => p.trim))
      else m) []
  let history := db.assignments.foldl
    (fun (m : List (ℕ × List String)) a =>
      if a.semester_instance ≠ inst then
        assocAdjust m a.faculty_id [] (fun l => l ++ [subjectCodeOfRow db a.subject_id])
      else m) []
  let pb1 := db.entries.foldl
    (fun (m : List (ℕ × List ℕ)) e =>
      if e.semester_instance = inst ∧ e.faculty_id ∈ faculty_ids ∧
          entryOutsideDept db dep e.class_section_id = true then
        assocAdjust m e.faculty_id [] (fun l => l.insert e.time_slot_id)
      else m) []
  let pb2 := db.entries.foldl
    (fun (m : List (ℕ × List ℕ)) e =>
      match e.assistant_faculty_id with
      | some a =>
        if e.semester_instance = inst ∧ a ∈ faculty_ids ∧
            entryOutsideDept db dep e.class_section_id = true then
          assocAdjust m a [] (fun l => l.insert e.time_slot_id)
        else m
      | none => m) pb1
  { population_size := 100, generations := 500, crossover_rate := 8 / 10,
    mutation_rate := 1 / 10, elite_count := 5, tournament_size := 5,
    classes := classes.map (fun c => ⟨c.id, c.semester_id⟩),
    subjects := subjects.map (fun s => ⟨s.id, s.code, s.subject_type, subjHours s, s.semester_id⟩),
    faculties := faculties.map (fun f => ⟨f.id, (aget db.workload_limits f.designation).getD 20⟩),
    time_slots := (teachingSlots db).map (fun t => ⟨t.id, t.day, t.period⟩),
    faculty_preferences := prefs,
    faculty_history := history,
    pre_booked_slots := pb2,
    faculty_workload_limits := faculties.foldl
      (fun m f => assocUpd m f.id ((aget db.workload_limits f.designation).getD 20)) [] }

/-- The delete filter: entries of this department's semesters in this
term instance. -/
def entryDeleted (db : DB) (dep : ℕ) (inst : String) (e : EntryRow) : Bool :=
  decide (e.semester_instance = inst) && !(entryOutsideDept db dep e.class_section_id)

/-- The `TimetableEntry.objects.create` rows for the best solution. -/
def genEntries (inst : String) (genes : List Gene) : List EntryRow :=
  genes.map (fun g =>
    ⟨g.class_id, g.subject_id, g.faculty_id, g.time_slot_id, inst, g.is_lab,
      g.assistant_faculty_id⟩)

/-- `FacultySubjectAssignment.objects.get_or_create` on the tracking
key (faculty, subject, term instance, class). -/
def addAssign (assigns : List AssignRow) (fid sid : ℕ) (inst : String) (cid : ℕ)
    (main : Bool) : List AssignRow :=
  if assigns.any (fun a => a.faculty_id = fid ∧ a.subject_id = sid ∧
      a.semester_instance = inst ∧ a.class_section_id = cid) then assigns
  else assigns ++ [⟨fid, sid, inst, cid, main⟩]

/-- The per-gene assignment bookkeeping (assistant only when truthy). -/
def genAssigns (inst : String) (genes : List Gene) (assigns0 : List AssignRow) :
    List AssignRow :=
  genes.foldl
    (fun acc g =>
      let acc1 := addAssign acc g.faculty_id g.subject_id inst g.class_id true
      if optTruthy g.assistant_faculty_id then
        addAssign acc1 (g.assistant_faculty_id.getD 0) g.subject_id inst g.class_id false
      else acc1) assigns0

/-- `generate_department_timetable`: validations in source order, then
the GA run, the delete of this department's existing entries for the
term, and the creation of the new entry and assignment rows. -/
def generate_department_timetable (db : DB) (dep : ℕ) (inst : String) (r : Rng) :
    Option (GenResult × DB) :=
  match db.departments.find? (fun d => d.id = dep) with
  | none => none
  | some department =>
    if matchingSemesters db dep = [] then
      match db.config with
      | none => none
      | some cfg =>
        some (⟨false, "No " ++ cfg.active_semester_type ++ " semesters found for " ++
          department.code⟩, db)
    else if deptClasses db dep = [] then
      match db.config with
      | none => none
      | some cfg =>
        some (⟨false, "No classes found for " ++ department.code ++ " in " ++
          cfg.active_semester_type ++ " semesters"⟩, db)
    else if deptValidSubjects db dep = [] then
      some (⟨false, "No subjects found for " ++ department.code⟩, db)
    else if teachingSlots db = [] then
      some (⟨false, "No time slots configured. Please initialize time slots first."⟩, db)
    else if (teachingSlots db).length ≠ 35 then
      some (⟨false, "Invalid time slot configuration. Expected 35 teaching slots, found " ++
        toString (teachingSlots db).length ++ ". Please re-initialize time slots."⟩, db)
    else
      let ga := loadGA db dep inst
      let ev := evolve ga r
      let best := ev.1
      let kept := db.entries.filter (fun e => !(entryDeleted db dep inst e))
      some (⟨true, ""⟩,
        { db with entries := kept ++ genEntries inst best.genes,
                  assignments := genAssigns inst best.genes db.assignments })

/-- A small database snapshot: a CS department with one ODD semester
and one class but no subjects, plus one pre-existing timetable entry
that an aborted run must leave intact. -/
def demoDB : DB :=
  { departments := [⟨1, "Computer Science", "CS"⟩],
    config := some ⟨"ODD"⟩,
    semesters := [⟨10, 1, 1⟩],
    classes := [⟨100, "CS-A", 10⟩],
    subjects := [],
    faculties := [],
    time_slots := [],
    entries := [⟨100, 5, 6, 7, "2024-ODD", false, none⟩],
    assignments := [],
    workload_limits := [] }

/-! ## Helper lemmas about the dict / randomness primitives -/

theorem aget_assocUpd_self {κ α : Type} [DecidableEq κ] (m : List (κ × α)) (k : κ) (v : α) :
    aget (assocUpd m k v) k = some v := by
  induction m with
  | nil => simp [assocUpd, aget]
  | cons p t ih =>
    obtain ⟨k0, v0⟩ := p
    by_cases h : k = k0
    · simp [assocUpd, h, aget]
    · simp [assocUpd, h, aget, ih]

theorem aget_assocUpd_ne {κ α : Type} [DecidableEq κ] (m : List (κ × α)) (k k' : κ) (v : α)
    (h : k' ≠ k) : aget (assocUpd m k v) k' = aget m k' := by
  induction m with
  | nil => simp [assocUpd, aget, h]
  | cons p t ih =>
    obtain ⟨k0, v0⟩ := p
    by_cases h0 : k = k0
    · subst h0; simp [assocUpd, aget, h]
    · by_cases h1 : k' = k0 <;> simp [assocUpd, aget, h0, h1, ih]

theorem aget_assocAdjust_self {κ α : Type} [DecidableEq κ] (m : List (κ × α)) (k : κ)
    (d : α) (f : α → α) :
    aget (assocAdjust m k d f) k = some (f ((aget m k).getD d)) := by
  simp [assocAdjust, aget_assocUpd_self]

theorem aget_assocAdjust_ne {κ α : Type} [DecidableEq κ] (m : List (κ × α)) (k k' : κ)
    (d : α) (f : α → α) (h : k' ≠ k) :
    aget (assocAdjust m k d f) k' = aget m k' := by
  simp [assocAdjust, aget_assocUpd_ne _ _ _ _ h]

theorem assocUpd_fst {κ α : Type} [DecidableEq κ] (m : List (κ × α)) (k : κ) (v : α) :
    (assocUpd m k v).map Prod.fst =
      if k ∈ m.map Prod.fst then m.map Prod.fst else m.map Prod.fst ++ [k] := by
  induction m with
  | nil => simp [assocUpd]
  | cons p t ih =>
    obtain ⟨k0, v0⟩ := p
    by_cases h : k = k0
    · subst h; simp [assocUpd]
    · simp [assocUpd, h, ih]
      by_cases h2 : k ∈ t.map Prod.fst <;> simp [h2, h]

theorem assocUpd_fst_nodup {κ α : Type} [DecidableEq κ] (m : List (κ × α)) (k : κ) (v : α)
    (h : (m.map Prod.fst).Nodup) : ((assocUpd m k v).map Prod.fst).Nodup := by
  rw [assocUpd_fst]
  by_cases hk : k ∈ m.map Prod.fst
  · simpa [hk]
  · simp only [hk, if_false]
    refine List.Nodup.append h (List.nodup_singleton k) ?_
    intro a ha hb
    rw [List.mem_singleton] at hb
    subst hb
    exact hk ha

theorem aget_of_mem_nodup {κ α : Type} [DecidableEq κ] (m : List (κ × α)) (k : κ) (v : α)
    (hnd : (m.map Prod.fst).Nodup) (hmem : (k, v) ∈ m) : aget m k = some v := by
  induction m with
  | nil => simp at hmem
  | cons p t ih =>
    obtain ⟨k0, v0⟩ := p
    simp only [List.map_cons, List.nodup_cons] at hnd
    rcases List.mem_cons.1 hmem with h | h
    · obtain ⟨h1, h2⟩ := Prod.mk.injEq .. ▸ h
      simp_all [aget]
    · have hk : k ≠ k0 := by
        rintro rfl
        exact hnd.1 (List.mem_map.2 ⟨(k, v), h, rfl⟩)
      simp [aget, hk, ih hnd.2 h]

theorem mem_of_aget {κ α : Type} [DecidableEq κ] (m : List (κ × α)) (k : κ) (v : α)
    (h : aget m k = some v) : (k, v) ∈ m := by
  induction m with
  | nil => simp [aget] at h
  | cons p t ih =>
    obtain ⟨k0, v0⟩ := p
    by_cases hk : k = k0
    · subst hk
      simp only [aget, if_true, eq_self_iff_true, Option.some.injEq] at h
      subst h
      exact List.mem_cons_self _ _
    · simp only [aget, if_neg hk] at h
      exact List.mem_cons_of_mem _ (ih h)

theorem cons_eraseIdx_perm {α : Type} :
    ∀ (l : List α) (i : ℕ), i < l.length → ∀ d : α,
      (l.getD i d :: l.eraseIdx i).Perm l := by
  intro l
  induction l with
  | nil => intro i h; simp at h
  | cons x xs ih =>
    intro i h d
    cases i with
    | zero => simp [List.eraseIdx]
    | succ j =>
      have hj : j < xs.length := by simpa using h
      have h1 := ih j hj d
      have h2 : ((x :: xs).getD (j + 1) d :: (x :: xs).eraseIdx (j + 1)) =
          xs.getD j d :: x :: xs.eraseIdx j := by
        simp [List.eraseIdx]
      rw [h2]
      exact (List.Perm.swap x (xs.getD j d) (xs.eraseIdx j)).trans (h1.cons x)

theorem shuffleGo_perm {α : Type} :
    ∀ (fuel : ℕ) (xs : List α) (r : Rng), ((shuffleGo fuel xs r).1).Perm xs := by
  intro fuel
  induction fuel with
  | zero => intro xs r; simp [shuffleGo]
  | succ n ih =>
    intro xs r
    match xs with
    | [] => simp [shuffleGo]
    | y :: ys =>
      simp only [shuffleGo]
      have hlen : (rngNext r).1 % (y :: ys).length < (y :: ys).length :=
        Nat.mod_lt _ (by simp)
      have hperm := cons_eraseIdx_perm (y :: ys) ((rngNext r).1 % (y :: ys).length) hlen y
      have := (ih ((y :: ys).eraseIdx ((rngNext r).1 % (y :: ys).length)) (rngNext r).2)
      exact (this.cons _).trans hperm

theorem randomShuffle_perm {α : Type} (xs : List α) (r : Rng) :
    ((randomShuffle xs r).1).Perm xs :=
  shuffleGo_perm xs.length xs r

theorem sampleGo_mem_subset {α : Type} :
    ∀ (k : ℕ) (xs : List α) (r : Rng) (x : α), x ∈ (sampleGo k xs r).1 → x ∈ xs := by
  intro k
  induction k with
  | zero => intro xs r x h; simp [sampleGo] at h
  | succ n ih =>
    intro xs r x h
    match xs with
    | [] => simp [sampleGo] at h
    | y :: ys =>
      simp only [sampleGo] at h
      rcases List.mem_cons.1 h with h | h
      · subst h
        have hlt : (rngNext r).1 % (y :: ys).length < (y :: ys).length :=
          Nat.mod_lt _ (by simp)
        rw [List.getD_eq_getElem (y :: ys) y hlt]
        exact List.getElem_mem hlt
      · have := ih _ _ _ h
        have hsub := List.eraseIdx_subset (l := y :: ys)
          (k := (rngNext r).1 % (y :: ys).length)
        exact hsub this

theorem insertSorted_perm {α : Type} (le : α → α → Bool) (x : α) (l : List α) :
    (insertSorted le x l).Perm (x :: l) := by
  induction l with
  | nil => simp [insertSorted]
  | cons y ys ih =>
    by_cases h : le y x
    · simp only [insertSorted, h, if_pos]
      exact (ih.cons y).trans (List.Perm.swap x y ys)
    · simp [insertSorted, h]

theorem stableSort_perm {α : Type} (le : α → α → Bool) (l : List α) :
    (stableSort le l).Perm l := by
  suffices h : ∀ (l acc : List α),
      (l.foldl (fun acc x => insertSorted le x acc) acc).Perm (acc ++ l) by
    simpa using h l []
  intro l
  induction l with
  | nil => intro acc; simp
  | cons x xs ih =>
    intro acc
    have h1 := ih (insertSorted le x acc)
    have h2 : (insertSorted le x acc ++ xs).Perm (acc ++ x :: xs) := by
      have := (insertSorted_perm le x acc).append_right xs
      exact this.trans (List.perm_middle.symm)
    simpa [List.foldl_cons] using h1.trans h2

theorem drawKeys_map_fst {α : Type} :
    ∀ (l : List α) (r : Rng), ((drawKeys l r).1).map Prod.fst = l := by
  intro l
  induction l with
  | nil => intro r; simp [drawKeys]
  | cons x xs ih => intro r; simp [drawKeys, ih]

/-! ## Claim C5: monotone best-ever fitness -/

theorem genStep_best_ever (ga : GeneticAlgorithm) (st : EvSt) :
    ((genStep ga st).1).best_ever =
      (if st.best_ever.fitness < ((sortPopDesc st.population).headD dummyChrom).fitness
       then (sortPopDesc st.population).headD dummyChrom else st.best_ever) := by
  simp only [genStep]
  split <;> rfl

theorem genStep_best_mono (ga : GeneticAlgorithm) (st : EvSt) :
    st.best_ever.fitness ≤ ((genStep ga st).1).best_ever.fitness := by
  rw [genStep_best_ever]
  split
  · next h => exact le_of_lt h
  · exact le_refl _

theorem evolveLoop_best_mono (ga : GeneticAlgorithm) :
    ∀ (n : ℕ) (st : EvSt),
      st.best_ever.fitness ≤ (evolveLoop ga n st).best_ever.fitness := by
  intro n
  induction n with
  | zero => intro st; simp [evolveLoop]
  | succ m ih =>
    intro st
    simp only [evolveLoop]
    by_cases h : (genStep ga st).2
    · simpa [h] using genStep_best_mono ga st
    · simpa [h] using le_trans (genStep_best_mono ga st) (ih (genStep ga st).1)

/-- Claim C5 (confirmed): over any run of the evolver the best-ever
fitness is monotonically non-decreasing — after any one generation step
(`genStep`, the transition from the state after generation `n` to the
state after generation `n+1`) the recorded best-ever fitness is `≥` the
previous one, and hence any number of further generations
(`evolveLoop`) can only raise it. -/
theorem best_ever_monotone (ga : GeneticAlgorithm) (st : EvSt) (n : ℕ) :
    st.best_ever.fitness ≤ ((genStep ga st).1).best_ever.fitness ∧
    st.best_ever.fitness ≤ (evolveLoop ga n st).best_ever.fitness :=
  ⟨genStep_best_mono ga st, evolveLoop_best_mono ga n st⟩

/-! ## Claim C7: wrong-count lab subjects are fined exactly −10000 -/

/-- Claim C7 (confirmed): in the fitness evaluation, a scheduled lab
subject of a class whose gene count differs from 3 contributes exactly
`WEIGHTS['lab_continuity'] * 2 = -10000` to the fitness, per subject. -/
theorem lab_wrong_count_penalty (ga : GeneticAlgorithm) (genes : List Gene)
    (cid sid : ℕ)
    (_hsched : sid ∈ (labGenesOf genes cid).map (fun g => g.subject_id))
    (hcount : ((labGenesOf genes cid).filter (fun g => g.subject_id = sid)).length ≠ 3) :
    subjectLabPenalty ga (labGenesOf genes cid) sid = -10000 := by
  unfold subjectLabPenalty
  simp only [List.length_map]
  rw [if_pos hcount]
  have hw : WEIGHTS "lab_continuity" = -5000 := by simp [WEIGHTS]
  rw [hw]
  norm_num

/-- Witness for C7 at a concrete input: a single lab gene for class 1,
subject 5 (count 1 ≠ 3). -/
theorem lab_wrong_count_penalty_witness :
    (5 ∈ (labGenesOf [⟨1, 5, 2, 10, true, none⟩] 1).map (fun g => g.subject_id) ∧
     ((labGenesOf [⟨1, 5, 2, 10, true, none⟩] 1).filter
        (fun g => g.subject_id = 5)).length ≠ 3) ∧
    subjectLabPenalty {} (labGenesOf [⟨1, 5, 2, 10, true, none⟩] 1) 5 = -10000 :=
  ⟨⟨by decide, by decide⟩,
   lab_wrong_count_penalty {} [⟨1, 5, 2, 10, true, none⟩] 1 5 (by decide) (by decide)⟩

/-! ## Claim C8: crossover partitions by class -/

theorem foldl_preserve {α β : Type} (P : α → Prop) (f : α → β → α)
    (h : ∀ a b, P a → P (f a b)) :
    ∀ (l : List β) (a0 : α), P a0 → P (l.foldl f a0) := by
  intro l
  induction l with
  | nil => intro a0 h0; simpa using h0
  | cons x xs ih => intro a0 h0; exact ih (f a0 x) (h a0 x h0)

theorem aget_eq_none_iff {κ α : Type} [DecidableEq κ] (m : List (κ × α)) (k : κ) :
    aget m k = none ↔ k ∉ m.map Prod.fst := by
  induction m with
  | nil => simp [aget]
  | cons p t ih =>
    obtain ⟨k0, v0⟩ := p
    by_cases h : k = k0 <;> simp [aget, h, ih]

theorem sampleGo_length {α : Type} :
    ∀ (k : ℕ) (xs : List α) (r : Rng), ((sampleGo k xs r).1).length = min k xs.length := by
  intro k
  induction k with
  | zero => intro xs r; simp [sampleGo]
  | succ n ih =>
    intro xs r
    match xs with
    | [] => simp [sampleGo]
    | y :: ys =>
      have hlt : (rngNext r).1 % (y :: ys).length < (y :: ys).length :=
        Nat.mod_lt _ (by simp)
      have herase : (((y :: ys).eraseIdx ((rngNext r).1 % (y :: ys).length))).length =
          ys.length := by
        rw [List.length_eraseIdx_of_lt hlt]
        simp
      simp only [sampleGo]
      rw [List.length_cons, ih, herase, List.length_cons]
      omega

/-- The value of `groupByClass` at a class id is the class's genes in
order. -/
theorem groupByClass_aget (genes : List Gene) (cid : ℕ) :
    ((aget (groupByClass genes) cid).getD []) =
      genes.filter (fun g => g.class_id = cid) := by
  suffices h : ∀ (gs : List Gene) (m : List (ℕ × List Gene)) (c : ℕ),
      ((aget (gs.foldl (fun m g => assocAdjust m g.class_id [] (fun l => l ++ [g])) m) c).getD [])
        = ((aget m c).getD []) ++ gs.filter (fun g => g.class_id = c) by
    have h0 := h genes [] cid
    have h1 : ((aget ([] : List (ℕ × List Gene)) cid).getD []) = [] := rfl
    rw [h1] at h0
    simpa [groupByClass] using h0
  intro gs
  induction gs with
  | nil => intro m c; simp
  | cons g t ih =>
    intro m c
    simp only [List.foldl_cons, List.filter_cons]
    rw [ih]
    by_cases h : g.class_id = c
    · subst h
      rw [aget_assocAdjust_self]
      simp
    · rw [aget_assocAdjust_ne _ _ _ _ _ (by simpa using Ne.symm h)]
      simp [h]

theorem groupByClass_keys_nodup (genes : List Gene) :
    ((groupByClass genes).map Prod.fst).Nodup := by
  exact foldl_preserve (fun (m : List (ℕ × List Gene)) => (m.map Prod.fst).Nodup)
    (fun m g => assocAdjust m g.class_id [] (fun l => l ++ [g]))
    (fun m g hm => assocUpd_fst_nodup _ _ _ hm) genes [] (by simp)

/-- Flattening class-homogeneous groups and filtering back by one class
recovers that class's group. -/
theorem filter_flatten_groups {α κ : Type} [DecidableEq κ]
    (ks : List κ) (f : κ → List α) (key : α → κ)
    (hks : ks.Nodup) (hkey : ∀ k ∈ ks, ∀ g ∈ f k, key g = k) (c : κ) :
    ((ks.map f).flatten.filter (fun g => key g = c)) = if c ∈ ks then f c else [] := by
  induction ks with
  | nil => simp
  | cons k t ih =>
    simp only [List.map_cons, List.flatten_cons, List.filter_append]
    have hk := hkey k (List.mem_cons_self _ _)
    have hnd := List.nodup_cons.1 hks
    by_cases hck : c = k
    · subst hck
      have h1 : (f c).filter (fun g => key g = c) = f c :=
        List.filter_eq_self.2 (fun g hg => by simpa using hk g hg)
      have h2 : ((t.map f).flatten.filter (fun g => key g = c)) = [] := by
        rw [ih hnd.2 (fun k hkt => hkey k (List.mem_cons_of_mem _ hkt))]
        simp [hnd.1]
      simp [h1, h2]
    · have h1 : (f k).filter (fun g => key g = c) = [] := by
        refine List.filter_eq_nil_iff.2 (fun g hg => ?_)
        have hgk := hk g hg
        simp [hgk]
        exact fun h => hck h.symm
      rw [h1, ih hnd.2 (fun k hkt => hkey k (List.mem_cons_of_mem _ hkt))]
      by_cases hct : c ∈ t <;> simp [hct, hck]

/-- Claim C8 (confirmed): crossover either clones both parents (failed
rate draw) or swaps whole per-class gene groups: there is a set `S` of
class ids, half of all class ids, with child 1 inheriting class `cid`
exactly from parent 2 when `cid ∈ S` and from parent 1 otherwise, and
child 2 the mirror image; genes within a class are never altered. -/
theorem crossover_class_partition (ga : GeneticAlgorithm) (p1 p2 : Chromosome) (r : Rng) :
    ((crossover ga p1 p2 r).1 = p1 ∧ (crossover ga p1 p2 r).2.1 = p2) ∨
    ∃ S : List ℕ,
      (∀ x ∈ S, x ∈ ((groupByClass p1.genes).map Prod.fst ++
        (groupByClass p2.genes).map Prod.fst).dedup) ∧
      S.length = (((groupByClass p1.genes).map Prod.fst ++
        (groupByClass p2.genes).map Prod.fst).dedup).length / 2 ∧
      ∀ cid : ℕ,
        ((crossover ga p1 p2 r).1.genes.filter (fun g => g.class_id = cid) =
          if cid ∈ S then p2.genes.filter (fun g => g.class_id = cid)
          else p1.genes.filter (fun g => g.class_id = cid)) ∧
        ((crossover ga p1 p2 r).2.1.genes.filter (fun g => g.class_id = cid) =
          if cid ∈ S then p1.genes.filter (fun g => g.class_id = cid)
          else p2.genes.filter (fun g => g.class_id = cid)) := by
  unfold crossover
  by_cases hrate : ga.crossover_rate < (randomUnit r).1
  · left
    simp [hrate]
  · right
    simp only [hrate, if_false]
    set keys := ((groupByClass p1.genes).map Prod.fst ++
      (groupByClass p2.genes).map Prod.fst).dedup with hkeys
    set S := (sampleGo (keys.length / 2) keys (randomUnit r).2).1 with hS
    refine ⟨S, fun x hx => sampleGo_mem_subset _ _ _ _ hx, ?_, ?_⟩
    · rw [hS, sampleGo_length]
      exact Nat.min_eq_left (Nat.div_le_self _ _)
    · intro cid
      have hknd : keys.Nodup := List.nodup_dedup _
      have hgrp1 : ∀ k, ∀ g ∈ (aget (groupByClass p1.genes) k).getD [], g.class_id = k := by
        intro k g hg
        rw [groupByClass_aget] at hg
        simpa using (List.mem_filter.1 hg).2
      have hgrp2 : ∀ k, ∀ g ∈ (aget (groupByClass p2.genes) k).getD [], g.class_id = k := by
        intro k g hg
        rw [groupByClass_aget] at hg
        simpa using (List.mem_filter.1 hg).2
      have hpick1 : ∀ k ∈ keys, ∀ g ∈ (if k ∈ S then (aget (groupByClass p2.genes) k).getD []
          else (aget (groupByClass p1.genes) k).getD []), g.class_id = k := by
        intro k _ g hg
        by_cases hk : k ∈ S
        · exact hgrp2 k g (by simpa [hk] using hg)
        · exact hgrp1 k g (by simpa [hk] using hg)
      have hpick2 : ∀ k ∈ keys, ∀ g ∈ (if k ∈ S then (aget (groupByClass p1.genes) k).getD []
          else (aget (groupByClass p2.genes) k).getD []), g.class_id = k := by
        intro k _ g hg
        by_cases hk : k ∈ S
        · exact hgrp1 k g (by simpa [hk] using hg)
        · exact hgrp2 k g (by simpa [hk] using hg)
      have hmain1 := filter_flatten_groups keys
        (fun k => if k ∈ S then (aget (groupByClass p2.genes) k).getD []
          else (aget (groupByClass p1.genes) k).getD [])
        (fun g => g.class_id) hknd hpick1 cid
      have hmain2 := filter_flatten_groups keys
        (fun k => if k ∈ S then (aget (groupByClass p1.genes) k).getD []
          else (aget (groupByClass p2.genes) k).getD [])
        (fun g => g.class_id) hknd hpick2 cid
      constructor
      · show (keys.map _).flatten.filter _ = _
        rw [hmain1]
        by_cases hmem : cid ∈ keys
        · rw [if_pos hmem]
          by_cases hcs : cid ∈ S <;> simp [hcs, groupByClass_aget]
        · rw [if_neg hmem]
          have hcs : cid ∉ S := fun h => hmem (sampleGo_mem_subset _ _ _ _ h)
          have h1 : aget (groupByClass p1.genes) cid = none := by
            rw [aget_eq_none_iff]
            intro h
            exact hmem (by rw [hkeys]; exact List.mem_dedup.2 (List.mem_append_left _ h))
          have h2 : aget (groupByClass p2.genes) cid = none := by
            rw [aget_eq_none_iff]
            intro h
            exact hmem (by rw [hkeys]; exact List.mem_dedup.2 (List.mem_append_right _ h))
          have hf1 : p1.genes.filter (fun g => g.class_id = cid) = [] := by
            rw [← groupByClass_aget, h1]; rfl
          have hf2 : p2.genes.filter (fun g => g.class_id = cid) = [] := by
            rw [← groupByClass_aget, h2]; rfl
          simp [hcs, hf1, hf2]
      · show (keys.map _).flatten.filter _ = _
        rw [hmain2]
        by_cases hmem : cid ∈ keys
        · rw [if_pos hmem]
          by_cases hcs : cid ∈ S <;> simp [hcs, groupByClass_aget]
        · rw [if_neg hmem]
          have hcs : cid ∉ S := fun h => hmem (sampleGo_mem_subset _ _ _ _ h)
          have h1 : aget (groupByClass p1.genes) cid = none := by
            rw [aget_eq_none_iff]
            intro h
            exact hmem (by rw [hkeys]; exact List.mem_dedup.2 (List.mem_append_left _ h))
          have h2 : aget (groupByClass p2.genes) cid = none := by
            rw [aget_eq_none_iff]
            intro h
            exact hmem (by rw [hkeys]; exact List.mem_dedup.2 (List.mem_append_right _ h))
          have hf1 : p1.genes.filter (fun g => g.class_id = cid) = [] := by
            rw [← groupByClass_aget, h1]; rfl
          have hf2 : p2.genes.filter (fun g => g.class_id = cid) = [] := by
            rw [← groupByClass_aget, h2]; rfl
          simp [hcs, hf1, hf2]

/-! ## Claim C9: repair is frame-preserving -/

theorem sameButSlot_refl (g : Gene) : sameButSlot g g := by
  simp [sameButSlot]

theorem sameButSlot_trans {g1 g2 g3 : Gene} (h1 : sameButSlot g1 g2)
    (h2 : sameButSlot g2 g3) : sameButSlot g1 g3 := by
  obtain ⟨a1, b1, c1, d1, e1⟩ := h1
  obtain ⟨a2, b2, c2, d2, e2⟩ := h2
  exact ⟨a1.trans a2, b1.trans b2, c1.trans c2, d1.trans d2, e1.trans e2⟩

theorem getD_set_self {α : Type} (l : List α) (i : ℕ) (a d : α) (h : i < l.length) :
    (l.set i a).getD i d = a := by
  rw [List.getD_eq_getElem?_getD, List.getElem?_set_self h]
  rfl

theorem getD_set_ne {α : Type} (l : List α) (i j : ℕ) (a d : α) (h : j ≠ i) :
    (l.set i a).getD j d = l.getD j d := by
  rw [List.getD_eq_getElem?_getD, List.getElem?_set_ne (Ne.symm h),
    ← List.getD_eq_getElem?_getD]

/-- Generic grouping fold: value of the built map at a key. -/
theorem groupBy_aget {α κ : Type} [DecidableEq κ] (key : α → κ) (l : List α) (k : κ) :
    ((aget (l.foldl (fun m x => assocAdjust m (key x) [] (fun t => t ++ [x])) []) k).getD [])
      = l.filter (fun x => key x = k) := by
  suffices h : ∀ (gs : List α) (m : List (κ × List α)) (c : κ),
      ((aget (gs.foldl (fun m x => assocAdjust m (key x) [] (fun t => t ++ [x])) m) c).getD [])
        = ((aget m c).getD []) ++ gs.filter (fun x => key x = c) by
    have h0 := h l [] k
    have h1 : ((aget ([] : List (κ × List α)) k).getD []) = [] := rfl
    rw [h1] at h0
    simpa using h0
  intro gs
  induction gs with
  | nil => intro m c; simp
  | cons g t ih =>
    intro m c
    simp only [List.foldl_cons, List.filter_cons]
    rw [ih]
    by_cases h : key g = c
    · subst h
      rw [aget_assocAdjust_self]
      simp
    · rw [aget_assocAdjust_ne _ _ _ _ _ (by simpa using Ne.symm h)]
      simp [h]

/-- Generic guarded grouping fold (`if p x then append to group else
skip`): value of the built map at a key. -/
theorem groupByGuard_aget {α κ : Type} [DecidableEq κ] (p : α → Bool) (key : α → κ)
    (l : List α) (k : κ) :
    ((aget (l.foldl
        (fun m x => if p x then assocAdjust m (key x) [] (fun t => t ++ [x]) else m) []) k).getD [])
      = (l.filter p).filter (fun x => key x = k) := by
  suffices h : ∀ (gs : List α) (m : List (κ × List α)) (c : κ),
      ((aget (gs.foldl
          (fun m x => if p x then assocAdjust m (key x) [] (fun t => t ++ [x]) else m) m) c).getD [])
        = ((aget m c).getD []) ++ (gs.filter p).filter (fun x => key x = c) by
    have h0 := h l [] k
    have h1 : ((aget ([] : List (κ × List α)) k).getD []) = [] := rfl
    rw [h1] at h0
    simpa using h0
  intro gs
  induction gs with
  | nil => intro m c; simp
  | cons g t ih =>
    intro m c
    simp only [List.foldl_cons]
    by_cases hp : p g
    · rw [if_pos hp, ih]
      by_cases h : key g = c
      · subst h
        rw [aget_assocAdjust_self]
        simp [hp]
      · rw [aget_assocAdjust_ne _ _ _ _ _ (by simpa using Ne.symm h)]
        simp [hp, h]
    · rw [if_neg (by simpa using hp), ih]
      simp [hp]

theorem groupBy_keys_nodup {α κ : Type} [DecidableEq κ] (key : α → κ) (l : List α) :
    (((l.foldl (fun m x => assocAdjust m (key x) [] (fun t => t ++ [x])) [])).map
      Prod.fst).Nodup :=
  foldl_preserve (fun (m : List (κ × List α)) => (m.map Prod.fst).Nodup)
    (fun m x => assocAdjust m (key x) [] (fun t => t ++ [x]))
    (fun m x hm => assocUpd_fst_nodup _ _ _ hm) l [] (by simp)

theorem groupByGuard_keys_nodup {α κ : Type} [DecidableEq κ] (p : α → Bool) (key : α → κ)
    (l : List α) :
    (((l.foldl
      (fun m x => if p x then assocAdjust m (key x) [] (fun t => t ++ [x]) else m) [])).map
        Prod.fst).Nodup := by
  refine foldl_preserve (fun (m : List (κ × List α)) => (m.map Prod.fst).Nodup)
    (fun m x => if p x then assocAdjust m (key x) [] (fun t => t ++ [x]) else m)
    ?_ l [] (by simp)
  intro m x hm
  by_cases hp : p x
  · simpa [hp] using assocUpd_fst_nodup _ (key x) _ hm
  · simpa [hp] using hm

/-- Members of an index-gene enumeration: the gene is the original list
entry at that index. -/
theorem zipRange_mem {α : Type} (l : List α) (d : α) (p : ℕ × α)
    (hp : p ∈ (List.range l.length).zip l) : l.getD p.1 d = p.2 ∧ p.1 < l.length := by
  rw [← List.enum_eq_zip_range] at hp
  have h := List.mem_enum_iff_get?.1 hp
  constructor
  · show (l.get? p.1).getD d = p.2
    rw [h]
    rfl
  · exact List.get?_eq_some.1 h |>.choose

/-- Filtering an enumeration on the entry and projecting back drops the
indices. -/
theorem zipRange_filter_snd {α : Type} (q : α → Bool) (l : List α) :
    ((((List.range l.length).zip l).filter (fun ig => q ig.2)).map Prod.snd) = l.filter q := by
  suffices h : ∀ (l : List α) (s : ℕ),
      ((((List.range' s l.length 1).zip l).filter (fun ig => q ig.2)).map Prod.snd)
        = l.filter q by
    have h0 := h l 0
    rwa [← List.range_eq_range'] at h0
  intro l
  induction l with
  | nil => intro s; simp
  | cons x xs ih =>
    intro s
    show ((((s :: List.range' (s + 1) xs.length 1).zip (x :: xs)).filter
      (fun ig => q ig.2)).map Prod.snd) = (x :: xs).filter q
    simp only [List.zip_cons_cons, List.filter_cons]
    by_cases hq : q x <;> simp [hq, ih (s + 1)]

/-- Pairs of an index-gene enumeration with equal indices are equal. -/
theorem zipRange_fst_inj {α : Type} (l : List α) (p q : ℕ × α)
    (hp : p ∈ (List.range l.length).zip l) (hq : q ∈ (List.range l.length).zip l)
    (h : p.1 = q.1) : p = q := by
  rw [← List.enum_eq_zip_range] at hp hq
  have h1 := List.mem_enum_iff_get?.1 hp
  have h2 := List.mem_enum_iff_get?.1 hq
  rw [h] at h1
  rw [h1] at h2
  obtain ⟨p1, p2⟩ := p
  obtain ⟨q1, q2⟩ := q
  simp only at h
  cases h2
  simp [h]

/-- Frame facts about the slot-rewriting fold of `repairGroup`. -/
theorem setFold_frame (zs : List ((ℕ × Gene) × ℕ)) :
    ∀ cg : List Gene,
      ((zs.foldl (fun cg p =>
          cg.set p.1.1 { (cg.getD p.1.1 dummyGene) with time_slot_id := p.2 }) cg)).length
        = cg.length ∧
      (∀ i, i ∉ zs.map (fun p => p.1.1) →
        ((zs.foldl (fun cg p =>
          cg.set p.1.1 { (cg.getD p.1.1 dummyGene) with time_slot_id := p.2 }) cg)).getD i dummyGene
          = cg.getD i dummyGene) ∧
      (∀ i, sameButSlot
        (((zs.foldl (fun cg p =>
          cg.set p.1.1 { (cg.getD p.1.1 dummyGene) with time_slot_id := p.2 }) cg)).getD i dummyGene)
        (cg.getD i dummyGene)) := by
  induction zs with
  | nil => intro cg; exact ⟨rfl, fun i _ => rfl, fun i => sameButSlot_refl _⟩
  | cons p t ih =>
    intro cg
    set cg1 := cg.set p.1.1 { (cg.getD p.1.1 dummyGene) with time_slot_id := p.2 } with hcg1
    have hlen1 : cg1.length = cg.length := List.length_set cg _ _
    have hstep : ∀ i, sameButSlot (cg1.getD i dummyGene) (cg.getD i dummyGene) := by
      intro i
      by_cases hi : i = p.1.1
      · by_cases hlt : p.1.1 < cg.length
        · rw [hi, hcg1, getD_set_self _ _ _ _ hlt]
          simp [sameButSlot]
        · rw [hcg1, List.set_eq_of_length_le (Nat.le_of_not_lt hlt)]
          exact sameButSlot_refl _
      · rw [hcg1, getD_set_ne _ _ _ _ _ hi]
        exact sameButSlot_refl _
    obtain ⟨ihlen, ihout, ihsame⟩ := ih cg1
    refine ⟨by rw [List.foldl_cons, ← hcg1, ihlen, hlen1], ?_, ?_⟩
    · intro i hi
      have hi1 : i ∉ t.map (fun p => p.1.1) := by
        intro h
        exact hi (List.mem_cons_of_mem _ h)
      have hip : i ≠ p.1.1 := by
        intro h
        exact hi (by simp [h])
      rw [List.foldl_cons, ← hcg1, ihout i hi1, hcg1, getD_set_ne _ _ _ _ _ hip]
    · intro i
      rw [List.foldl_cons, ← hcg1]
      exact sameButSlot_trans (ihsame i) (hstep i)

/-- Frame facts about one `repairGroup` call: length preserved, genes
outside the group untouched, all fields but the slot preserved, and no
change at all unless the group is an exact broken triple. -/
theorem repairGroup_frame (ga : GeneticAlgorithm) (cig : List (ℕ × Gene)) (sid : ℕ)
    (grp : List (ℕ × Gene)) (cur : List Gene) (r : Rng) :
    ((repairGroup ga cig sid grp cur r).1.length = cur.length) ∧
    (∀ i, i ∉ grp.map Prod.fst →
      (repairGroup ga cig sid grp cur r).1.getD i dummyGene = cur.getD i dummyGene) ∧
    (∀ i, sameButSlot ((repairGroup ga cig sid grp cur r).1.getD i dummyGene)
      (cur.getD i dummyGene)) ∧
    ((¬ (grp.length = 3 ∧ check_lab_continuity ga
        (grp.map (fun ig => (cur.getD ig.1 dummyGene).time_slot_id)) = false)) →
      (repairGroup ga cig sid grp cur r).1 = cur) := by
  unfold repairGroup
  by_cases h3 : grp.length = 3
  · rw [if_neg (by simpa using h3)]
    by_cases hcont : check_lab_continuity ga
        (grp.map (fun ig => (cur.getD ig.1 dummyGene).time_slot_id)) = true
    · rw [if_pos hcont]
      exact ⟨rfl, fun i _ => rfl, fun i => sameButSlot_refl _, fun _ => rfl⟩
    · rw [if_neg hcont]
      have hcf : check_lab_continuity ga
          (grp.map (fun ig => (cur.getD ig.1 dummyGene).time_slot_id)) = false :=
        Bool.eq_false_iff.2 (by simpa using hcont)
      by_cases hns : (find_lab_slots ga (slotIds ga)
          (cig.foldl (fun u ig =>
            let g := cur.getD ig.1 dummyGene
            if g.subject_id ≠ sid ∨ g.is_lab = false then u.insert g.time_slot_id else u) [])
          [] [] r).1 ≠ [] ∧
        (find_lab_slots ga (slotIds ga)
          (cig.foldl (fun u ig =>
            let g := cur.getD ig.1 dummyGene
            if g.subject_id ≠ sid ∨ g.is_lab = false then u.insert g.time_slot_id else u) [])
          [] [] r).1.length = 3
      · rw [if_pos hns]
        by_cases hconf : ((find_lab_slots ga (slotIds ga)
            (cig.foldl (fun u ig =>
              let g := cur.getD ig.1 dummyGene
              if g.subject_id ≠ sid ∨ g.is_lab = false then u.insert g.time_slot_id else u) [])
            [] [] r).1.any (fun s => s ∈ (cig.foldl (fun u ig =>
              let g := cur.getD ig.1 dummyGene
              if g.subject_id ≠ sid ∨ g.is_lab = false then u.insert g.time_slot_id else u) [])))
            = true
        · rw [if_pos hconf]
          exact ⟨rfl, fun i _ => rfl, fun i => sameButSlot_refl _, fun _ => rfl⟩
        · rw [if_neg hconf]
          obtain ⟨flen, fout, fsame⟩ := setFold_frame
            (List.zip grp (find_lab_slots ga (slotIds ga)
              (cig.foldl (fun u ig =>
                let g := cur.getD ig.1 dummyGene
                if g.subject_id ≠ sid ∨ g.is_lab = false then u.insert g.time_slot_id else u) [])
              [] [] r).1) cur
          refine ⟨flen, ?_, fsame, ?_⟩
          · intro i hi
            refine fout i ?_
            intro hmem
            rcases List.mem_map.1 hmem with ⟨q, hq, hqe⟩
            exact hi (List.mem_map.2 ⟨q.1, (List.mem_zip hq).1, hqe⟩)
          · intro hno
            exact absurd ⟨h3, hcf⟩ hno
      · rw [if_neg hns]
        exact ⟨rfl, fun i _ => rfl, fun i => sameButSlot_refl _, fun _ => rfl⟩
  · rw [if_pos (by simpa using h3)]
    exact ⟨rfl, fun i _ => rfl, fun i => sameButSlot_refl _, fun _ => rfl⟩

/-- The genes of one `(class, lab subject)` repair group are exactly
the original chromosome's lab genes of that pair, in order. -/
theorem cig_grp_snd (orig : List Gene) (k sid : ℕ) :
    (((((List.range orig.length).zip orig).filter
        (fun ig => ig.2.class_id = k)).filter
        (fun ig => ig.2.is_lab)).filter (fun ig => ig.2.subject_id = sid)).map Prod.snd
      = orig.filter (fun g => g.is_lab = true ∧ g.class_id = k ∧ g.subject_id = sid) := by
  rw [List.filter_filter, List.filter_filter]
  have hcongr : (((List.range orig.length).zip orig).filter
      (fun a => decide (a.2.subject_id = sid) && a.2.is_lab && decide (a.2.class_id = k)))
      = ((List.range orig.length).zip orig).filter
        (fun ig => decide (ig.2.is_lab = true ∧ ig.2.class_id = k ∧ ig.2.subject_id = sid)) := by
    refine List.filter_congr (fun ig _ => ?_)
    by_cases h1 : ig.2.is_lab <;> by_cases h2 : ig.2.class_id = k <;>
      by_cases h3 : ig.2.subject_id = sid <;> simp [h1, h2, h3]
  rw [hcongr]
  have h := zipRange_filter_snd
    (fun g => decide (g.is_lab = true ∧ g.class_id = k ∧ g.subject_id = sid)) orig
  exact h

/-- The inner fold of `repairClass` over the per-subject lab groups:
frame facts relative to the original chromosome. -/
theorem repairGroups_fold (ga : GeneticAlgorithm) (orig : List Gene) (k : ℕ)
    (cig : List (ℕ × Gene))
    (hcig : cig = ((List.range orig.length).zip orig).filter (fun ig => ig.2.class_id = k)) :
    ∀ (L : List (ℕ × List (ℕ × Gene))) (cur : List Gene) (r : Rng),
    (∀ p ∈ L, p.2 = (cig.filter (fun ig => ig.2.is_lab)).filter
        (fun ig => ig.2.subject_id = p.1)) →
    ((L.map Prod.fst).Nodup) →
    (cur.length = orig.length) →
    (∀ i, sameButSlot (cur.getD i dummyGene) (orig.getD i dummyGene)) →
    slotChangedOK ga orig cur →
    (∀ p ∈ L, ∀ ig ∈ p.2, cur.getD ig.1 dummyGene = ig.2) →
    ((L.foldl (fun acc grp => repairGroup ga cig grp.1 grp.2 acc.1 acc.2) (cur, r)).1.length
        = orig.length ∧
      (∀ i, sameButSlot
        ((L.foldl (fun acc grp => repairGroup ga cig grp.1 grp.2 acc.1 acc.2) (cur, r)).1.getD
          i dummyGene) (orig.getD i dummyGene)) ∧
      slotChangedOK ga orig
        (L.foldl (fun acc grp => repairGroup ga cig grp.1 grp.2 acc.1 acc.2) (cur, r)).1 ∧
      (∀ i, (∀ p ∈ L, i ∉ p.2.map Prod.fst) →
        (L.foldl (fun acc grp => repairGroup ga cig grp.1 grp.2 acc.1 acc.2) (cur, r)).1.getD
          i dummyGene = cur.getD i dummyGene)) := by
  intro L
  induction L with
  | nil =>
    intro cur r _ _ hlen hsame hch _
    exact ⟨hlen, hsame, hch, fun i _ => rfl⟩
  | cons p t ih =>
    intro cur r HL HKnd hlen hsame hch hunt
    obtain ⟨sid, grp⟩ := p
    have hgrp : grp = (cig.filter (fun ig => ig.2.is_lab)).filter
        (fun ig => ig.2.subject_id = sid) := HL (sid, grp) (List.mem_cons_self _ _)
    have hgrpmem : ∀ ig ∈ grp, ig ∈ (List.range orig.length).zip orig := by
      intro ig hig
      rw [hgrp] at hig
      have h1 := List.mem_of_mem_filter hig
      have h2 := List.mem_of_mem_filter h1
      rw [hcig] at h2
      exact List.mem_of_mem_filter h2
    have hgrpProps : ∀ ig ∈ grp, ig.2.class_id = k ∧ ig.2.is_lab = true ∧
        ig.2.subject_id = sid := by
      intro ig hig
      rw [hgrp] at hig
      have h1 := List.mem_filter.1 hig
      have h2 := List.mem_filter.1 h1.1
      have h3 : ig ∈ cig := h2.1
      rw [hcig] at h3
      have h4 := List.mem_filter.1 h3
      exact ⟨by simpa using h4.2, by simpa using h2.2, by simpa using h1.2⟩
    obtain ⟨glen, gout, gsame, gnochange⟩ := repairGroup_frame ga cig sid grp cur r
    have hlen1 : (repairGroup ga cig sid grp cur r).1.length = orig.length := by
      rw [glen, hlen]
    have hsame1 : ∀ i, sameButSlot ((repairGroup ga cig sid grp cur r).1.getD i dummyGene)
        (orig.getD i dummyGene) :=
      fun i => sameButSlot_trans (gsame i) (hsame i)
    have horigpair : ∀ ig ∈ grp, orig.getD ig.1 dummyGene = ig.2 :=
      fun ig hig => (zipRange_mem orig dummyGene ig (hgrpmem ig hig)).1
    have hch1 : slotChangedOK ga orig (repairGroup ga cig sid grp cur r).1 := by
      intro i hchange
      by_cases hun : (repairGroup ga cig sid grp cur r).1.getD i dummyGene
          = cur.getD i dummyGene
      · exact hch i (by rwa [hun] at hchange)
      · have himem : i ∈ grp.map Prod.fst := by
          by_contra hno
          exact hun (gout i hno)
        rcases List.mem_map.1 himem with ⟨ig, hig, hfst⟩
        have hfire : grp.length = 3 ∧ check_lab_continuity ga
            (grp.map (fun q => (cur.getD q.1 dummyGene).time_slot_id)) = false := by
          by_contra hno
          exact hun (by rw [gnochange hno])
        have horig : orig.getD i dummyGene = ig.2 := by
          rw [← hfst]
          exact horigpair ig hig
        have hcls := (hgrpProps ig hig).1
        have hlab := (hgrpProps ig hig).2.1
        have hsub := (hgrpProps ig hig).2.2
        have hslots : grp.map (fun q => (cur.getD q.1 dummyGene).time_slot_id)
            = labGroupSlots orig k sid := by
          have hmapeq : grp.map (fun q => (cur.getD q.1 dummyGene).time_slot_id)
              = grp.map (fun q => q.2.time_slot_id) := by
            refine List.map_congr_left (fun q hq => ?_)
            rw [hunt (sid, grp) (List.mem_cons_self _ _) q hq]
          rw [hmapeq]
          have hsnd : grp.map Prod.snd
              = orig.filter (fun g => g.is_lab = true ∧ g.class_id = k ∧ g.subject_id = sid) := by
            rw [hgrp, hcig]
            exact cig_grp_snd orig k sid
          have hmm : grp.map (fun q => q.2.time_slot_id)
              = (grp.map Prod.snd).map (fun g => g.time_slot_id) := by
            rw [List.map_map]
            rfl
          rw [hmm, hsnd]
          rfl
        refine ⟨by rw [horig]; exact hlab, ?_⟩
        rw [horig, hcls, hsub]
        refine ⟨?_, ?_⟩
        · have h3 := hfire.1
          have hlm : (grp.map (fun q => (cur.getD q.1 dummyGene).time_slot_id)).length = 3 := by
            rw [List.length_map]
            exact h3
          rwa [hslots] at hlm
        · rw [← hslots]
          exact hfire.2
    have hunt1 : ∀ q ∈ t, ∀ ig ∈ q.2,
        (repairGroup ga cig sid grp cur r).1.getD ig.1 dummyGene = ig.2 := by
      intro q hq ig hig
      have hq2 : q.2 = (cig.filter (fun ig => ig.2.is_lab)).filter
          (fun ig => ig.2.subject_id = q.1) := HL q (List.mem_cons_of_mem _ hq)
      have higmem : ig ∈ (List.range orig.length).zip orig := by
        rw [hq2] at hig
        have h1 := List.mem_of_mem_filter hig
        have h2 := List.mem_of_mem_filter h1
        rw [hcig] at h2
        exact List.mem_of_mem_filter h2
      have higsub : ig.2.subject_id = q.1 := by
        rw [hq2] at hig
        simpa using (List.mem_filter.1 hig).2
      have hout : ig.1 ∉ grp.map Prod.fst := by
        intro hmem
        rcases List.mem_map.1 hmem with ⟨ig0, hig0, hfst0⟩
        have heq : ig0 = ig := zipRange_fst_inj orig ig0 ig (hgrpmem ig0 hig0) higmem hfst0
        have hsub0 := (hgrpProps ig0 hig0).2.2
        rw [heq] at hsub0
        rw [higsub] at hsub0
        have hnd := List.nodup_cons.1 HKnd
        refine hnd.1 ?_
        have hqmem : q.1 ∈ t.map Prod.fst := List.mem_map.2 ⟨q, hq, rfl⟩
        rwa [hsub0] at hqmem
      rw [gout ig.1 hout]
      exact hunt q (List.mem_cons_of_mem _ hq) ig hig
    have ihres := ih (repairGroup ga cig sid grp cur r).1 (repairGroup ga cig sid grp cur r).2
      (fun q hq => HL q (List.mem_cons_of_mem _ hq))
      (List.nodup_cons.1 HKnd).2 hlen1 hsame1 hch1 hunt1
    obtain ⟨ilen, isame, ich, iout⟩ := ihres
    have hfold : (((sid, grp) :: t).foldl
        (fun acc grp => repairGroup ga cig grp.1 grp.2 acc.1 acc.2) (cur, r))
        = t.foldl (fun acc grp => repairGroup ga cig grp.1 grp.2 acc.1 acc.2)
          ((repairGroup ga cig sid grp cur r).1, (repairGroup ga cig sid grp cur r).2) := rfl
    rw [hfold]
    refine ⟨ilen, isame, ich, ?_⟩
    intro i hi
    have hi1 : ∀ q ∈ t, i ∉ q.2.map Prod.fst :=
      fun q hq => hi q (List.mem_cons_of_mem _ hq)
    rw [iout i hi1]
    exact gout i (hi (sid, grp) (List.mem_cons_self _ _))

/-- Frame facts about one `repairClass` call. -/
theorem repairClass_frame (ga : GeneticAlgorithm) (orig : List Gene) (k : ℕ)
    (cig : List (ℕ × Gene))
    (hcig : cig = ((List.range orig.length).zip orig).filter (fun ig => ig.2.class_id = k))
    (cur : List Gene) (r : Rng)
    (hlen : cur.length = orig.length)
    (hsame : ∀ i, sameButSlot (cur.getD i dummyGene) (orig.getD i dummyGene))
    (hch : slotChangedOK ga orig cur)
    (hunt : ∀ ig ∈ cig, cur.getD ig.1 dummyGene = ig.2) :
    ((repairClass ga cig cur r).1.length = orig.length) ∧
    (∀ i, sameButSlot ((repairClass ga cig cur r).1.getD i dummyGene)
      (orig.getD i dummyGene)) ∧
    slotChangedOK ga orig (repairClass ga cig cur r).1 ∧
    (∀ i, i ∉ cig.map Prod.fst →
      (repairClass ga cig cur r).1.getD i dummyGene = cur.getD i dummyGene) := by
  have hkeys := groupByGuard_keys_nodup (fun ig => ig.2.is_lab)
    (fun (ig : ℕ × Gene) => ig.2.subject_id) cig
  have HL : ∀ p ∈ (cig.foldl
      (fun (m : List (ℕ × List (ℕ × Gene))) ig =>
        if ig.2.is_lab then assocAdjust m ig.2.subject_id [] (fun l => l ++ [ig]) else m) []),
      p.2 = (cig.filter (fun ig => ig.2.is_lab)).filter (fun ig => ig.2.subject_id = p.1) := by
    intro p hp
    have hag := aget_of_mem_nodup _ p.1 p.2 hkeys (by simpa using hp)
    have hchar := groupByGuard_aget (fun (ig : ℕ × Gene) => ig.2.is_lab)
      (fun (ig : ℕ × Gene) => ig.2.subject_id) cig p.1
    rw [hag] at hchar
    simpa using hchar
  have hres := repairGroups_fold ga orig k cig hcig
    (cig.foldl
      (fun (m : List (ℕ × List (ℕ × Gene))) ig =>
        if ig.2.is_lab then assocAdjust m ig.2.subject_id [] (fun l => l ++ [ig]) else m) [])
    cur r HL hkeys hlen hsame hch
    (by
      intro p hp ig hig
      have hp2 := HL p hp
      rw [hp2] at hig
      have h1 := List.mem_of_mem_filter hig
      exact hunt ig (List.mem_of_mem_filter h1))
  obtain ⟨h1, h2, h3, h4⟩ := hres
  refine ⟨h1, h2, h3, ?_⟩
  intro i hi
  refine h4 i ?_
  intro p hp hmem
  rcases List.mem_map.1 hmem with ⟨ig, hig, hfst⟩
  have hp2 := HL p hp
  rw [hp2] at hig
  have h5 := List.mem_of_mem_filter hig
  have h6 := List.mem_of_mem_filter h5
  exact hi (List.mem_map.2 ⟨ig, h6, hfst⟩)

/-- The outer fold of `_repair_labs` over the per-class groups. -/
theorem repairClasses_fold (ga : GeneticAlgorithm) (orig : List Gene) :
    ∀ (Lc : List (ℕ × List (ℕ × Gene))) (cur : List Gene) (r : Rng),
    (∀ p ∈ Lc, p.2 = ((List.range orig.length).zip orig).filter
        (fun ig => ig.2.class_id = p.1)) →
    ((Lc.map Prod.fst).Nodup) →
    (cur.length = orig.length) →
    (∀ i, sameButSlot (cur.getD i dummyGene) (orig.getD i dummyGene)) →
    slotChangedOK ga orig cur →
    (∀ p ∈ Lc, ∀ ig ∈ p.2, cur.getD ig.1 dummyGene = ig.2) →
    ((Lc.foldl (fun acc cp => repairClass ga cp.2 acc.1 acc.2) (cur, r)).1.length
        = orig.length ∧
      (∀ i, sameButSlot
        ((Lc.foldl (fun acc cp => repairClass ga cp.2 acc.1 acc.2) (cur, r)).1.getD i dummyGene)
        (orig.getD i dummyGene)) ∧
      slotChangedOK ga orig
        (Lc.foldl (fun acc cp => repairClass ga cp.2 acc.1 acc.2) (cur, r)).1) := by
  intro Lc
  induction Lc with
  | nil =>
    intro cur r _ _ hlen hsame hch _
    exact ⟨hlen, hsame, hch⟩
  | cons p t ih =>
    intro cur r HLc HKnd hlen hsame hch hunt
    obtain ⟨k, cig⟩ := p
    have hcig : cig = ((List.range orig.length).zip orig).filter
        (fun ig => ig.2.class_id = k) := HLc (k, cig) (List.mem_cons_self _ _)
    obtain ⟨clen, csame, cch, cout⟩ := repairClass_frame ga orig k cig hcig cur r
      hlen hsame hch (fun ig hig => hunt (k, cig) (List.mem_cons_self _ _) ig hig)
    have hcigmem : ∀ ig ∈ cig, ig ∈ (List.range orig.length).zip orig := by
      intro ig hig
      rw [hcig] at hig
      exact List.mem_of_mem_filter hig
    have hunt1 : ∀ q ∈ t, ∀ ig ∈ q.2,
        (repairClass ga cig cur r).1.getD ig.1 dummyGene = ig.2 := by
      intro q hq ig hig
      have hq2 := HLc q (List.mem_cons_of_mem _ hq)
      have higmem : ig ∈ (List.range orig.length).zip orig := by
        rw [hq2] at hig
        exact List.mem_of_mem_filter hig
      have higcls : ig.2.class_id = q.1 := by
        rw [hq2] at hig
        simpa using (List.mem_filter.1 hig).2
      have hout : ig.1 ∉ cig.map Prod.fst := by
        intro hmem
        rcases List.mem_map.1 hmem with ⟨ig0, hig0, hfst0⟩
        have heq : ig0 = ig := zipRange_fst_inj orig ig0 ig (hcigmem ig0 hig0) higmem hfst0
        have hc0 : ig0.2.class_id = k := by
          rw [hcig] at hig0
          simpa using (List.mem_filter.1 hig0).2
        rw [heq, higcls] at hc0
        have hnd := List.nodup_cons.1 HKnd
        refine hnd.1 ?_
        have hqmem : q.1 ∈ t.map Prod.fst := List.mem_map.2 ⟨q, hq, rfl⟩
        rwa [hc0] at hqmem
      rw [cout ig.1 hout]
      exact hunt q (List.mem_cons_of_mem _ hq) ig hig
    have ihres := ih (repairClass ga cig cur r).1 (repairClass ga cig cur r).2
      (fun q hq => HLc q (List.mem_cons_of_mem _ hq))
      (List.nodup_cons.1 HKnd).2 clen csame cch hunt1
    have hfold : (((k, cig) :: t).foldl
        (fun acc cp => repairClass ga cp.2 acc.1 acc.2) (cur, r))
        = t.foldl (fun acc cp => repairClass ga cp.2 acc.1 acc.2)
          ((repairClass ga cig cur r).1, (repairClass ga cig cur r).2) := rfl
    rw [hfold]
    exact ihres

/-- Claim C9 (confirmed): `_repair_labs` keeps the gene count, keeps
every gene's class, subject, faculty, assistant and lab flag, and
changes a gene's time slot only when that gene belongs to a lab triple
(exactly three genes of one lab subject in one class) that is not three
contiguous same-day periods; and the rewriting step (`repairGroup`, the
body of the per-group repair loop) leaves the gene list unchanged
whenever its `_find_lab_slots` search finds no candidate replacement
triple. -/
theorem repair_labs_frame (ga : GeneticAlgorithm) (c : Chromosome) (r : Rng) :
    (((repair_labs ga c r).1).genes.length = c.genes.length ∧
     ∀ i : ℕ,
       sameButSlot (((repair_labs ga c r).1).genes.getD i dummyGene)
         (c.genes.getD i dummyGene) ∧
       ((((repair_labs ga c r).1).genes.getD i dummyGene).time_slot_id ≠
           (c.genes.getD i dummyGene).time_slot_id →
         (c.genes.getD i dummyGene).is_lab = true ∧
         brokenTriple ga c.genes (c.genes.getD i dummyGene).class_id
           (c.genes.getD i dummyGene).subject_id)) ∧
    (∀ (cig : List (ℕ × Gene)) (sid : ℕ) (grp : List (ℕ × Gene)) (cur : List Gene)
        (r2 : Rng),
      (find_lab_slots ga (slotIds ga)
          (cig.foldl (fun (u : List ℕ) ig =>
            let g := cur.getD ig.1 dummyGene
            if g.subject_id ≠ sid ∨ g.is_lab = false then u.insert g.time_slot_id else u) [])
          [] [] r2).1 = [] →
      (repairGroup ga cig sid grp cur r2).1 = cur) := by
  have hnc : ∀ (cig : List (ℕ × Gene)) (sid : ℕ) (grp : List (ℕ × Gene)) (cur : List Gene)
      (r2 : Rng),
      (find_lab_slots ga (slotIds ga)
          (cig.foldl (fun (u : List ℕ) ig =>
            let g := cur.getD ig.1 dummyGene
            if g.subject_id ≠ sid ∨ g.is_lab = false then u.insert g.time_slot_id else u) [])
          [] [] r2).1 = [] →
      (repairGroup ga cig sid grp cur r2).1 = cur := by
    intro cig sid grp cur r2 hempty
    unfold repairGroup
    by_cases hg3 : grp.length = 3
    · rw [if_neg (by simpa using hg3)]
      by_cases hcont : check_lab_continuity ga
          (grp.map (fun ig => (cur.getD ig.1 dummyGene).time_slot_id)) = true
      · rw [if_pos hcont]
      · rw [if_neg hcont]
        rw [if_neg (fun hns => hns.1 hempty)]
    · rw [if_pos (by simpa using hg3)]
  have hkeys := groupBy_keys_nodup (fun (ig : ℕ × Gene) => ig.2.class_id)
    ((List.range c.genes.length).zip c.genes)
  have HLc : ∀ p ∈ (((List.range c.genes.length).zip c.genes).foldl
      (fun (m : List (ℕ × List (ℕ × Gene))) ig =>
        assocAdjust m ig.2.class_id [] (fun l => l ++ [ig])) []),
      p.2 = ((List.range c.genes.length).zip c.genes).filter
        (fun ig => ig.2.class_id = p.1) := by
    intro p hp
    have hag := aget_of_mem_nodup _ p.1 p.2 hkeys (by simpa using hp)
    have hchar := groupBy_aget (fun (ig : ℕ × Gene) => ig.2.class_id)
      ((List.range c.genes.length).zip c.genes) p.1
    rw [hag] at hchar
    simpa using hchar
  have hres := repairClasses_fold ga c.genes
    (((List.range c.genes.length).zip c.genes).foldl
      (fun (m : List (ℕ × List (ℕ × Gene))) ig =>
        assocAdjust m ig.2.class_id [] (fun l => l ++ [ig])) [])
    c.genes r HLc hkeys rfl (fun i => sameButSlot_refl _)
    (fun i h => absurd rfl h)
    (by
      intro p hp ig hig
      have hp2 := HLc p hp
      rw [hp2] at hig
      exact (zipRange_mem c.genes dummyGene ig (List.mem_of_mem_filter hig)).1)
  obtain ⟨h1, h2, h3⟩ := hres
  have hrl : (repair_labs ga c r).1.genes
      = ((((List.range c.genes.length).zip c.genes).foldl
          (fun (m : List (ℕ × List (ℕ × Gene))) ig =>
            assocAdjust m ig.2.class_id [] (fun l => l ++ [ig])) []).foldl
        (fun acc cp => repairClass ga cp.2 acc.1 acc.2) (c.genes, r)).1 := rfl
  rw [hrl]
  exact ⟨⟨h1, fun i => ⟨h2 i, h3 i⟩⟩, hnc⟩

/-! ## Specification of `_find_lab_slots` -/

/-- Propositional-guard version of `groupByGuard_aget`, matching the
`slots_by_day` fold. -/
theorem groupByGuardP_aget {α κ : Type} [DecidableEq κ] (p : α → Prop) [DecidablePred p]
    (key : α → κ) (l : List α) (k : κ) :
    ((aget (l.foldl
        (fun m x => if p x then assocAdjust m (key x) [] (fun t => t ++ [x]) else m) []) k).getD [])
      = (l.filter (fun x => p x)).filter (fun x => key x = k) := by
  suffices h : ∀ (gs : List α) (m : List (κ × List α)) (c : κ),
      ((aget (gs.foldl
          (fun m x => if p x then assocAdjust m (key x) [] (fun t => t ++ [x]) else m) m) c).getD [])
        = ((aget m c).getD []) ++ (gs.filter (fun x => p x)).filter (fun x => key x = c) by
    have h0 := h l [] k
    have h1 : ((aget ([] : List (κ × List α)) k).getD []) = [] := rfl
    rw [h1] at h0
    simpa using h0
  intro gs
  induction gs with
  | nil => intro m c; simp
  | cons g t ih =>
    intro m c
    simp only [List.foldl_cons]
    by_cases hp : p g
    · rw [if_pos hp, ih]
      by_cases h : key g = c
      · subst h
        rw [aget_assocAdjust_self]
        simp [hp]
      · rw [aget_assocAdjust_ne _ _ _ _ _ (by simpa using Ne.symm h)]
        simp [hp, h]
    · rw [if_neg hp, ih]
      simp [hp]

theorem groupByGuardP_keys_nodup {α κ : Type} [DecidableEq κ] (p : α → Prop)
    [DecidablePred p] (key : α → κ) (l : List α) :
    (((l.foldl
      (fun m x => if p x then assocAdjust m (key x) [] (fun t => t ++ [x]) else m) [])).map
        Prod.fst).Nodup := by
  refine foldl_preserve (fun (m : List (κ × List α)) => (m.map Prod.fst).Nodup)
    (fun m x => if p x then assocAdjust m (key x) [] (fun t => t ++ [x]) else m)
    ?_ l [] (by simp)
  intro m x hm
  by_cases hp : p x
  · simpa [hp] using assocUpd_fst_nodup _ (key x) _ hm
  · simpa [hp] using hm

/-- The per-day slot list of `slots_by_day`. -/
theorem slotsByDay_getD (ga : GeneticAlgorithm) (available used : List ℕ) (day : String) :
    ((aget (slotsByDay ga available used) day).getD [])
      = (ga.time_slots.filter (fun s => s.id ∈ available ∧ s.id ∉ used)).filter
          (fun s => s.day = day) := by
  unfold slotsByDay
  exact groupByGuardP_aget (fun s => s.id ∈ available ∧ s.id ∉ used)
    (fun s => s.day) ga.time_slots day

theorem slotsByDay_keys_nodup (ga : GeneticAlgorithm) (available used : List ℕ) :
    (((slotsByDay ga available used)).map Prod.fst).Nodup := by
  unfold slotsByDay
  exact groupByGuardP_keys_nodup (fun s => s.id ∈ available ∧ s.id ∉ used)
    (fun s => s.day) ga.time_slots

/-- Membership characterisation of the per-day lists of
`slots_by_day`. -/
theorem slotsByDay_mem (ga : GeneticAlgorithm) (available used : List ℕ)
    (p : String × List SlotInfo) (hp : p ∈ slotsByDay ga available used) :
    p.2 = (ga.time_slots.filter (fun s => s.id ∈ available ∧ s.id ∉ used)).filter
        (fun s => s.day = p.1) := by
  have hag := aget_of_mem_nodup _ p.1 p.2 (slotsByDay_keys_nodup ga available used)
    (by simpa using hp)
  have h := slotsByDay_getD ga available used p.1
  rw [hag] at h
  simpa using h

/-- Facts about `scanTriple`: it yields the first three consecutive
slots (three ids of members of the list, no duplicates when slot ids
are distinct). -/
theorem scanTriple_spec :
    ∀ (ds : List SlotInfo) (ids : List ℕ), scanTriple ds = some ids →
      ids.length = 3 ∧ (∀ s ∈ ids, ∃ t ∈ ds, t.id = s) ∧
      ((ds.map (fun t => t.id)).Nodup → ids.Nodup) := by
  intro ds
  induction ds with
  | nil => intro ids h; simp [scanTriple] at h
  | cons a tail ih =>
    intro ids h
    match tail, ih with
    | [], _ => simp [scanTriple] at h
    | [b], _ => simp [scanTriple] at h
    | b :: c :: rest, ih =>
      rw [scanTriple] at h
      by_cases hcond : b.period = a.period + 1 ∧ c.period = a.period + 2
      · rw [if_pos hcond] at h
        injection h with h
        subst h
        refine ⟨rfl, ?_, ?_⟩
        · intro s hs
          simp only [List.mem_cons, List.not_mem_nil, or_false] at hs
          rcases hs with rfl | rfl | rfl
          · exact ⟨a, by simp, rfl⟩
          · exact ⟨b, by simp, rfl⟩
          · exact ⟨c, by simp, rfl⟩
        · intro hnd
          have hsub : [a, b, c].Sublist (a :: b :: c :: rest) := by
            simpa using List.sublist_append_left [a, b, c] rest
          have hnd3 : ([a, b, c].map (fun t => t.id)).Nodup :=
            List.Nodup.sublist (hsub.map (fun t => t.id)) hnd
          simpa using hnd3
      · rw [if_neg hcond] at h
        obtain ⟨hlen, hmem, hnd⟩ := ih ids h
        refine ⟨hlen, ?_, ?_⟩
        · intro s hs
          rcases hmem s hs with ⟨t, ht, hte⟩
          exact ⟨t, List.mem_cons_of_mem _ ht, hte⟩
        · intro hnodup
          refine hnd ?_
          have : ((b :: c :: rest).map (fun t => t.id)).Sublist
              ((a :: b :: c :: rest).map (fun t => t.id)) :=
            (List.sublist_cons_self a (b :: c :: rest)).map _
          exact List.Nodup.sublist this hnodup

/-- `fallbackScan` either fails or returns a `scanTriple` result for
some day. -/
theorem fallbackScan_spec (sbd : List (String × List SlotInfo)) :
    ∀ (days : List String),
      fallbackScan sbd days = [] ∨
      ∃ day, scanTriple (stableSort (fun a b => a.period ≤ b.period)
        ((aget sbd day).getD [])) = some (fallbackScan sbd days) := by
  intro days
  induction days with
  | nil => left; rfl
  | cons day rest ih =>
    rw [fallbackScan]
    by_cases hlen : 3 ≤ ((aget sbd day).getD []).length
    · rw [if_pos hlen]
      cases hscan : scanTriple (stableSort (fun a b => a.period ≤ b.period)
          ((aget sbd day).getD [])) with
      | none => simpa [hscan] using ih
      | some ids => right; exact ⟨day, by simp [hscan]⟩
    · rw [if_neg hlen]
      exact ih

/-- Filtering twice with the same predicate is filtering once. -/
theorem filter_idem {α : Type} (l : List α) (p : α → Bool) :
    (l.filter p).filter p = l.filter p :=
  List.filter_eq_self.2 (fun a ha => (List.mem_filter.1 ha).2)

/-- Facts about one day's candidates: each candidate is that day's, has
three slots drawn from the day list, without duplicates when the ids
are distinct. -/
theorem dayCandidates_spec (day : String) (dslots : List SlotInfo)
    (c : String × Bool × List ℕ) (hc : c ∈ dayCandidates day dslots) :
    c.1 = day ∧ c.2.2.length = 3 ∧ (∀ s ∈ c.2.2, ∃ t ∈ dslots, t.id = s) ∧
    ((dslots.map (fun t => t.id)).Nodup → c.2.2.Nodup) := by
  have hperm : (stableSort (fun a b => decide (a.period ≤ b.period)) dslots).Perm dslots :=
    stableSort_perm _ _
  have hgen : ∀ (p : SlotInfo → Bool) (hf : Bool)
      (hlen3 : 3 ≤ ((stableSort (fun a b => decide (a.period ≤ b.period)) dslots).filter
        p).length),
      c = (day, hf,
        ((((stableSort (fun a b => decide (a.period ≤ b.period)) dslots).filter p).filter
          p).map (fun s => s.id)).take 3) →
      c.1 = day ∧ c.2.2.length = 3 ∧ (∀ s ∈ c.2.2, ∃ t ∈ dslots, t.id = s) ∧
      ((dslots.map (fun t => t.id)).Nodup → c.2.2.Nodup) := by
    intro p hf hlen3 hceq
    subst hceq
    refine ⟨rfl, ?_, ?_, ?_⟩
    · show (((((stableSort (fun a b => decide (a.period ≤ b.period)) dslots).filter p).filter
        p).map (fun s => s.id)).take 3).length = 3
      rw [filter_idem, List.length_take, List.length_map]
      omega
    · intro s hs
      have hs1 := List.mem_of_mem_take hs
      rcases List.mem_map.1 hs1 with ⟨t, ht, hte⟩
      have ht1 := List.mem_of_mem_filter ht
      have ht2 := List.mem_of_mem_filter ht1
      exact ⟨t, hperm.subset ht2, hte⟩
    · intro hnd
      have hndds : ((stableSort (fun a b => decide (a.period ≤ b.period)) dslots).map
          (fun t => t.id)).Nodup :=
        ((hperm.map (fun t => t.id)).nodup_iff).2 hnd
      have hsub1 : (((stableSort (fun a b => decide (a.period ≤ b.period)) dslots).filter
          p).filter p).Sublist (stableSort (fun a b => decide (a.period ≤ b.period)) dslots) :=
        List.Sublist.trans (List.filter_sublist _) (List.filter_sublist _)
      have hmapnd : (((((stableSort (fun a b => decide (a.period ≤ b.period)) dslots).filter
          p).filter p).map (fun s => s.id))).Nodup :=
        List.Nodup.sublist (hsub1.map _) hndds
      exact List.Nodup.sublist (List.take_sublist _ _) hmapnd
  simp only [dayCandidates] at hc
  rcases List.mem_append.1 hc with hc1 | hc1
  · split at hc1
    · next hcond =>
        rcases List.mem_singleton.1 hc1 with rfl
        exact hgen (fun s => decide (s.period ≤ 3)) true hcond.1 rfl
    · simp at hc1
  · split at hc1
    · next hcond =>
        rcases List.mem_singleton.1 hc1 with rfl
        exact hgen (fun s => decide (5 ≤ s.period)) false hcond.1 rfl
    · simp at hc1

theorem foldl_append_flatten {β γ : Type} (f : β → List γ) (L : List β) :
    L.foldl (fun acc b => acc ++ f b) [] = (L.map f).flatten := by
  suffices h : ∀ acc, L.foldl (fun acc b => acc ++ f b) acc = acc ++ (L.map f).flatten by
    simpa using h []
  induction L with
  | nil => intro acc; simp
  | cons b t ih => intro acc; simp [ih, List.append_assoc]

/-- The head of `sortPick` is one of the candidates' slot lists. -/
theorem sortPick_mem (du : List ((String × Bool) × ℕ)) (cands : List (String × Bool × List ℕ))
    (r : Rng) (h : cands ≠ []) :
    ∃ c ∈ cands, (sortPick du cands r).1 = c.2.2 := by
  simp only [sortPick]
  have hmapfst := drawKeys_map_fst cands r
  have hperm := stableSort_perm
    (fun (a b : (String × Bool × List ℕ) × ℕ) =>
      decide ((aget du (a.1.1, a.1.2.1)).getD 0 < (aget du (b.1.1, b.1.2.1)).getD 0 ∨
        ((aget du (a.1.1, a.1.2.1)).getD 0 = (aget du (b.1.1, b.1.2.1)).getD 0 ∧ a.2 ≤ b.2)))
    (drawKeys cands r).1
  cases hsrt : stableSort
      (fun (a b : (String × Bool × List ℕ) × ℕ) =>
        decide ((aget du (a.1.1, a.1.2.1)).getD 0 < (aget du (b.1.1, b.1.2.1)).getD 0 ∨
          ((aget du (a.1.1, a.1.2.1)).getD 0 = (aget du (b.1.1, b.1.2.1)).getD 0 ∧ a.2 ≤ b.2)))
      (drawKeys cands r).1 with
  | nil =>
    exfalso
    rw [hsrt] at hperm
    have h0 : (drawKeys cands r).1 = [] := hperm.symm.eq_nil
    rw [h0] at hmapfst
    exact h (by simpa using hmapfst.symm)
  | cons c0 rest =>
    refine ⟨c0.1, ?_, ?_⟩
    · have hc0 : c0 ∈ (drawKeys cands r).1 := by
        rw [hsrt] at hperm
        exact hperm.subset (List.mem_cons_self _ _)
      rw [← hmapfst]
      exact List.mem_map.2 ⟨c0, hc0, rfl⟩
    · rfl

/-- The basic specification of `_find_lab_slots`: the result is empty
or has three slots; every returned slot is an available unused slot id;
the result has no duplicates when slot ids are distinct. -/
theorem find_lab_slots_spec (ga : GeneticAlgorithm) (available used : List ℕ)
    (ex : List String) (du : List ((String × Bool) × ℕ)) (r : Rng) :
    ((find_lab_slots ga available used ex du r).1 = [] ∨
      (find_lab_slots ga available used ex du r).1.length = 3) ∧
    (∀ s ∈ (find_lab_slots ga available used ex du r).1,
      ∃ t ∈ ga.time_slots, t.id = s ∧ s ∈ available ∧ s ∉ used) ∧
    ((slotIds ga).Nodup → (find_lab_slots ga available used ex du r).1.Nodup) := by
  have hdl : ∀ day, ((aget (slotsByDay ga available used) day).getD [])
      = (ga.time_slots.filter (fun s => s.id ∈ available ∧ s.id ∉ used)).filter
          (fun s => s.day = day) := slotsByDay_getD ga available used
  have hdlmem : ∀ day, ∀ t ∈ ((aget (slotsByDay ga available used) day).getD []),
      t ∈ ga.time_slots ∧ t.id ∈ available ∧ t.id ∉ used := by
    intro day t ht
    rw [hdl day] at ht
    have h1 := List.mem_of_mem_filter ht
    exact ⟨List.mem_of_mem_filter h1, by simpa using (List.mem_filter.1 h1).2⟩
  have hdlnd : (slotIds ga).Nodup → ∀ day,
      ((((aget (slotsByDay ga available used) day).getD []).map (fun t => t.id))).Nodup := by
    intro hnd day
    rw [hdl day]
    have hsub : ((ga.time_slots.filter (fun s => s.id ∈ available ∧ s.id ∉ used)).filter
        (fun s => s.day = day)).Sublist ga.time_slots :=
      List.Sublist.trans (List.filter_sublist _) (List.filter_sublist _)
    exact List.Nodup.sublist (hsub.map _) hnd
  have hcands : ∀ c ∈ (slotsByDay ga available used).foldl
      (fun acc p => acc ++ dayCandidates p.1 p.2) [],
      c.2.2.length = 3 ∧ (∀ s ∈ c.2.2, ∃ t ∈ ga.time_slots, t.id = s ∧ s ∈ available ∧ s ∉ used) ∧
      ((slotIds ga).Nodup → c.2.2.Nodup) := by
    intro c hc
    rw [foldl_append_flatten (fun (p : String × List SlotInfo) => dayCandidates p.1 p.2)
      (slotsByDay ga available used)] at hc
    rcases List.mem_flatten.1 hc with ⟨dl, hdlm, hcdl⟩
    rcases List.mem_map.1 hdlm with ⟨p, hp, hpe⟩
    have hpval := slotsByDay_mem ga available used p hp
    rw [← hpe] at hcdl
    obtain ⟨_, hlen, hmem, hndc⟩ := dayCandidates_spec p.1 p.2 c hcdl
    refine ⟨hlen, ?_, ?_⟩
    · intro s hs
      rcases hmem s hs with ⟨t, ht, hte⟩
      rw [hpval] at ht
      have h1 := List.mem_of_mem_filter ht
      refine ⟨t, List.mem_of_mem_filter h1, hte, ?_⟩
      have h2 : t.id ∈ available ∧ t.id ∉ used := by simpa using (List.mem_filter.1 h1).2
      rw [← hte]
      exact h2
    · intro hnd
      refine hndc ?_
      rw [hpval]
      have hsub : ((ga.time_slots.filter (fun s => s.id ∈ available ∧ s.id ∉ used)).filter
          (fun s => s.day = p.1)).Sublist ga.time_slots :=
        List.Sublist.trans (List.filter_sublist _) (List.filter_sublist _)
      exact List.Nodup.sublist (hsub.map _) hnd
  simp only [find_lab_slots]
  split
  · -- fallback path
    rcases fallbackScan_spec (slotsByDay ga available used)
        (randomShuffle ((slotsByDay ga available used).map (fun p => p.1)) r).1 with hfb | hfb
    · rw [hfb]
      exact ⟨Or.inl rfl, fun s hs => absurd hs (List.not_mem_nil s), fun _ => List.nodup_nil⟩
    · obtain ⟨day, hscan⟩ := hfb
      obtain ⟨hlen, hmem, hnd⟩ := scanTriple_spec _ _ hscan
      have hsortperm : (stableSort (fun (a b : SlotInfo) => decide (a.period ≤ b.period))
          ((aget (slotsByDay ga available used) day).getD [])).Perm
          ((aget (slotsByDay ga available used) day).getD []) := stableSort_perm _ _
      refine ⟨Or.inr hlen, ?_, ?_⟩
      · intro s hs
        rcases hmem s hs with ⟨t, ht, hte⟩
        have ht2 := hsortperm.subset ht
        obtain ⟨hts, hta, htu⟩ := hdlmem day t ht2
        exact ⟨t, hts, hte, by rw [← hte]; exact hta, by rw [← hte]; exact htu⟩
      · intro hnodup
        refine hnd ?_
        exact ((hsortperm.map (fun t => t.id)).nodup_iff).2 (hdlnd hnodup day)
  · -- candidate path
    next hne =>
      split
      · next hpref =>
          obtain ⟨c, hcm, hce⟩ := sortPick_mem du _ r hpref
          have hc2 := hcands c (List.mem_of_mem_filter hcm)
          rw [hce]
          exact ⟨Or.inr hc2.1, hc2.2.1, hc2.2.2⟩
      · next hpref =>
          have hfbne : ((slotsByDay ga available used).foldl
              (fun acc p => acc ++ dayCandidates p.1 p.2) []).filter
              (fun c => c.1 ∈ ex) ≠ [] := by
            intro h0
            rcases List.exists_mem_of_ne_nil _ hne with ⟨x, hx⟩
            by_cases hxe : x.1 ∈ ex
            · have : x ∈ ((slotsByDay ga available used).foldl
                  (fun acc p => acc ++ dayCandidates p.1 p.2) []).filter
                  (fun c => c.1 ∈ ex) := List.mem_filter.2 ⟨hx, by simpa using hxe⟩
              rw [h0] at this
              exact absurd this (List.not_mem_nil x)
            · have : x ∈ ((slotsByDay ga available used).foldl
                  (fun acc p => acc ++ dayCandidates p.1 p.2) []).filter
                  (fun c => c.1 ∉ ex) := List.mem_filter.2 ⟨hx, by simpa using hxe⟩
              have h1 : ((slotsByDay ga available used).foldl
                  (fun acc p => acc ++ dayCandidates p.1 p.2) []).filter
                  (fun c => c.1 ∉ ex) = [] := by
                by_contra h2
                exact hpref h2
              rw [h1] at this
              exact absurd this (List.not_mem_nil x)
          obtain ⟨c, hcm, hce⟩ := sortPick_mem du _ r hfbne
          have hc2 := hcands c (List.mem_of_mem_filter hcm)
          rw [hce]
          exact ⟨Or.inr hc2.1, hc2.2.1, hc2.2.2⟩

/-! ## Constructor invariants: no class double-booking, full coverage -/

theorem insertFold_rev : ∀ (ls used : List ℕ), ls.Nodup → (∀ s ∈ ls, s ∉ used) →
    ls.foldl (fun u s => u.insert s) used = ls.reverse ++ used := by
  intro ls
  induction ls with
  | nil => intro used _ _; simp
  | cons x t ih =>
    intro used hnd hf
    have hx : x ∉ used := hf x (by simp)
    have h1 : used.insert x = x :: used := List.insert_of_not_mem hx
    have ht : t.foldl (fun u s => u.insert s) (x :: used) = t.reverse ++ (x :: used) := by
      refine ih (x :: used) (List.Nodup.of_cons hnd) ?_
      intro s hs
      simp only [List.mem_cons]
      push_neg
      exact ⟨fun he => (List.nodup_cons.1 hnd).1 (he ▸ hs),
        hf s (List.mem_cons_of_mem x hs)⟩
    simp only [List.foldl_cons, h1, ht, List.reverse_cons, List.append_assoc,
      List.singleton_append]

theorem labFold_genes (cid lab_id main : ℕ) (asst : Option ℕ) :
    ∀ (ls : List ℕ) (p : BuildSt × ClassSt),
    (ls.foldl (labFoldStep cid lab_id main asst) p).1.genes
      = p.1.genes ++ ls.map (fun s => (⟨cid, lab_id, main, s, true, asst⟩ : Gene)) := by
  intro ls
  induction ls with
  | nil => intro p; simp
  | cons x t ih =>
    intro p
    simp only [List.foldl_cons, List.map_cons]
    rw [ih]
    simp [labFoldStep]

theorem labFold_used (cid lab_id main : ℕ) (asst : Option ℕ) :
    ∀ (ls : List ℕ) (p : BuildSt × ClassSt),
    (ls.foldl (labFoldStep cid lab_id main asst) p).2.used
      = ls.foldl (fun u s => u.insert s) p.2.used := by
  intro ls
  induction ls with
  | nil => intro p; rfl
  | cons x t ih =>
    intro p
    simp only [List.foldl_cons]
    rw [ih]
    rfl

theorem theoryFold_genes (cid sid fid : ℕ) :
    ∀ (ls : List ℕ) (p : BuildSt × ClassSt),
    (ls.foldl (theoryFoldStep cid sid fid) p).1.genes
      = p.1.genes ++ ls.map (fun s => (⟨cid, sid, fid, s, false, none⟩ : Gene)) := by
  intro ls
  induction ls with
  | nil => intro p; simp
  | cons x t ih =>
    intro p
    simp only [List.foldl_cons, List.map_cons]
    rw [ih]
    simp [theoryFoldStep]

theorem theoryFold_used (cid sid fid : ℕ) :
    ∀ (ls : List ℕ) (p : BuildSt × ClassSt),
    (ls.foldl (theoryFoldStep cid sid fid) p).2.used
      = ls.foldl (fun u s => u.insert s) p.2.used := by
  intro ls
  induction ls with
  | nil => intro p; rfl
  | cons x t ih =>
    intro p
    simp only [List.foldl_cons]
    rw [ih]
    rfl

theorem labFold_inv (ga : GeneticAlgorithm) (cid lab_id main : ℕ) (asst : Option ℕ)
    (base : List Gene) (ls : List ℕ) (st : BuildSt) (cs : ClassSt)
    (h : ClassInv ga cid base (st, cs)) (hnd : ls.Nodup)
    (hfresh : ∀ s ∈ ls, s ∉ cs.used ∧ s ∈ slotIds ga) :
    ClassInv ga cid base (ls.foldl (labFoldStep cid lab_id main asst) (st, cs)) := by
  obtain ⟨new, hg, hcls, hslots, hndu, hsub⟩ := h
  have hused : (ls.foldl (labFoldStep cid lab_id main asst) (st, cs)).2.used
      = ls.reverse ++ cs.used := by
    rw [labFold_used, insertFold_rev ls cs.used hnd (fun s hs => (hfresh s hs).1)]
  refine ⟨new ++ ls.map (fun s => (⟨cid, lab_id, main, s, true, asst⟩ : Gene)),
    ?_, ?_, ?_, ?_, ?_⟩
  · rw [labFold_genes, hg, List.append_assoc]
  · intro g hgm
    rcases List.mem_append.1 hgm with h1 | h1
    · exact hcls g h1
    · rcases List.mem_map.1 h1 with ⟨s, _, he⟩
      rw [← he]
  · have hmap : ∀ l : List ℕ, l.map ((fun g : Gene => g.time_slot_id) ∘
        (fun s => (⟨cid, lab_id, main, s, true, asst⟩ : Gene))) = l := by
      intro l
      induction l with
      | nil => rfl
      | cons a t iht =>
        rw [List.map_cons, iht]
        exact rfl
    rw [hused, List.map_append, List.map_map, hslots, hmap, List.reverse_append,
      List.reverse_reverse]
  · rw [hused]
    refine List.Nodup.append (List.nodup_reverse.2 hnd) hndu ?_
    intro s hs1 hs2
    exact (hfresh s (List.mem_reverse.1 hs1)).1 hs2
  · intro s hs
    rw [hused] at hs
    rcases List.mem_append.1 hs with h1 | h1
    · exact (hfresh s (List.mem_reverse.1 h1)).2
    · exact hsub s h1

theorem theoryFold_inv (ga : GeneticAlgorithm) (cid sid fid : ℕ)
    (base : List Gene) (ls : List ℕ) (st : BuildSt) (cs : ClassSt)
    (h : ClassInv ga cid base (st, cs)) (hnd : ls.Nodup)
    (hfresh : ∀ s ∈ ls, s ∉ cs.used ∧ s ∈ slotIds ga) :
    ClassInv ga cid base (ls.foldl (theoryFoldStep cid sid fid) (st, cs)) := by
  obtain ⟨new, hg, hcls, hslots, hndu, hsub⟩ := h
  have hused : (ls.foldl (theoryFoldStep cid sid fid) (st, cs)).2.used
      = ls.reverse ++ cs.used := by
    rw [theoryFold_used, insertFold_rev ls cs.used hnd (fun s hs => (hfresh s hs).1)]
  refine ⟨new ++ ls.map (fun s => (⟨cid, sid, fid, s, false, none⟩ : Gene)),
    ?_, ?_, ?_, ?_, ?_⟩
  · rw [theoryFold_genes, hg, List.append_assoc]
  · intro g hgm
    rcases List.mem_append.1 hgm with h1 | h1
    · exact hcls g h1
    · rcases List.mem_map.1 h1 with ⟨s, _, he⟩
      rw [← he]
  · have hmap : ∀ l : List ℕ, l.map ((fun g : Gene => g.time_slot_id) ∘
        (fun s => (⟨cid, sid, fid, s, false, none⟩ : Gene))) = l := by
      intro l
      induction l with
      | nil => rfl
      | cons a t iht =>
        rw [List.map_cons, iht]
        exact rfl
    rw [hused, List.map_append, List.map_map, hslots, hmap, List.reverse_append,
      List.reverse_reverse]
  · rw [hused]
    refine List.Nodup.append (List.nodup_reverse.2 hnd) hndu ?_
    intro s hs1 hs2
    exact (hfresh s (List.mem_reverse.1 hs1)).1 hs2
  · intro s hs
    rw [hused] at hs
    rcases List.mem_append.1 hs with h1 | h1
    · exact (hfresh s (List.mem_reverse.1 h1)).2
    · exact hsub s h1

theorem labPassOne_inv (ga : GeneticAlgorithm) (cid : ℕ) (base : List Gene)
    (hnd : (slotIds ga).Nodup) (st : BuildSt) (cs : ClassSt) (lab_id : ℕ)
    (h : ClassInv ga cid base (st, cs)) :
    ClassInv ga cid base (labPassOne ga cid st cs lab_id) := by
  have hspec := find_lab_slots_spec ga (slotIds ga)
    (cs.used ++ (aget st.room_usage lab_id).getD []) cs.lab_days st.day_usage st.rng
  simp only [labPassOne]
  split
  · exact h
  · next hne =>
    refine labFold_inv ga cid lab_id _ _ base _ _ _ h (hspec.2.2 hnd) ?_
    intro s hs
    obtain ⟨t, _, _, hav, hnu⟩ := hspec.2.1 s hs
    exact ⟨fun hsu => hnu (List.mem_append.2 (Or.inl hsu)), hav⟩

theorem theoryPassOne_inv (ga : GeneticAlgorithm) (cid : ℕ) (base : List Gene)
    (hnd : (slotIds ga).Nodup) (st : BuildSt) (cs : ClassSt) (subject_id : ℕ)
    (h : ClassInv ga cid base (st, cs)) :
    ClassInv ga cid base (theoryPassOne ga cid st cs subject_id) := by
  have h0 : ∀ (p : ℕ → Bool) (r : Rng),
      ((randomShuffle ((slotIds ga).filter p) r).1).Nodup := fun p r =>
    ((randomShuffle_perm _ r).nodup_iff).2 (hnd.filter p)
  have h0m : ∀ (p : ℕ → Bool) (r : Rng) (s : ℕ),
      s ∈ (randomShuffle ((slotIds ga).filter p) r).1 →
      s ∈ slotIds ga ∧ p s = true := by
    intro p r s hs
    have hm := (randomShuffle_perm _ r).subset hs
    exact ⟨List.mem_of_mem_filter hm, List.of_mem_filter hm⟩
  have key : ∀ (rem : List ℕ) (n : ℕ) (r' : Rng) (fid : ℕ),
      rem.Nodup → (∀ s ∈ rem, s ∉ cs.used ∧ s ∈ slotIds ga) →
      ClassInv ga cid base
        ((rem.take n).foldl (theoryFoldStep cid subject_id fid)
          ({ st with rng := r' }, cs)) := by
    intro rem n r' fid hrn hrf
    refine theoryFold_inv ga cid subject_id fid base (rem.take n) _ cs h
      ((List.take_sublist n rem).nodup hrn) ?_
    intro s hs
    exact hrf s (List.take_subset n rem hs)
  simp only [theoryPassOne]
  refine key _ _ _ _ ?_ ?_
  · split <;> try split
    all_goals
      first
      | exact h0 _ _
      | (refine List.Nodup.append (h0 _ _) (hnd.filter _) ?_
         intro s hs1 hs2
         have h1 := (h0m _ _ s hs1).2
         rw [decide_eq_true_eq] at h1
         have h2 := List.of_mem_filter hs2
         rw [decide_eq_true_eq] at h2
         exact h1.2 h2.2)
  · intro s hs
    split at hs <;> try split at hs
    all_goals
      first
      | (rcases List.mem_append.1 hs with h1 | h1
         · have h2 := h0m _ _ s h1
           have h3 := h2.2
           rw [decide_eq_true_eq] at h3
           exact ⟨h3.1, h2.1⟩
         · have h2 := List.of_mem_filter h1
           rw [decide_eq_true_eq] at h2
           exact ⟨h2.1, List.mem_of_mem_filter h1⟩)
      | (have h2 := h0m _ _ s hs
         have h3 := h2.2
         rw [decide_eq_true_eq] at h3
         exact ⟨h3.1, h2.1⟩)

theorem fillLoop_inv (ga : GeneticAlgorithm) (cid : ℕ) (fillable : List ℕ)
    (maxAtt : ℕ) (base : List Gene) :
    ∀ (fuel : ℕ) (fs : FillSt), FillInv ga cid base fs →
      FillInv ga cid base (fillLoop ga cid fillable maxAtt fuel fs) ∧
      (∀ s : ℕ, s ∈ fs.used ∨ s ∈ fs.queue →
        s ∈ (fillLoop ga cid fillable maxAtt fuel fs).used ∨
        s ∈ (fillLoop ga cid fillable maxAtt fuel fs).queue) := by
  intro fuel
  induction fuel with
  | zero => intro fs h; exact ⟨h, fun s hs => hs⟩
  | succ n ih =>
    intro fs h
    simp only [fillLoop]
    split
    · exact ⟨h, fun s hs => hs⟩
    · next hguard =>
      have hng : ¬ fs.queue = [] ∧ fs.attempts < maxAtt := by
        push_neg at hguard
        exact hguard
      obtain ⟨new, hg, hcls, hsl, hndu, hsub, hqnd, hqf⟩ := h
      cases hqv : fs.queue with
      | nil => exact absurd hqv hng.1
      | cons x t =>
        rw [hqv] at hqnd hqf
        have hx := hqf x (List.mem_cons_self x t)
        have hins : fs.used.insert x = x :: fs.used := List.insert_of_not_mem hx.1
        have hstep : ∀ (G : Gene) (fsched : List (ℕ × List ℕ)) (sf : List (ℕ × ℕ))
            (fi att : ℕ) (r : Rng), G.class_id = cid → G.time_slot_id = x →
            FillInv ga cid base
              ⟨fs.genes ++ [G], fsched, fs.used.insert x, t, sf, fi, att, r⟩ := by
          intro G fsched sf fi att r hGc hGs
          refine ⟨new ++ [G], ?_, ?_, ?_, ?_, ?_, ?_, ?_⟩
          · rw [hg, List.append_assoc]
          · intro g hgm
            rcases List.mem_append.1 hgm with h1 | h1
            · exact hcls g h1
            · rw [List.mem_singleton.1 h1]
              exact hGc
          · rw [List.map_append, hsl]
            show fs.used.reverse ++ [G.time_slot_id] = (fs.used.insert x).reverse
            rw [hGs, hins, List.reverse_cons]
          · rw [hins]
            exact List.nodup_cons.2 ⟨hx.1, hndu⟩
          · intro s hs
            rw [hins] at hs
            rcases List.mem_cons.1 hs with h1 | h1
            · rw [h1]
              exact hx.2
            · exact hsub s h1
          · exact (List.nodup_cons.1 hqnd).2
          · intro s hs
            have hst := hqf s (List.mem_cons_of_mem x hs)
            rw [hins]
            refine ⟨?_, hst.2⟩
            intro hmem
            rcases List.mem_cons.1 hmem with h1 | h1
            · exact (List.nodup_cons.1 hqnd).1 (h1 ▸ hs)
            · exact hst.1 h1
        have hmono : ∀ (fs2 : FillSt), fs2.used = fs.used.insert x → fs2.queue = t →
            ∀ s : ℕ, s ∈ fs.used ∨ s ∈ x :: t → s ∈ fs2.used ∨ s ∈ fs2.queue := by
          intro fs2 hu hqq s hs
          rw [hu, hqq, hins]
          rcases hs with h1 | h1
          · exact Or.inl (List.mem_cons_of_mem x h1)
          · rcases List.mem_cons.1 h1 with h2 | h2
            · exact Or.inl (by rw [h2]; exact List.mem_cons_self x fs.used)
            · exact Or.inr h2
        have hskip : ∀ (sf : List (ℕ × ℕ)) (fi att : ℕ) (r : Rng),
            FillInv ga cid base
              ⟨fs.genes, fs.fac_sched, fs.used, x :: t, sf, fi, att, r⟩ :=
          fun _ _ _ _ => ⟨new, hg, hcls, hsl, hndu, hsub, hqnd, hqf⟩
        simp only [List.headD_cons, List.tail_cons]
        split
        all_goals try split
        all_goals try split
        all_goals try split
        all_goals
          first
          | (refine ⟨(ih _ (hstep _ _ _ _ _ _ rfl rfl)).1, ?_⟩
             intro s hs
             exact (ih _ (hstep _ _ _ _ _ _ rfl rfl)).2 s (hmono _ rfl rfl s hs))
          | (refine ⟨(ih _ (hskip _ _ _ _)).1, ?_⟩
             intro s hs
             exact (ih _ (hskip _ _ _ _)).2 s hs)

theorem fillLoop_complete (ga : GeneticAlgorithm) (cid : ℕ) (fillable : List ℕ)
    (maxAtt : ℕ) (hk : fillable ≠ []) (hdvd : fillable.length ∣ maxAtt) :
    ∀ (fuel : ℕ) (fs : FillSt),
      fs.queue.length * (maxAtt + 1) + (maxAtt - fs.attempts) < fuel →
      fs.attempts + fillable.length * fs.queue.length + 1 ≤ maxAtt + fillable.length →
      (fillLoop ga cid fillable maxAtt fuel fs).queue = [] := by
  have hk1 : 1 ≤ fillable.length := List.length_pos.2 hk
  intro fuel
  induction fuel with
  | zero => intro fs hfu _; omega
  | succ n ih =>
    intro fs hfu hJ
    simp only [fillLoop]
    split
    · next hg =>
      rcases hg with hg | hg
      · exact hg
      · cases hqv : fs.queue with
        | nil => rfl
        | cons x t =>
          exfalso
          rw [hqv] at hJ
          simp only [List.length_cons] at hJ
          have hmul : fillable.length * (t.length + 1)
              = fillable.length * t.length + fillable.length := by ring
          rw [hmul] at hJ
          omega
    · next hguard =>
      have hng : ¬ fs.queue = [] ∧ fs.attempts < maxAtt := by
        push_neg at hguard
        exact hguard
      cases hqv : fs.queue with
      | nil => exact absurd hqv hng.1
      | cons x t =>
        rw [hqv] at hfu hJ
        simp only [List.length_cons] at hfu hJ
        have hmulA : (t.length + 1) * (maxAtt + 1)
            = t.length * (maxAtt + 1) + (maxAtt + 1) := by ring
        have hmulB : fillable.length * (t.length + 1)
            = fillable.length * t.length + fillable.length := by ring
        simp only [List.headD_cons, List.tail_cons]
        split
        all_goals try split
        all_goals try split
        all_goals try split
        all_goals
          first
          | -- forced placement: queue popped, attempts := attempts + 1
            (refine ih _ ?_ ?_
             · show t.length * (maxAtt + 1) + (maxAtt - (fs.attempts + 1)) < n
               rw [hmulA] at hfu
               omega
             · show fs.attempts + 1 + fillable.length * t.length + 1
                 ≤ maxAtt + fillable.length
               rw [hmulB] at hJ
               omega)
          | -- fresh placement: queue popped, attempts := 0
            (refine ih _ ?_ ?_
             · show t.length * (maxAtt + 1) + (maxAtt - 0) < n
               rw [hmulA] at hfu
               omega
             · show 0 + fillable.length * t.length + 1 ≤ maxAtt + fillable.length
               rw [hmulB] at hJ
               omega)
          | -- skip: queue kept, attempts := attempts + 1; cannot hit the
            -- bound because max_attempts is a multiple of the subject count
            (rename_i hmod
             refine ih _ ?_ ?_
             · show (x :: t).length * (maxAtt + 1)
                   + (maxAtt - (fs.attempts + 1)) < n
               simp only [List.length_cons]
               omega
             · show fs.attempts + 1 + fillable.length * (x :: t).length + 1
                   ≤ maxAtt + fillable.length
               simp only [List.length_cons]
               rcases Nat.lt_or_ge
                   (fs.attempts + fillable.length * (t.length + 1) + 1)
                   (maxAtt + fillable.length) with hlt | hge
               · omega
               · exfalso
                 have heq : fs.attempts + fillable.length * (t.length + 1) + 1
                     = maxAtt + fillable.length := le_antisymm hJ hge
                 have hd1 : fillable.length ∣ maxAtt + fillable.length :=
                   Dvd.dvd.add hdvd dvd_rfl
                 have hd2 : fillable.length ∣ fillable.length * (t.length + 1) :=
                   Dvd.intro _ rfl
                 have hsubeq : maxAtt + fillable.length
                     - fillable.length * (t.length + 1) = fs.attempts + 1 := by
                   omega
                 have hd3 : fillable.length ∣ fs.attempts + 1 := by
                   rw [← hsubeq]
                   exact Nat.dvd_sub' hd1 hd2
                 rcases hd3 with ⟨c, hc⟩
                 exact hmod (by rw [hc]; exact Nat.mul_mod_right _ _))

theorem fillPhase_spec (ga : GeneticAlgorithm) (hnd : (slotIds ga).Nodup) (cid : ℕ)
    (base : List Gene) (st2 : BuildSt) (cs2 : ClassSt) (fillable : List ℕ)
    (hfb : fillable ≠ []) (sf : List (ℕ × ℕ)) (r1 r2 : Rng)
    (queue : List ℕ) (maxAtt fuel : ℕ)
    (hq : queue = (randomShuffle ((slotIds ga).filter (fun s => s ∉ cs2.used)) r1).1)
    (hM : maxAtt = ((slotIds ga).filter (fun s => s ∉ cs2.used)).length * fillable.length)
    (hF : fuel = (((slotIds ga).filter (fun s => s ∉ cs2.used)).length + 1) * (maxAtt + 1))
    (h : ClassInv ga cid base (st2, cs2)) :
    ∃ new : List Gene,
      (fillLoop ga cid fillable maxAtt fuel
        ⟨st2.genes, st2.fac_sched, cs2.used, queue, sf, 0, 0, r2⟩).genes
          = base ++ new ∧
      (∀ g ∈ new, g.class_id = cid) ∧
      (new.map (fun g => g.time_slot_id)).Perm (slotIds ga) := by
  have hk1 : 1 ≤ fillable.length := List.length_pos.2 hfb
  have hqperm : queue.Perm ((slotIds ga).filter (fun s => s ∉ cs2.used)) :=
    hq ▸ randomShuffle_perm ((slotIds ga).filter (fun s => s ∉ cs2.used)) r1
  have hqnd : queue.Nodup := hqperm.nodup_iff.2 (hnd.filter _)
  have hqf : ∀ s ∈ queue, s ∉ cs2.used ∧ s ∈ slotIds ga := by
    intro s hs
    have hm := hqperm.subset hs
    have h2 := List.of_mem_filter hm
    rw [decide_eq_true_eq] at h2
    exact ⟨h2, List.mem_of_mem_filter hm⟩
  have hlen : queue.length = ((slotIds ga).filter (fun s => s ∉ cs2.used)).length :=
    hqperm.length_eq
  obtain ⟨new0, hg, hcls, hsl, hndu, hsub⟩ := h
  have hinv0 : FillInv ga cid base
      ⟨st2.genes, st2.fac_sched, cs2.used, queue, sf, 0, 0, r2⟩ :=
    ⟨new0, hg, hcls, hsl, hndu, hsub, hqnd, hqf⟩
  obtain ⟨⟨new, hg2, hcls2, hsl2, hndu2, hsub2, _, _⟩, hmono⟩ :=
    fillLoop_inv ga cid fillable maxAtt base fuel
      ⟨st2.genes, st2.fac_sched, cs2.used, queue, sf, 0, 0, r2⟩ hinv0
  have hdvd : fillable.length ∣ maxAtt := by
    rw [hM]
    exact dvd_mul_left _ _
  have hqempty : (fillLoop ga cid fillable maxAtt fuel
      ⟨st2.genes, st2.fac_sched, cs2.used, queue, sf, 0, 0, r2⟩).queue = [] := by
    refine fillLoop_complete ga cid fillable maxAtt hfb hdvd fuel _ ?_ ?_
    · show queue.length * (maxAtt + 1) + (maxAtt - 0) < fuel
      rw [hlen, hF]
      have he : (((slotIds ga).filter (fun s => s ∉ cs2.used)).length + 1) * (maxAtt + 1)
          = ((slotIds ga).filter (fun s => s ∉ cs2.used)).length * (maxAtt + 1)
            + (maxAtt + 1) := by ring
      omega
    · show 0 + fillable.length * queue.length + 1 ≤ maxAtt + fillable.length
      rw [hlen, hM]
      have he : fillable.length * ((slotIds ga).filter (fun s => s ∉ cs2.used)).length
          = ((slotIds ga).filter (fun s => s ∉ cs2.used)).length * fillable.length := by
        ring
      omega
  refine ⟨new, hg2, hcls2, ?_⟩
  have hsubset2 : ∀ s ∈ slotIds ga, s ∈ (fillLoop ga cid fillable maxAtt fuel
      ⟨st2.genes, st2.fac_sched, cs2.used, queue, sf, 0, 0, r2⟩).used := by
    intro s hs
    have hpre : s ∈ cs2.used ∨ s ∈ queue := by
      by_cases hu : s ∈ cs2.used
      · exact Or.inl hu
      · refine Or.inr (hqperm.mem_iff.2 ?_)
        refine List.mem_filter.2 ⟨hs, ?_⟩
        rw [decide_eq_true_eq]
        exact hu
    rcases hmono s hpre with h1 | h1
    · exact h1
    · rw [hqempty] at h1
      exact absurd h1 (List.not_mem_nil s)
  have hpermused : (fillLoop ga cid fillable maxAtt fuel
      ⟨st2.genes, st2.fac_sched, cs2.used, queue, sf, 0, 0, r2⟩).used.Perm (slotIds ga) :=
    List.Subperm.antisymm (hndu2.subperm (fun s hs => hsub2 s hs))
      (hnd.subperm (fun s hs => hsubset2 s hs))
  rw [hsl2]
  exact (List.reverse_perm _).trans hpermused

theorem scheduleClass_spec (ga : GeneticAlgorithm) (hnd : (slotIds ga).Nodup)
    (st : BuildSt) (ci : ClassInfo) :
    ∃ new : List Gene,
      (scheduleClass ga st ci).genes = st.genes ++ new ∧
      (∀ g ∈ new, g.class_id = ci.id) ∧
      (new.map (fun g => g.time_slot_id)).Nodup ∧
      ((class_subjects ga ci).filter (fun sid => subjectTypeOf ga sid = "THEORY" ∨
          subjectTypeOf ga sid = "ELECTIVE") ≠ [] →
        (new.map (fun g => g.time_slot_id)).Perm (slotIds ga)) := by
  have hlabs : ClassInv ga ci.id st.genes
      ((((class_subjects ga ci).filter
          (fun sid => subjectTypeOf ga sid = "LAB")).take 2).foldl
        (fun acc lab_id => labPassOne ga ci.id acc.1 acc.2 lab_id) (st, ⟨[], []⟩)) :=
    foldl_preserve _ _
      (fun a b ha => labPassOne_inv ga ci.id st.genes hnd a.1 a.2 b ha) _ _
      ⟨[], by simp, by simp, by simp, List.nodup_nil, by simp⟩
  have htt : ClassInv ga ci.id st.genes
      (((class_subjects ga ci).filter
          (fun sid => subjectTypeOf ga sid = "THEORY")).foldl
        (fun acc sid => theoryPassOne ga ci.id acc.1 acc.2 sid)
        ((((class_subjects ga ci).filter
            (fun sid => subjectTypeOf ga sid = "LAB")).take 2).foldl
          (fun acc lab_id => labPassOne ga ci.id acc.1 acc.2 lab_id) (st, ⟨[], []⟩))) :=
    foldl_preserve _ _
      (fun a b ha => theoryPassOne_inv ga ci.id st.genes hnd a.1 a.2 b ha) _ _ hlabs
  simp only [scheduleClass]
  split
  · next hemp =>
    obtain ⟨new, hg, hcls, hsl, hndu, _⟩ := htt
    refine ⟨new, hg, hcls, ?_, ?_⟩
    · rw [hsl]
      exact List.nodup_reverse.2 hndu
    · intro hf
      exact absurd hemp hf
  · next hemp =>
    obtain ⟨new, h1, h2, h3⟩ :=
      fillPhase_spec ga hnd ci.id st.genes _ _ _ hemp _ _ _ _ _ _ rfl rfl rfl htt
    refine ⟨new, h1, h2, (h3.nodup_iff).2 hnd, fun _ => h3⟩

theorem scheduleFold (ga : GeneticAlgorithm) (hnd : (slotIds ga).Nodup) :
    ∀ (L : List ClassInfo) (st : BuildSt),
      (L.map (fun c => c.id)).Nodup →
      (∀ cid : ℕ, ((genesFor st.genes cid).map (fun g => g.time_slot_id)).Nodup) →
      (∀ c ∈ L, genesFor st.genes c.id = []) →
      (∀ cid : ℕ, ((genesFor (L.foldl (scheduleClass ga) st).genes cid).map
        (fun g => g.time_slot_id)).Nodup) ∧
      (∀ cid : ℕ, cid ∉ L.map (fun c => c.id) →
        genesFor (L.foldl (scheduleClass ga) st).genes cid = genesFor st.genes cid) ∧
      (∀ c ∈ L, (class_subjects ga c).filter
          (fun sid => subjectTypeOf ga sid = "THEORY" ∨
            subjectTypeOf ga sid = "ELECTIVE") ≠ [] →
        ((genesFor (L.foldl (scheduleClass ga) st).genes c.id).map
          (fun g => g.time_slot_id)).Perm (slotIds ga)) := by
  intro L
  induction L with
  | nil =>
    intro st _ ha _
    exact ⟨ha, fun cid _ => rfl, fun c hc => absurd hc (List.not_mem_nil c)⟩
  | cons c0 t ih =>
    intro st hLnd ha hb
    obtain ⟨new, hg, hcls, hnodup, hperm⟩ := scheduleClass_spec ga hnd st c0
    have hgf : ∀ cid : ℕ, genesFor (scheduleClass ga st c0).genes cid
        = genesFor st.genes cid ++ genesFor new cid := by
      intro cid
      simp only [genesFor]
      rw [hg, List.filter_append]
    have hne : ∀ cid : ℕ, cid ≠ c0.id → genesFor new cid = [] := by
      intro cid hne0
      simp only [genesFor]
      rw [List.filter_eq_nil_iff]
      intro g hgm
      simp only [decide_eq_true_eq]
      rw [hcls g hgm]
      exact fun he => hne0 he.symm
    have heq : genesFor (scheduleClass ga st c0).genes c0.id = new := by
      rw [hgf, hb c0 (List.mem_cons_self c0 t), List.nil_append]
      simp only [genesFor]
      rw [List.filter_eq_self.2]
      intro g hgm
      simp only [decide_eq_true_eq]
      exact hcls g hgm
    have hc0nin : c0.id ∉ t.map (fun c => c.id) := by
      have := hLnd
      simp only [List.map_cons, List.nodup_cons] at this
      exact this.1
    have ha1 : ∀ cid : ℕ, ((genesFor (scheduleClass ga st c0).genes cid).map
        (fun g => g.time_slot_id)).Nodup := by
      intro cid
      by_cases hcc : cid = c0.id
      · rw [hcc, heq]
        exact hnodup
      · rw [hgf, hne cid hcc, List.append_nil]
        exact ha cid
    have hb1 : ∀ c ∈ t, genesFor (scheduleClass ga st c0).genes c.id = [] := by
      intro c hc
      have hcne : c.id ≠ c0.id := by
        intro he
        exact hc0nin (he ▸ List.mem_map_of_mem (fun c => c.id) hc)
      rw [hgf, hne c.id hcne, List.append_nil, hb c (List.mem_cons_of_mem c0 hc)]
    have htnd : (t.map (fun c => c.id)).Nodup := by
      have := hLnd
      simp only [List.map_cons, List.nodup_cons] at this
      exact this.2
    obtain ⟨A, B, C⟩ := ih (scheduleClass ga st c0) htnd ha1 hb1
    simp only [List.foldl_cons]
    refine ⟨A, ?_, ?_⟩
    · intro cid hcid
      simp only [List.map_cons, List.mem_cons] at hcid
      push_neg at hcid
      rw [B cid hcid.2, hgf, hne cid hcid.1, List.append_nil]
    · intro c hc hf
      rcases List.mem_cons.1 hc with hch | hct
      · rw [hch]
        rw [B c0.id hc0nin, heq]
        exact hperm (hch ▸ hf)
      · exact C c hct hf

/-- C10: every freshly constructed chromosome has pairwise-distinct
time-slot ids within each class — the constructor never double-books a
class, provided slot ids and class ids are unique (they are database
primary keys). -/
theorem constructor_no_class_double_booking (ga : GeneticAlgorithm) (r : Rng)
    (hnd : (slotIds ga).Nodup)
    (hcl : (ga.classes.map (fun c => c.id)).Nodup) (cid : ℕ) :
    ((genesFor (create_random_chromosome ga r).1.genes cid).map
      (fun g => g.time_slot_id)).Nodup := by
  have hperm := randomShuffle_perm ga.classes r
  have h1 : (((randomShuffle ga.classes r).1).map (fun c => c.id)).Nodup :=
    ((hperm.map (fun c => c.id)).nodup_iff).2 hcl
  have h2 := scheduleFold ga hnd (randomShuffle ga.classes r).1
    ⟨[], [], [], [], (randomShuffle ga.classes r).2⟩ h1
    (by intro cid; simp [genesFor]) (by intro c _; simp [genesFor])
  simp only [create_random_chromosome]
  exact h2.1 cid

/-- C2: for every class with at least one THEORY or ELECTIVE subject,
the constructed chromosome holds exactly 35 genes for that class, one
per teaching slot: their time-slot ids are a permutation of the 35 slot
ids. -/
theorem constructor_gene_count (ga : GeneticAlgorithm) (r : Rng)
    (hnd : (slotIds ga).Nodup) (h35 : (slotIds ga).length = 35)
    (hcl : (ga.classes.map (fun c => c.id)).Nodup)
    (ci : ClassInfo) (hci : ci ∈ ga.classes)
    (hfb : (class_subjects ga ci).filter
      (fun sid => subjectTypeOf ga sid = "THEORY" ∨
        subjectTypeOf ga sid = "ELECTIVE") ≠ []) :
    ((genesFor (create_random_chromosome ga r).1.genes ci.id).map
        (fun g => g.time_slot_id)).Perm (slotIds ga) ∧
    (genesFor (create_random_chromosome ga r).1.genes ci.id).length = 35 := by
  have hperm := randomShuffle_perm ga.classes r
  have h1 : (((randomShuffle ga.classes r).1).map (fun c => c.id)).Nodup :=
    ((hperm.map (fun c => c.id)).nodup_iff).2 hcl
  have h2 := scheduleFold ga hnd (randomShuffle ga.classes r).1
    ⟨[], [], [], [], (randomShuffle ga.classes r).2⟩ h1
    (by intro cid; simp [genesFor]) (by intro c _; simp [genesFor])
  have hmem : ci ∈ (randomShuffle ga.classes r).1 := hperm.mem_iff.2 hci
  have h3 := h2.2.2 ci hmem hfb
  refine ⟨?_, ?_⟩
  · simp only [create_random_chromosome]
    exact h3
  · simp only [create_random_chromosome]
    have hlen := h3.length_eq
    rw [List.length_map, h35] at hlen
    exact hlen

theorem constructor_no_class_double_booking_witness :
    ((slotIds demoGA).Nodup ∧ (demoGA.classes.map (fun c => c.id)).Nodup) ∧
    ((genesFor (create_random_chromosome demoGA []).1.genes 1).map
      (fun g => g.time_slot_id)).Nodup :=
  ⟨⟨by decide, by decide⟩,
   constructor_no_class_double_booking demoGA [] (by decide) (by decide) 1⟩

theorem constructor_gene_count_witness :
    ((slotIds demoGA).Nodup ∧ (slotIds demoGA).length = 35 ∧
      (demoGA.classes.map (fun c => c.id)).Nodup ∧
      (⟨1, 1⟩ : ClassInfo) ∈ demoGA.classes ∧
      (class_subjects demoGA ⟨1, 1⟩).filter
        (fun sid => subjectTypeOf demoGA sid = "THEORY" ∨
          subjectTypeOf demoGA sid = "ELECTIVE") ≠ []) ∧
    (((genesFor (create_random_chromosome demoGA []).1.genes 1).map
        (fun g => g.time_slot_id)).Perm (slotIds demoGA) ∧
      (genesFor (create_random_chromosome demoGA []).1.genes 1).length = 35) :=
  ⟨⟨by decide, by decide, by decide, by decide, by decide⟩,
   constructor_gene_count demoGA [] (by decide) (by decide) (by decide)
     ⟨1, 1⟩ (by decide) (by decide)⟩

/-! ## Per-(class, subject) gene counts in the constructor (claim C4) -/

theorem countPair_append (l1 l2 : List Gene) (cid sid : ℕ) :
    countPair (l1 ++ l2) cid sid = countPair l1 cid sid + countPair l2 cid sid := by
  simp [countPair, List.filter_append]

theorem countPair_map_mk_eq (cid sid M : ℕ) (A : Option ℕ) (isl : Bool) (ls : List ℕ) :
    countPair (ls.map (fun s => (⟨cid, sid, M, s, isl, A⟩ : Gene))) cid sid
      = ls.length := by
  unfold countPair
  rw [List.filter_eq_self.2, List.length_map]
  intro g hgm
  rcases List.mem_map.1 hgm with ⟨s, _, he⟩
  rw [← he]
  simp

theorem countPair_map_mk_ne (cid sid cid' sid' M : ℕ) (A : Option ℕ) (isl : Bool)
    (ls : List ℕ) (h : ¬(cid' = cid ∧ sid' = sid)) :
    countPair (ls.map (fun s => (⟨cid', sid', M, s, isl, A⟩ : Gene))) cid sid = 0 := by
  unfold countPair
  rw [List.length_eq_zero, List.filter_eq_nil_iff]
  intro g hgm
  rcases List.mem_map.1 hgm with ⟨s, _, he⟩
  rw [← he]
  simp only [decide_eq_true_eq]
  exact h

theorem countPair_snoc_ne (l : List Gene) (G : Gene) (cid sid : ℕ)
    (h : ¬(G.class_id = cid ∧ G.subject_id = sid)) :
    countPair (l ++ [G]) cid sid = countPair l cid sid := by
  rw [countPair_append]
  have hz : countPair [G] cid sid = 0 := by
    unfold countPair
    rw [List.length_eq_zero, List.filter_eq_nil_iff]
    intro g hg
    rw [List.mem_singleton.1 hg]
    simp only [decide_eq_true_eq]
    exact h
  rw [hz, Nat.add_zero]

theorem countPair_all_class_ne (l : List Gene) (c cid sid : ℕ)
    (hall : ∀ g ∈ l, g.class_id = c) (hne : c ≠ cid) :
    countPair l cid sid = 0 := by
  unfold countPair
  rw [List.length_eq_zero, List.filter_eq_nil_iff]
  intro g hg
  simp only [decide_eq_true_eq]
  intro hc
  exact hne ((hall g hg) ▸ hc.1)

theorem labPassOne_genes (ga : GeneticAlgorithm) (cid : ℕ) (st : BuildSt)
    (cs : ClassSt) (lab_id : ℕ) :
    ∃ (M : ℕ) (A : Option ℕ) (ls : List ℕ),
      (labPassOne ga cid st cs lab_id).1.genes
        = st.genes ++ ls.map (fun s => (⟨cid, lab_id, M, s, true, A⟩ : Gene)) ∧
      (ls.length = 0 ∨ ls.length = 3) := by
  have hspec := find_lab_slots_spec ga (slotIds ga)
    (cs.used ++ (aget st.room_usage lab_id).getD []) cs.lab_days st.day_usage st.rng
  simp only [labPassOne]
  split
  · exact ⟨0, none, [], by simp, Or.inl rfl⟩
  · next hne =>
    refine ⟨_, _, _, labFold_genes _ _ _ _ _ _, ?_⟩
    rcases hspec.1 with h0 | h3
    · exact absurd h0 hne
    · exact Or.inr h3

theorem theoryPassOne_genes (ga : GeneticAlgorithm) (cid : ℕ) (st : BuildSt)
    (cs : ClassSt) (subject_id : ℕ) :
    ∃ (fid : ℕ) (ls : List ℕ),
      (theoryPassOne ga cid st cs subject_id).1.genes
        = st.genes ++ ls.map (fun s => (⟨cid, subject_id, fid, s, false, none⟩ : Gene)) := by
  simp only [theoryPassOne]
  exact ⟨_, _, theoryFold_genes _ _ _ _ _⟩

theorem labPassOne_count_ne (ga : GeneticAlgorithm) (cid : ℕ) (st : BuildSt)
    (cs : ClassSt) (lab_id sid : ℕ) (h : lab_id ≠ sid) :
    countPair (labPassOne ga cid st cs lab_id).1.genes cid sid
      = countPair st.genes cid sid := by
  obtain ⟨M, A, ls, hg, _⟩ := labPassOne_genes ga cid st cs lab_id
  rw [hg, countPair_append,
    countPair_map_mk_ne cid sid cid lab_id M A true ls (fun hc => h hc.2),
    Nat.add_zero]

theorem labPassOne_count_self (ga : GeneticAlgorithm) (cid : ℕ) (st : BuildSt)
    (cs : ClassSt) (sid : ℕ) :
    countPair (labPassOne ga cid st cs sid).1.genes cid sid
        = countPair st.genes cid sid ∨
    countPair (labPassOne ga cid st cs sid).1.genes cid sid
        = countPair st.genes cid sid + 3 := by
  obtain ⟨M, A, ls, hg, hlen⟩ := labPassOne_genes ga cid st cs sid
  rw [hg, countPair_append, countPair_map_mk_eq]
  rcases hlen with h0 | h3
  · left
    rw [h0, Nat.add_zero]
  · right
    rw [h3]

theorem theoryPassOne_count_ne (ga : GeneticAlgorithm) (cid : ℕ) (st : BuildSt)
    (cs : ClassSt) (subject_id sid : ℕ) (h : subject_id ≠ sid) :
    countPair (theoryPassOne ga cid st cs subject_id).1.genes cid sid
      = countPair st.genes cid sid := by
  obtain ⟨fid, ls, hg⟩ := theoryPassOne_genes ga cid st cs subject_id
  rw [hg, countPair_append,
    countPair_map_mk_ne cid sid cid subject_id fid none false ls (fun hc => h hc.2),
    Nat.add_zero]

theorem labsFold_count_none (ga : GeneticAlgorithm) (cid sid : ℕ) :
    ∀ (labs : List ℕ) (p : BuildSt × ClassSt), sid ∉ labs →
      countPair ((labs.foldl
          (fun acc lab_id => labPassOne ga cid acc.1 acc.2 lab_id) p).1.genes) cid sid
        = countPair p.1.genes cid sid := by
  intro labs
  induction labs with
  | nil => intro p _; rfl
  | cons l0 t ih =>
    intro p hni
    simp only [List.foldl_cons]
    rw [ih _ (fun hm => hni (List.mem_cons_of_mem l0 hm))]
    exact labPassOne_count_ne ga cid p.1 p.2 l0 sid
      (fun he => hni (he ▸ List.mem_cons_self l0 t))

theorem labsFold_count (ga : GeneticAlgorithm) (cid sid : ℕ) :
    ∀ (labs : List ℕ) (p : BuildSt × ClassSt), labs.Nodup →
      (countPair ((labs.foldl
          (fun acc lab_id => labPassOne ga cid acc.1 acc.2 lab_id) p).1.genes) cid sid
        = countPair p.1.genes cid sid ∨
       countPair ((labs.foldl
          (fun acc lab_id => labPassOne ga cid acc.1 acc.2 lab_id) p).1.genes) cid sid
        = countPair p.1.genes cid sid + 3) := by
  intro labs
  induction labs with
  | nil => intro p _; exact Or.inl rfl
  | cons l0 t ih =>
    intro p hnd
    simp only [List.foldl_cons]
    by_cases hl : l0 = sid
    · have hnin : sid ∉ t := fun hm => (List.nodup_cons.1 hnd).1 (by rw [hl]; exact hm)
      rw [labsFold_count_none ga cid sid t _ hnin, hl]
      exact labPassOne_count_self ga cid p.1 p.2 sid
    · rcases ih (labPassOne ga cid p.1 p.2 l0) (List.Nodup.of_cons hnd) with h1 | h1
      · left
        rw [h1]
        exact labPassOne_count_ne ga cid p.1 p.2 l0 sid hl
      · right
        rw [h1, labPassOne_count_ne ga cid p.1 p.2 l0 sid hl]

theorem theoriesFold_count (ga : GeneticAlgorithm) (cid sid : ℕ)
    (hlab : subjectTypeOf ga sid = "LAB") :
    ∀ (ts : List ℕ) (p : BuildSt × ClassSt),
      (∀ s' ∈ ts, subjectTypeOf ga s' = "THEORY") →
      countPair ((ts.foldl
          (fun acc s' => theoryPassOne ga cid acc.1 acc.2 s') p).1.genes) cid sid
        = countPair p.1.genes cid sid := by
  intro ts
  induction ts with
  | nil => intro p _; rfl
  | cons s0 t ih =>
    intro p hty
    simp only [List.foldl_cons]
    rw [ih _ (fun s' hs' => hty s' (List.mem_cons_of_mem s0 hs'))]
    refine theoryPassOne_count_ne ga cid p.1 p.2 s0 sid ?_
    intro he
    have h1 := hty s0 (List.mem_cons_self s0 t)
    rw [he, hlab] at h1
    exact absurd h1 (by decide)

theorem fillLoop_count (ga : GeneticAlgorithm) (cid : ℕ) (fillable : List ℕ)
    (maxAtt sid : ℕ) (hfil : ∀ x ∈ fillable, x ≠ sid) (hfb : fillable ≠ []) :
    ∀ (fuel : ℕ) (fs : FillSt),
      countPair (fillLoop ga cid fillable maxAtt fuel fs).genes cid sid
        = countPair fs.genes cid sid := by
  intro fuel
  induction fuel with
  | zero => intro fs; rfl
  | succ n ih =>
    intro fs
    simp only [fillLoop]
    split
    · rfl
    · have hgetD : fillable.getD (fs.fill_idx % fillable.length) 0 ≠ sid := by
        have hlt : fs.fill_idx % fillable.length < fillable.length :=
          Nat.mod_lt _ (List.length_pos.2 hfb)
        rw [List.getD_eq_getElem fillable 0 hlt]
        exact hfil _ (List.getElem_mem hlt)
      split
      all_goals try split
      all_goals try split
      all_goals try split
      all_goals rw [ih]
      all_goals
        first
        | rfl
        | exact countPair_snoc_ne fs.genes _ cid sid (fun hc => hgetD hc.2)

theorem fillPhase_count (ga : GeneticAlgorithm) (cid sid : ℕ) (fillable : List ℕ)
    (maxAtt fuel : ℕ) (genes0 : List Gene) (fsched : List (ℕ × List ℕ))
    (used queue : List ℕ) (sf : List (ℕ × ℕ)) (r : Rng)
    (hfil : ∀ x ∈ fillable, x ≠ sid) (hfb : fillable ≠ []) :
    countPair (fillLoop ga cid fillable maxAtt fuel
      ⟨genes0, fsched, used, queue, sf, 0, 0, r⟩).genes cid sid
      = countPair genes0 cid sid :=
  fillLoop_count ga cid fillable maxAtt sid hfil hfb fuel _

theorem scheduleClass_count (ga : GeneticAlgorithm) (st : BuildSt) (ci : ClassInfo)
    (sid : ℕ) (hlab : subjectTypeOf ga sid = "LAB")
    (hsubnd : (ga.subjects.map (fun s => s.id)).Nodup) :
    countPair (scheduleClass ga st ci).genes ci.id sid
        = countPair st.genes ci.id sid ∨
    countPair (scheduleClass ga st ci).genes ci.id sid
        = countPair st.genes ci.id sid + 3 := by
  have hcsnd : (class_subjects ga ci).Nodup := by
    simp only [class_subjects]
    exact ((List.filter_sublist _).map _).nodup hsubnd
  have hlabsnd : (((class_subjects ga ci).filter
      (fun s' => subjectTypeOf ga s' = "LAB")).take 2).Nodup :=
    ((List.take_sublist 2 _).trans (List.filter_sublist _)).nodup hcsnd
  have hthm : ∀ s' ∈ (class_subjects ga ci).filter
      (fun s0 => subjectTypeOf ga s0 = "THEORY"), subjectTypeOf ga s' = "THEORY" := by
    intro s' hs'
    have h3 := List.of_mem_filter hs'
    rwa [decide_eq_true_eq] at h3
  simp only [scheduleClass]
  split
  · rw [theoriesFold_count ga ci.id sid hlab _ _ hthm]
    exact labsFold_count ga ci.id sid _ _ hlabsnd
  · next hne =>
    have hfil : ∀ x ∈ (class_subjects ga ci).filter
        (fun s' => subjectTypeOf ga s' = "THEORY" ∨ subjectTypeOf ga s' = "ELECTIVE"),
        x ≠ sid := by
      intro x hx he
      have h3 := List.of_mem_filter hx
      rw [decide_eq_true_eq] at h3
      rw [he, hlab] at h3
      rcases h3 with h3 | h3
      · exact absurd h3 (by decide)
      · exact absurd h3 (by decide)
    rw [fillPhase_count ga ci.id sid _ _ _ _ _ _ _ _ _ hfil hne,
      theoriesFold_count ga ci.id sid hlab _ _ hthm]
    exact labsFold_count ga ci.id sid _ _ hlabsnd

theorem schedFold_count_none (ga : GeneticAlgorithm) (hnd : (slotIds ga).Nodup)
    (sid : ℕ) :
    ∀ (L : List ClassInfo) (st : BuildSt) (cid' : ℕ),
      cid' ∉ L.map (fun c => c.id) →
      countPair ((L.foldl (scheduleClass ga) st).genes) cid' sid
        = countPair st.genes cid' sid := by
  intro L
  induction L with
  | nil => intro st cid' _; rfl
  | cons c0 t ih =>
    intro st cid' hni
    simp only [List.map_cons, List.mem_cons] at hni
    push_neg at hni
    simp only [List.foldl_cons]
    rw [ih _ cid' hni.2]
    obtain ⟨new, hg, hcls, _, _⟩ := scheduleClass_spec ga hnd st c0
    rw [hg, countPair_append,
      countPair_all_class_ne new c0.id cid' sid hcls (fun he => hni.1 he.symm),
      Nat.add_zero]

theorem schedFold_count (ga : GeneticAlgorithm) (hnd : (slotIds ga).Nodup)
    (sid : ℕ) (hlab : subjectTypeOf ga sid = "LAB")
    (hsubnd : (ga.subjects.map (fun s => s.id)).Nodup) :
    ∀ (L : List ClassInfo) (st : BuildSt) (cid' : ℕ),
      (L.map (fun c => c.id)).Nodup →
      (countPair ((L.foldl (scheduleClass ga) st).genes) cid' sid
        = countPair st.genes cid' sid ∨
       countPair ((L.foldl (scheduleClass ga) st).genes) cid' sid
        = countPair st.genes cid' sid + 3) := by
  intro L
  induction L with
  | nil => intro st cid' _; exact Or.inl rfl
  | cons c0 t ih =>
    intro st cid' hLnd
    have htnd : (t.map (fun c => c.id)).Nodup := by
      have := hLnd
      simp only [List.map_cons, List.nodup_cons] at this
      exact this.2
    have hc0nin : c0.id ∉ t.map (fun c => c.id) := by
      have := hLnd
      simp only [List.map_cons, List.nodup_cons] at this
      exact this.1
    simp only [List.foldl_cons]
    by_cases hcc : cid' = c0.id
    · subst hcc
      rw [schedFold_count_none ga hnd sid t _ c0.id hc0nin]
      exact scheduleClass_count ga st c0 sid hlab hsubnd
    · rcases ih (scheduleClass ga st c0) cid' htnd with h1 | h1
      · left
        rw [h1]
        obtain ⟨new, hg, hcls, _, _⟩ := scheduleClass_spec ga hnd st c0
        rw [hg, countPair_append,
          countPair_all_class_ne new c0.id cid' sid hcls (fun he => hcc he.symm),
          Nat.add_zero]
      · right
        rw [h1]
        obtain ⟨new, hg, hcls, _, _⟩ := scheduleClass_spec ga hnd st c0
        rw [hg, countPair_append,
          countPair_all_class_ne new c0.id cid' sid hcls (fun he => hcc he.symm),
          Nat.add_zero]

/-- C4 (amended): the constructor schedules each lab subject of a class
as ONE block of three contiguous periods (or none when no candidate
block exists) — a (class, lab subject) pair gets 0 or 3 genes, never
the 3 × 2 = 6 the specification states. -/
theorem constructor_lab_pair_count (ga : GeneticAlgorithm) (r : Rng)
    (hnd : (slotIds ga).Nodup)
    (hcl : (ga.classes.map (fun c => c.id)).Nodup)
    (hsubnd : (ga.subjects.map (fun s => s.id)).Nodup)
    (ci : ClassInfo) (sid : ℕ) (hlab : subjectTypeOf ga sid = "LAB") :
    countPair (create_random_chromosome ga r).1.genes ci.id sid = 0 ∨
    countPair (create_random_chromosome ga r).1.genes ci.id sid = 3 := by
  have h1 : (((randomShuffle ga.classes r).1).map (fun c => c.id)).Nodup :=
    (((randomShuffle_perm ga.classes r).map (fun c => c.id)).nodup_iff).2 hcl
  have h2 := schedFold_count ga hnd sid hlab hsubnd (randomShuffle ga.classes r).1
    ⟨[], [], [], [], (randomShuffle ga.classes r).2⟩ ci.id h1
  simp only [create_random_chromosome]
  exact h2

/-- C4 counterexample: a configuration with one class and one lab
subject where the whole grid is free; the pair (class 1, subject 20) is
scheduled and receives exactly 3 genes — not the 6 claimed. -/
theorem constructor_lab_pair_count_cex :
    20 ∈ ((class_subjects demoLabGA ⟨1, 1⟩).filter
      (fun s => subjectTypeOf demoLabGA s = "LAB")).take 2 ∧
    countPair (create_random_chromosome demoLabGA []).1.genes 1 20 = 3 ∧
    countPair (create_random_chromosome demoLabGA []).1.genes 1 20 ≠ 6 :=
  ⟨by decide, by decide, by decide⟩

theorem constructor_lab_pair_count_witness :
    ((slotIds demoLabGA).Nodup ∧
      (demoLabGA.classes.map (fun c => c.id)).Nodup ∧
      (demoLabGA.subjects.map (fun s => s.id)).Nodup ∧
      subjectTypeOf demoLabGA 20 = "LAB") ∧
    (countPair (create_random_chromosome demoLabGA []).1.genes 1 20 = 0 ∨
      countPair (create_random_chromosome demoLabGA []).1.genes 1 20 = 3) :=
  ⟨⟨by decide, by decide, by decide, by decide⟩,
   constructor_lab_pair_count demoLabGA [] (by decide) (by decide) (by decide)
     ⟨1, 1⟩ 20 (by decide)⟩

/-! ## Half-day structure lemmas (claim C3) -/

theorem HalfUnion_nil (ga : GeneticAlgorithm) : HalfUnion ga [] := by
  intro t _ ht
  exact absurd ht (List.not_mem_nil _)

theorem HalfUnion_append (ga : GeneticAlgorithm) (A B : List ℕ)
    (hA : HalfUnion ga A) (hB : HalfUnion ga B) : HalfUnion ga (A ++ B) := by
  intro t htm htu
  rcases List.mem_append.1 htu with h | h
  · obtain ⟨h1, h2⟩ := hA t htm h
    exact ⟨h1, fun t' ht'm hday hh => List.mem_append.2 (Or.inl (h2 t' ht'm hday hh))⟩
  · obtain ⟨h1, h2⟩ := hB t htm h
    exact ⟨h1, fun t' ht'm hday hh => List.mem_append.2 (Or.inr (h2 t' ht'm hday hh))⟩

theorem HalfUnion_congr (ga : GeneticAlgorithm) (A B : List ℕ)
    (hmem : ∀ s : ℕ, s ∈ A ↔ s ∈ B) (hA : HalfUnion ga A) : HalfUnion ga B := by
  intro t htm htu
  obtain ⟨h1, h2⟩ := hA t htm ((hmem t.id).2 htu)
  exact ⟨h1, fun t' ht'm hday hh => (hmem t'.id).1 (h2 t' ht'm hday hh)⟩

theorem FullHalf_halfUnion (ga : GeneticAlgorithm) (T : List ℕ)
    (h : FullHalf ga T) : HalfUnion ga T := by
  obtain ⟨day, h | h⟩ := h
  · intro t htm htu
    obtain ⟨hd, hp⟩ := (h t htm).1 htu
    refine ⟨Or.inl hp, ?_⟩
    intro t' ht'm hday hh
    rcases hh with ⟨hp1, _⟩ | ⟨_, hp2⟩
    · exact (h t' ht'm).2 ⟨hday.trans hd, hp1⟩
    · omega
  · intro t htm htu
    obtain ⟨hd, hp⟩ := (h t htm).1 htu
    refine ⟨Or.inr hp, ?_⟩
    intro t' ht'm hday hh
    rcases hh with ⟨_, hp1⟩ | ⟨hp2, _⟩
    · omega
    · exact (h t' ht'm).2 ⟨hday.trans hd, hp2⟩

theorem FullHalf_timing (ga : GeneticAlgorithm) (T : List ℕ)
    (h : FullHalf ga T) : check_lab_timing ga T = true := by
  obtain ⟨day, h | h⟩ := h
  · simp only [check_lab_timing, Bool.or_eq_true]
    left
    rw [List.all_eq_true]
    intro t htm
    have h1 := List.mem_of_mem_filter htm
    have h2 := List.of_mem_filter htm
    rw [decide_eq_true_eq] at h2
    rw [decide_eq_true_eq]
    exact ((h t h1).1 h2).2
  · simp only [check_lab_timing, Bool.or_eq_true]
    right
    rw [List.all_eq_true]
    intro t htm
    have h1 := List.mem_of_mem_filter htm
    have h2 := List.of_mem_filter htm
    rw [decide_eq_true_eq] at h2
    rw [decide_eq_true_eq]
    exact ((h t h1).1 h2).2

theorem slot_id_inj (ga : GeneticAlgorithm) (hnd : (slotIds ga).Nodup) :
    ∀ t ∈ ga.time_slots, ∀ t' ∈ ga.time_slots, t.id = t'.id → t = t' := by
  intro t ht t' ht' he
  exact List.inj_on_of_nodup_map hnd ht ht' he

theorem aget_mem {κ α : Type} [DecidableEq κ] :
    ∀ (m : List (κ × α)) (k : κ) (v : α), aget m k = some v → (k, v) ∈ m := by
  intro m
  induction m with
  | nil =>
    intro k v h
    simp [aget] at h
  | cons p t ih =>
    intro k v h
    obtain ⟨k0, v0⟩ := p
    by_cases hk : k = k0
    · subst hk
      have hv : v0 = v := by
        simpa [aget] using h
      exact List.mem_cons.2 (Or.inl (by rw [hv]))
    · simp only [aget, if_neg hk] at h
      exact List.mem_cons_of_mem _ (ih k v h)

theorem dayCandidates_half_aux (ga : GeneticAlgorithm) (hnd : (slotIds ga).Nodup)
    (hgrid : GridOK ga) (used : List ℕ) (hused : HalfUnion ga used)
    (d : String) (DA : List SlotInfo)
    (hDA : ∀ t : SlotInfo, t ∈ DA ↔ (t ∈ ga.time_slots ∧ t.day = d ∧ t.id ∉ used))
    (hDAsub : DA.Sublist (ga.time_slots.filter (fun t2 => t2.day = d)))
    (c : String × Bool × List ℕ) (hc : c ∈ dayCandidates d DA) :
    FullHalf ga c.2.2 := by
  have hsort : (stableSort (fun a b => decide (a.period ≤ b.period)) DA).Perm DA :=
    stableSort_perm _ _
  have hdsmem : ∀ t ∈ stableSort (fun a b => decide (a.period ≤ b.period)) DA,
      t ∈ DA := fun t ht => hsort.subset ht
  have hdsmem2 : ∀ t ∈ DA,
      t ∈ stableSort (fun a b => decide (a.period ≤ b.period)) DA :=
    fun t ht => hsort.mem_iff.2 ht
  have hdayfull : ∀ t ∈ DA, t ∈ ga.time_slots.filter (fun t2 => t2.day = d) := by
    intro t ht
    have h0 := (hDA t).1 ht
    refine List.mem_filter.2 ⟨h0.1, ?_⟩
    rw [decide_eq_true_eq]
    exact h0.2.1
  -- grid facts for day d, usable once some slot of day d is known
  have hgridd : ∀ t1 ∈ DA,
      (((ga.time_slots.filter (fun t2 => t2.day = d)).map (fun t2 => t2.period)).Perm
        [1, 2, 3, 4, 5, 6, 7]) := by
    intro t1 ht1
    have h0 := (hDA t1).1 ht1
    have hg := hgrid t1 h0.1
    rw [h0.2.1] at hg
    exact hg
  have hDApernd0 : ∀ t1 ∈ DA, ((DA.map (fun t2 => t2.period)).Nodup) := by
    intro t1 ht1
    have hpnd : ((ga.time_slots.filter (fun t2 => t2.day = d)).map
        (fun t2 => t2.period)).Nodup := ((hgridd t1 ht1).nodup_iff).2 (by decide)
    exact (hDAsub.map _).nodup hpnd
  -- the two halves, entirely symmetric
  simp only [dayCandidates] at hc
  rcases List.mem_append.1 hc with hc1 | hc1
  · -- morning candidate
    split at hc1
    · next hcond =>
      obtain ⟨hlen3ge, h1m, h2m, h3m⟩ := hcond
      rw [List.mem_singleton] at hc1
      rcases List.mem_map.1 h1m with ⟨t1, ht1mor, hper1⟩
      have ht1 := List.mem_of_mem_filter ht1mor
      have ht1DA := hdsmem t1 ht1
      have h0 := (hDA t1).1 ht1DA
      have hgd := hgridd t1 ht1DA
      have hrange : ∀ t ∈ ga.time_slots.filter (fun t2 => t2.day = d),
          t.period ∈ ([1, 2, 3, 4, 5, 6, 7] : List ℤ) :=
        fun t ht => hgd.subset (List.mem_map_of_mem _ ht)
      have hmorn_mem : ∀ t ∈ (stableSort (fun a b => decide (a.period ≤ b.period))
          DA).filter (fun s => decide (s.period ≤ 3)), t ∈ DA ∧ t.period ≤ 3 := by
        intro t ht
        refine ⟨hdsmem t (List.mem_of_mem_filter ht), ?_⟩
        have h2 := List.of_mem_filter ht
        rwa [decide_eq_true_eq] at h2
      have hunused_all : ∀ t ∈ ga.time_slots, t.day = d → t.period ≤ 3 →
          t.id ∉ used := by
        intro t htm hday hple htu
        obtain ⟨-, hclo⟩ := hused t htm htu
        have h5 := hclo t1 h0.1 (h0.2.1.trans hday.symm)
          (Or.inl ⟨by rw [hper1]; norm_num, hple⟩)
        exact h0.2.2 h5
      have hmorning_all : ∀ t ∈ ga.time_slots, t.day = d → t.period ≤ 3 →
          t ∈ (stableSort (fun a b => decide (a.period ≤ b.period)) DA).filter
            (fun s => decide (s.period ≤ 3)) := by
        intro t htm hday hple
        have htDA : t ∈ DA := (hDA t).2 ⟨htm, hday, hunused_all t htm hday hple⟩
        refine List.mem_filter.2 ⟨hdsmem2 t htDA, ?_⟩
        rw [decide_eq_true_eq]
        exact hple
      -- the morning list has exactly three slots
      have hmpernd : (((stableSort (fun a b => decide (a.period ≤ b.period)) DA).filter
          (fun s => decide (s.period ≤ 3))).map (fun t2 => t2.period)).Nodup := by
        have h6 : ((stableSort (fun a b => decide (a.period ≤ b.period)) DA).map
            (fun t2 => t2.period)).Nodup :=
          ((hsort.map _).nodup_iff).2 (hDApernd0 t1 ht1DA)
        exact ((List.filter_sublist _).map _).nodup h6
      have hm3 : ∀ t ∈ (stableSort (fun a b => decide (a.period ≤ b.period)) DA).filter
          (fun s => decide (s.period ≤ 3)), t.period ∈ ([1, 2, 3] : List ℤ) := by
        intro t ht
        obtain ⟨htDA, hple⟩ := hmorn_mem t ht
        have hr := hrange t (hdayfull t htDA)
        simp only [List.mem_cons, List.not_mem_nil, or_false] at hr ⊢
        omega
      have hlen3 : ((stableSort (fun a b => decide (a.period ≤ b.period)) DA).filter
          (fun s => decide (s.period ≤ 3))).length = 3 := by
        refine le_antisymm ?_ hlen3ge
        have hsp : (((stableSort (fun a b => decide (a.period ≤ b.period)) DA).filter
            (fun s => decide (s.period ≤ 3))).map (fun t2 => t2.period)).Subperm
            ([1, 2, 3] : List ℤ) := by
          refine hmpernd.subperm ?_
          intro p hp
          rcases List.mem_map.1 hp with ⟨t, ht, he⟩
          rw [← he]
          exact hm3 t ht
        have h7 := hsp.length_le
        rwa [List.length_map] at h7
      have hTake : (((((stableSort (fun a b => decide (a.period ≤ b.period)) DA).filter
          (fun s => decide (s.period ≤ 3))).filter (fun s => decide (s.period ≤ 3))).map
          (fun s => s.id)).take 3)
          = ((stableSort (fun a b => decide (a.period ≤ b.period)) DA).filter
            (fun s => decide (s.period ≤ 3))).map (fun s => s.id) := by
        rw [filter_idem]
        exact List.take_of_length_le (by rw [List.length_map, hlen3])
      have hc22 : c.2.2 = ((stableSort (fun a b => decide (a.period ≤ b.period)) DA).filter
          (fun s => decide (s.period ≤ 3))).map (fun s => s.id) := by
        rw [hc1]
        exact hTake
      rw [hc22]
      refine ⟨d, Or.inl ?_⟩
      intro t htm
      constructor
      · intro hid
        rcases List.mem_map.1 hid with ⟨t0, ht0, he⟩
        obtain ⟨ht0DA, hple0⟩ := hmorn_mem t0 ht0
        have h8 := (hDA t0).1 ht0DA
        have h9 := slot_id_inj ga hnd t htm t0 h8.1 he.symm
        rw [h9]
        exact ⟨h8.2.1, hple0⟩
      · rintro ⟨hday, hple⟩
        exact List.mem_map_of_mem _ (hmorning_all t htm hday hple)
    · next =>
      exact absurd hc1 (List.not_mem_nil c)
  · -- afternoon candidate
    split at hc1
    · next hcond =>
      obtain ⟨hlen3ge, h5m, h6m, h7m⟩ := hcond
      rw [List.mem_singleton] at hc1
      rcases List.mem_map.1 h5m with ⟨t1, ht1mor, hper5⟩
      have ht1 := List.mem_of_mem_filter ht1mor
      have ht1DA := hdsmem t1 ht1
      have h0 := (hDA t1).1 ht1DA
      have hgd := hgridd t1 ht1DA
      have hrange : ∀ t ∈ ga.time_slots.filter (fun t2 => t2.day = d),
          t.period ∈ ([1, 2, 3, 4, 5, 6, 7] : List ℤ) :=
        fun t ht => hgd.subset (List.mem_map_of_mem _ ht)
      have hmorn_mem : ∀ t ∈ (stableSort (fun a b => decide (a.period ≤ b.period))
          DA).filter (fun s => decide (5 ≤ s.period)), t ∈ DA ∧ 5 ≤ t.period := by
        intro t ht
        refine ⟨hdsmem t (List.mem_of_mem_filter ht), ?_⟩
        have h2 := List.of_mem_filter ht
        rwa [decide_eq_true_eq] at h2
      have hunused_all : ∀ t ∈ ga.time_slots, t.day = d → 5 ≤ t.period →
          t.id ∉ used := by
        intro t htm hday hple htu
        obtain ⟨-, hclo⟩ := hused t htm htu
        have h5 := hclo t1 h0.1 (h0.2.1.trans hday.symm)
          (Or.inr ⟨by rw [hper5], hple⟩)
        exact h0.2.2 h5
      have hmorning_all : ∀ t ∈ ga.time_slots, t.day = d → 5 ≤ t.period →
          t ∈ (stableSort (fun a b => decide (a.period ≤ b.period)) DA).filter
            (fun s => decide (5 ≤ s.period)) := by
        intro t htm hday hple
        have htDA : t ∈ DA := (hDA t).2 ⟨htm, hday, hunused_all t htm hday hple⟩
        refine List.mem_filter.2 ⟨hdsmem2 t htDA, ?_⟩
        rw [decide_eq_true_eq]
        exact hple
      have hmpernd : (((stableSort (fun a b => decide (a.period ≤ b.period)) DA).filter
          (fun s => decide (5 ≤ s.period))).map (fun t2 => t2.period)).Nodup := by
        have h6 : ((stableSort (fun a b => decide (a.period ≤ b.period)) DA).map
            (fun t2 => t2.period)).Nodup :=
          ((hsort.map _).nodup_iff).2 (hDApernd0 t1 ht1DA)
        exact ((List.filter_sublist _).map _).nodup h6
      have hm3 : ∀ t ∈ (stableSort (fun a b => decide (a.period ≤ b.period)) DA).filter
          (fun s => decide (5 ≤ s.period)), t.period ∈ ([5, 6, 7] : List ℤ) := by
        intro t ht
        obtain ⟨htDA, hple⟩ := hmorn_mem t ht
        have hr := hrange t (hdayfull t htDA)
        simp only [List.mem_cons, List.not_mem_nil, or_false] at hr ⊢
        omega
      have hlen3 : ((stableSort (fun a b => decide (a.period ≤ b.period)) DA).filter
          (fun s => decide (5 ≤ s.period))).length = 3 := by
        refine le_antisymm ?_ hlen3ge
        have hsp : (((stableSort (fun a b => decide (a.period ≤ b.period)) DA).filter
            (fun s => decide (5 ≤ s.period))).map (fun t2 => t2.period)).Subperm
            ([5, 6, 7] : List ℤ) := by
          refine hmpernd.subperm ?_
          intro p hp
          rcases List.mem_map.1 hp with ⟨t, ht, he⟩
          rw [← he]
          exact hm3 t ht
        have h7 := hsp.length_le
        rwa [List.length_map] at h7
      have hTake : (((((stableSort (fun a b => decide (a.period ≤ b.period)) DA).filter
          (fun s => decide (5 ≤ s.period))).filter (fun s => decide (5 ≤ s.period))).map
          (fun s => s.id)).take 3)
          = ((stableSort (fun a b => decide (a.period ≤ b.period)) DA).filter
            (fun s => decide (5 ≤ s.period))).map (fun s => s.id) := by
        rw [filter_idem]
        exact List.take_of_length_le (by rw [List.length_map, hlen3])
      have hc22 : c.2.2 = ((stableSort (fun a b => decide (a.period ≤ b.period)) DA).filter
          (fun s => decide (5 ≤ s.period))).map (fun s => s.id) := by
        rw [hc1]
        exact hTake
      rw [hc22]
      refine ⟨d, Or.inr ?_⟩
      intro t htm
      constructor
      · intro hid
        rcases List.mem_map.1 hid with ⟨t0, ht0, he⟩
        obtain ⟨ht0DA, hple0⟩ := hmorn_mem t0 ht0
        have h8 := (hDA t0).1 ht0DA
        have h9 := slot_id_inj ga hnd t htm t0 h8.1 he.symm
        rw [h9]
        exact ⟨h8.2.1, hple0⟩
      · rintro ⟨hday, hple⟩
        exact List.mem_map_of_mem _ (hmorning_all t htm hday hple)
    · next =>
      exact absurd hc1 (List.not_mem_nil c)

theorem dayAvail_iff (ga : GeneticAlgorithm) (used : List ℕ) (d : String)
    (t : SlotInfo) :
    t ∈ (ga.time_slots.filter (fun s => s.id ∈ slotIds ga ∧ s.id ∉ used)).filter
        (fun s => s.day = d)
      ↔ (t ∈ ga.time_slots ∧ t.day = d ∧ t.id ∉ used) := by
  constructor
  · intro h
    have h1 := List.mem_of_mem_filter h
    have hd := List.of_mem_filter h
    rw [decide_eq_true_eq] at hd
    have h2 := List.mem_of_mem_filter h1
    have h3 := List.of_mem_filter h1
    rw [decide_eq_true_eq] at h3
    exact ⟨h2, hd, h3.2⟩
  · rintro ⟨h1, h2, h3⟩
    refine List.mem_filter.2 ⟨List.mem_filter.2 ⟨h1, ?_⟩, ?_⟩
    · rw [decide_eq_true_eq]
      exact ⟨List.mem_map_of_mem _ h1, h3⟩
    · rw [decide_eq_true_eq]
      exact h2

theorem dayAvail_sublist (ga : GeneticAlgorithm) (used : List ℕ) (d : String) :
    ((ga.time_slots.filter (fun s => s.id ∈ slotIds ga ∧ s.id ∉ used)).filter
      (fun s => s.day = d)).Sublist (ga.time_slots.filter (fun t2 => t2.day = d)) :=
  (List.filter_sublist _).filter _

theorem fallbackScan_nil (sbd : List (String × List SlotInfo))
    (h : ∀ day : String, ((aget sbd day).getD []).length < 3) :
    ∀ days : List String, fallbackScan sbd days = [] := by
  intro days
  induction days with
  | nil => rfl
  | cons day rest ih =>
    simp only [fallbackScan]
    rw [if_neg (Nat.not_le.2 (h day))]
    exact ih

theorem candidates_empty_short (ga : GeneticAlgorithm) (_hnd : (slotIds ga).Nodup)
    (hgrid : GridOK ga) (used : List ℕ) (hused : HalfUnion ga used)
    (hcand : (slotsByDay ga (slotIds ga) used).foldl
      (fun acc p => acc ++ dayCandidates p.1 p.2) [] = [])
    (d : String) :
    ((aget (slotsByDay ga (slotIds ga) used) d).getD []).length < 3 := by
  rw [slotsByDay_getD]
  by_contra hge
  push_neg at hge
  have hiff := dayAvail_iff ga used d
  have hsubl := dayAvail_sublist ga used d
  have hDAne : (ga.time_slots.filter (fun s => s.id ∈ slotIds ga ∧ s.id ∉ used)).filter
      (fun s => s.day = d) ≠ [] := by
    intro h0
    rw [h0] at hge
    simp at hge
  obtain ⟨t0, ht0⟩ := List.exists_mem_of_ne_nil _ hDAne
  have ht0p := (hiff t0).1 ht0
  have hgd : ((ga.time_slots.filter (fun t2 => t2.day = d)).map
      (fun t2 => t2.period)).Perm [1, 2, 3, 4, 5, 6, 7] := by
    have hg := hgrid t0 ht0p.1
    rw [ht0p.2.1] at hg
    exact hg
  have hpnd : ((ga.time_slots.filter (fun t2 => t2.day = d)).map
      (fun t2 => t2.period)).Nodup := (hgd.nodup_iff).2 (by decide)
  have hDAnd : (((ga.time_slots.filter (fun s => s.id ∈ slotIds ga ∧ s.id ∉ used)).filter
      (fun s => s.day = d)).map (fun t2 => t2.period)).Nodup := (hsubl.map _).nodup hpnd
  have hne4 : ∃ t ∈ (ga.time_slots.filter
      (fun s => s.id ∈ slotIds ga ∧ s.id ∉ used)).filter (fun s => s.day = d),
      t.period ≠ 4 := by
    by_contra hall
    push_neg at hall
    have hsp : ((((ga.time_slots.filter (fun s => s.id ∈ slotIds ga ∧ s.id ∉ used)).filter
        (fun s => s.day = d)).map (fun t2 => t2.period))).Subperm ([4] : List ℤ) := by
      refine hDAnd.subperm ?_
      intro p hp
      rcases List.mem_map.1 hp with ⟨t, ht, he⟩
      rw [← he, hall t ht]
      exact List.mem_singleton.2 rfl
    have h2 := hsp.length_le
    rw [List.length_map] at h2
    simp only [List.length_cons, List.length_nil] at h2
    omega
  obtain ⟨t4, ht4DA, ht4ne⟩ := hne4
  have ht4p := (hiff t4).1 ht4DA
  have ht4r : t4.period ∈ ([1, 2, 3, 4, 5, 6, 7] : List ℤ) := by
    refine hgd.subset (List.mem_map_of_mem _ ?_)
    refine List.mem_filter.2 ⟨ht4p.1, ?_⟩
    rw [decide_eq_true_eq]
    exact ht4p.2.1
  have hhalf : t4.period ≤ 3 ∨ 5 ≤ t4.period := by
    simp only [List.mem_cons, List.not_mem_nil, or_false] at ht4r
    omega
  have hkey : ∃ v, aget (slotsByDay ga (slotIds ga) used) d = some v := by
    cases hag : aget (slotsByDay ga (slotIds ga) used) d with
    | none =>
      exfalso
      have h3 := slotsByDay_getD ga (slotIds ga) used d
      rw [hag] at h3
      simp only [Option.getD_none] at h3
      exact hDAne h3.symm
    | some v => exact ⟨v, rfl⟩
  obtain ⟨v, hv⟩ := hkey
  have hveq : v = (ga.time_slots.filter
      (fun s => s.id ∈ slotIds ga ∧ s.id ∉ used)).filter (fun s => s.day = d) := by
    have h3 := slotsByDay_getD ga (slotIds ga) used d
    rw [hv] at h3
    simpa using h3
  have hmemsbd : (d, v) ∈ slotsByDay ga (slotIds ga) used := aget_mem _ d v hv
  have hsubcand : ∀ c : String × Bool × List ℕ, c ∈ dayCandidates d v → False := by
    intro c hcdl
    have h4 : c ∈ (slotsByDay ga (slotIds ga) used).foldl
        (fun acc p => acc ++ dayCandidates p.1 p.2) [] := by
      rw [foldl_append_flatten (fun (p : String × List SlotInfo) =>
        dayCandidates p.1 p.2) (slotsByDay ga (slotIds ga) used)]
      exact List.mem_flatten.2
        ⟨dayCandidates d v, List.mem_map_of_mem _ hmemsbd, hcdl⟩
    rw [hcand] at h4
    exact absurd h4 (List.not_mem_nil c)
  have hsort : (stableSort (fun a b => decide (a.period ≤ b.period)) v).Perm v :=
    stableSort_perm _ _
  rcases hhalf with hm | ha
  · -- a morning slot is available, so the whole morning is: candidate exists
    have hunused_all : ∀ t ∈ ga.time_slots, t.day = d → t.period ≤ 3 →
        t.id ∉ used := by
      intro t htm hday hple htu
      obtain ⟨-, hclo⟩ := hused t htm htu
      exact ht4p.2.2 (hclo t4 ht4p.1 (ht4p.2.1.trans hday.symm) (Or.inl ⟨hm, hple⟩))
    have hexm : ∀ p : ℤ, p ∈ ([1, 2, 3] : List ℤ) →
        ∃ u ∈ (stableSort (fun a b => decide (a.period ≤ b.period)) v).filter
          (fun s => decide (s.period ≤ 3)), u.period = p := by
      intro p hp
      have hple3 : p ≤ 3 := by
        simp only [List.mem_cons, List.not_mem_nil, or_false] at hp
        omega
      have hp7 : p ∈ ([1, 2, 3, 4, 5, 6, 7] : List ℤ) := by
        rcases (by simpa using hp : p = 1 ∨ p = 2 ∨ p = 3) with h | h | h <;>
          rw [h] <;> decide
      have h5 := hgd.symm.subset hp7
      rcases List.mem_map.1 h5 with ⟨t, htm0, hte⟩
      have htm1 := List.mem_of_mem_filter htm0
      have hday0 := List.of_mem_filter htm0
      rw [decide_eq_true_eq] at hday0
      have hte' : t.period = p := hte
      have hple : t.period ≤ 3 := by rw [hte']; exact hple3
      refine ⟨t, ?_, hte'⟩
      refine List.mem_filter.2 ⟨?_, by rw [decide_eq_true_eq]; exact hple⟩
      refine hsort.mem_iff.2 ?_
      rw [hveq]
      exact (hiff t).2 ⟨htm1, hday0, hunused_all t htm1 hday0 hple⟩
    obtain ⟨u1, hm1, hp1⟩ := hexm 1 (by decide)
    obtain ⟨u2, hm2, hp2⟩ := hexm 2 (by decide)
    obtain ⟨u3, hm3, hp3⟩ := hexm 3 (by decide)
    have hnd3 : ([u1, u2, u3] : List SlotInfo).Nodup := by
      refine List.nodup_cons.2 ⟨?_, List.nodup_cons.2 ⟨?_, List.nodup_singleton _⟩⟩
      · intro hmem
        rcases List.mem_cons.1 hmem with h | h
        · rw [h] at hp1
          omega
        · rw [List.mem_singleton.1 h] at hp1
          omega
      · intro hmem
        rw [List.mem_singleton.1 hmem] at hp2
        omega
    have hsub3 : ([u1, u2, u3] : List SlotInfo) ⊆
        (stableSort (fun a b => decide (a.period ≤ b.period)) v).filter
          (fun s => decide (s.period ≤ 3)) := by
      intro x hx
      rcases List.mem_cons.1 hx with h | h
      · rw [h]; exact hm1
      · rcases List.mem_cons.1 h with h | h
        · rw [h]; exact hm2
        · rw [List.mem_singleton.1 h]; exact hm3
    have hlen : 3 ≤ ((stableSort (fun a b => decide (a.period ≤ b.period)) v).filter
        (fun s => decide (s.period ≤ 3))).length := by
      have h6 := (hnd3.subperm hsub3).length_le
      simpa using h6
    have hmp1 : (1 : ℤ) ∈ ((stableSort (fun a b => decide (a.period ≤ b.period)) v).filter
        (fun s => decide (s.period ≤ 3))).map (fun s => s.period) :=
      List.mem_map.2 ⟨u1, hm1, hp1⟩
    have hmp2 : (2 : ℤ) ∈ ((stableSort (fun a b => decide (a.period ≤ b.period)) v).filter
        (fun s => decide (s.period ≤ 3))).map (fun s => s.period) :=
      List.mem_map.2 ⟨u2, hm2, hp2⟩
    have hmp3 : (3 : ℤ) ∈ ((stableSort (fun a b => decide (a.period ≤ b.period)) v).filter
        (fun s => decide (s.period ≤ 3))).map (fun s => s.period) :=
      List.mem_map.2 ⟨u3, hm3, hp3⟩
    have hempty : dayCandidates d v = [] :=
      List.eq_nil_iff_forall_not_mem.2 (fun c hc => hsubcand c hc)
    simp only [dayCandidates] at hempty
    rw [if_pos ⟨hlen, hmp1, hmp2, hmp3⟩] at hempty
    simp at hempty
  · -- an afternoon slot is available: symmetric
    have hunused_all : ∀ t ∈ ga.time_slots, t.day = d → 5 ≤ t.period →
        t.id ∉ used := by
      intro t htm hday hple htu
      obtain ⟨-, hclo⟩ := hused t htm htu
      exact ht4p.2.2 (hclo t4 ht4p.1 (ht4p.2.1.trans hday.symm) (Or.inr ⟨ha, hple⟩))
    have hexm : ∀ p : ℤ, p ∈ ([5, 6, 7] : List ℤ) →
        ∃ u ∈ (stableSort (fun a b => decide (a.period ≤ b.period)) v).filter
          (fun s => decide (5 ≤ s.period)), u.period = p := by
      intro p hp
      have hple3 : 5 ≤ p := by
        simp only [List.mem_cons, List.not_mem_nil, or_false] at hp
        omega
      have hp7 : p ∈ ([1, 2, 3, 4, 5, 6, 7] : List ℤ) := by
        rcases (by simpa using hp : p = 5 ∨ p = 6 ∨ p = 7) with h | h | h <;>
          rw [h] <;> decide
      have h5 := hgd.symm.subset hp7
      rcases List.mem_map.1 h5 with ⟨t, htm0, hte⟩
      have htm1 := List.mem_of_mem_filter htm0
      have hday0 := List.of_mem_filter htm0
      rw [decide_eq_true_eq] at hday0
      have hte' : t.period = p := hte
      have hple : 5 ≤ t.period := by rw [hte']; exact hple3
      refine ⟨t, ?_, hte'⟩
      refine List.mem_filter.2 ⟨?_, by rw [decide_eq_true_eq]; exact hple⟩
      refine hsort.mem_iff.2 ?_
      rw [hveq]
      exact (hiff t).2 ⟨htm1, hday0, hunused_all t htm1 hday0 hple⟩
    obtain ⟨u1, hm1, hp1⟩ := hexm 5 (by decide)
    obtain ⟨u2, hm2, hp2⟩ := hexm 6 (by decide)
    obtain ⟨u3, hm3, hp3⟩ := hexm 7 (by decide)
    have hnd3 : ([u1, u2, u3] : List SlotInfo).Nodup := by
      refine List.nodup_cons.2 ⟨?_, List.nodup_cons.2 ⟨?_, List.nodup_singleton _⟩⟩
      · intro hmem
        rcases List.mem_cons.1 hmem with h | h
        · rw [h] at hp1
          omega
        · rw [List.mem_singleton.1 h] at hp1
          omega
      · intro hmem
        rw [List.mem_singleton.1 hmem] at hp2
        omega
    have hsub3 : ([u1, u2, u3] : List SlotInfo) ⊆
        (stableSort (fun a b => decide (a.period ≤ b.period)) v).filter
          (fun s => decide (5 ≤ s.period)) := by
      intro x hx
      rcases List.mem_cons.1 hx with h | h
      · rw [h]; exact hm1
      · rcases List.mem_cons.1 h with h | h
        · rw [h]; exact hm2
        · rw [List.mem_singleton.1 h]; exact hm3
    have hlen : 3 ≤ ((stableSort (fun a b => decide (a.period ≤ b.period)) v).filter
        (fun s => decide (5 ≤ s.period))).length := by
      have h6 := (hnd3.subperm hsub3).length_le
      simpa using h6
    have hmp1 : (5 : ℤ) ∈ ((stableSort (fun a b => decide (a.period ≤ b.period)) v).filter
        (fun s => decide (5 ≤ s.period))).map (fun s => s.period) :=
      List.mem_map.2 ⟨u1, hm1, hp1⟩
    have hmp2 : (6 : ℤ) ∈ ((stableSort (fun a b => decide (a.period ≤ b.period)) v).filter
        (fun s => decide (5 ≤ s.period))).map (fun s => s.period) :=
      List.mem_map.2 ⟨u2, hm2, hp2⟩
    have hmp3 : (7 : ℤ) ∈ ((stableSort (fun a b => decide (a.period ≤ b.period)) v).filter
        (fun s => decide (5 ≤ s.period))).map (fun s => s.period) :=
      List.mem_map.2 ⟨u3, hm3, hp3⟩
    have hempty : dayCandidates d v = [] :=
      List.eq_nil_iff_forall_not_mem.2 (fun c hc => hsubcand c hc)
    simp only [dayCandidates] at hempty
    rw [List.append_eq_nil] at hempty
    have h9 := hempty.2
    rw [if_pos ⟨hlen, hmp1, hmp2, hmp3⟩] at h9
    simp at h9

theorem find_lab_slots_half (ga : GeneticAlgorithm) (hnd : (slotIds ga).Nodup)
    (hgrid : GridOK ga) (used : List ℕ) (hused : HalfUnion ga used)
    (ex : List String) (du : List ((String × Bool) × ℕ)) (r : Rng) :
    (find_lab_slots ga (slotIds ga) used ex du r).1 = [] ∨
    FullHalf ga (find_lab_slots ga (slotIds ga) used ex du r).1 := by
  have hcands : ∀ c ∈ (slotsByDay ga (slotIds ga) used).foldl
      (fun acc p => acc ++ dayCandidates p.1 p.2) [], FullHalf ga c.2.2 := by
    intro c hc
    rw [foldl_append_flatten (fun (p : String × List SlotInfo) =>
      dayCandidates p.1 p.2) (slotsByDay ga (slotIds ga) used)] at hc
    rcases List.mem_flatten.1 hc with ⟨dl, hdlm, hcdl⟩
    rcases List.mem_map.1 hdlm with ⟨p, hp, hpe⟩
    have hpval := slotsByDay_mem ga (slotIds ga) used p hp
    rw [← hpe] at hcdl
    refine dayCandidates_half_aux ga hnd hgrid used hused p.1 p.2 ?_ ?_ c hcdl
    · intro t
      rw [hpval]
      exact dayAvail_iff ga used p.1 t
    · rw [hpval]
      exact dayAvail_sublist ga used p.1
  simp only [find_lab_slots]
  split
  · next hcand =>
    left
    exact fallbackScan_nil _
      (fun day => candidates_empty_short ga hnd hgrid used hused hcand day) _
  · next hne =>
    right
    split
    · next hpref =>
      obtain ⟨c, hcm, hce⟩ := sortPick_mem du _ r hpref
      rw [hce]
      exact hcands c (List.mem_of_mem_filter hcm)
    · next hpref =>
      have hfbne : ((slotsByDay ga (slotIds ga) used).foldl
          (fun acc p => acc ++ dayCandidates p.1 p.2) []).filter
          (fun c => c.1 ∈ ex) ≠ [] := by
        intro h0
        rcases List.exists_mem_of_ne_nil _ hne with ⟨x, hx⟩
        by_cases hxe : x.1 ∈ ex
        · have h5 : x ∈ ((slotsByDay ga (slotIds ga) used).foldl
              (fun acc p => acc ++ dayCandidates p.1 p.2) []).filter
              (fun c => c.1 ∈ ex) := List.mem_filter.2 ⟨hx, by simpa using hxe⟩
          rw [h0] at h5
          exact absurd h5 (List.not_mem_nil x)
        · have h5 : x ∈ ((slotsByDay ga (slotIds ga) used).foldl
              (fun acc p => acc ++ dayCandidates p.1 p.2) []).filter
              (fun c => c.1 ∉ ex) := List.mem_filter.2 ⟨hx, by simpa using hxe⟩
          have h1 : ((slotsByDay ga (slotIds ga) used).foldl
              (fun acc p => acc ++ dayCandidates p.1 p.2) []).filter
              (fun c => c.1 ∉ ex) = [] := by
            by_contra h2
            exact hpref h2
          rw [h1] at h5
          exact absurd h5 (List.not_mem_nil x)
      obtain ⟨c, hcm, hce⟩ := sortPick_mem du _ r hfbne
      rw [hce]
      exact hcands c (List.mem_of_mem_filter hcm)

theorem labFold_room (cid lab_id main : ℕ) (asst : Option ℕ) :
    ∀ (ls : List ℕ) (p : BuildSt × ClassSt) (k : ℕ),
      (aget ((ls.foldl (labFoldStep cid lab_id main asst) p).1.room_usage) k).getD []
        = if k = lab_id
          then ls.foldl (fun u s => u.insert s) ((aget p.1.room_usage lab_id).getD [])
          else (aget p.1.room_usage k).getD [] := by
  intro ls
  induction ls with
  | nil =>
    intro p k
    by_cases hk : k = lab_id
    · subst hk
      rw [if_pos rfl]
      rfl
    · rw [if_neg hk]
      rfl
  | cons x t ih =>
    intro p k
    simp only [List.foldl_cons]
    rw [ih]
    have hself : (aget ((labFoldStep cid lab_id main asst p x).1.room_usage) lab_id).getD []
        = ((aget p.1.room_usage lab_id).getD []).insert x := by
      show (aget (assocAdjust p.1.room_usage lab_id [] (fun l => l.insert x)) lab_id).getD []
        = ((aget p.1.room_usage lab_id).getD []).insert x
      rw [assocAdjust, aget_assocUpd_self]
      rfl
    by_cases hk : k = lab_id
    · rw [if_pos hk, if_pos hk, hself]
    · rw [if_neg hk, if_neg hk]
      show (aget (assocAdjust p.1.room_usage lab_id [] (fun l => l.insert x)) k).getD []
        = (aget p.1.room_usage k).getD []
      rw [assocAdjust, aget_assocUpd_ne _ _ _ _ hk]

theorem theoryFold_room (cid sid fid : ℕ) :
    ∀ (ls : List ℕ) (p : BuildSt × ClassSt),
      (ls.foldl (theoryFoldStep cid sid fid) p).1.room_usage = p.1.room_usage := by
  intro ls
  induction ls with
  | nil => intro p; rfl
  | cons x t ih =>
    intro p
    simp only [List.foldl_cons]
    rw [ih]
    rfl

theorem theoryPassOne_room (ga : GeneticAlgorithm) (cid : ℕ) (st : BuildSt)
    (cs : ClassSt) (subject_id : ℕ) :
    (theoryPassOne ga cid st cs subject_id).1.room_usage = st.room_usage := by
  simp only [theoryPassOne]
  rw [theoryFold_room]

theorem pairLab_append (l1 l2 : List Gene) (cid sid : ℕ) :
    pairLabSlots (l1 ++ l2) cid sid
      = pairLabSlots l1 cid sid ++ pairLabSlots l2 cid sid := by
  simp [pairLabSlots, List.filter_append]

theorem pairLab_map_mk_lab_eq (cid sid M : ℕ) (A : Option ℕ) (ls : List ℕ) :
    pairLabSlots (ls.map (fun s => (⟨cid, sid, M, s, true, A⟩ : Gene))) cid sid = ls := by
  unfold pairLabSlots
  rw [List.filter_eq_self.2, List.map_map]
  · have hmap : ∀ l : List ℕ, l.map ((fun g : Gene => g.time_slot_id) ∘
        (fun s => (⟨cid, sid, M, s, true, A⟩ : Gene))) = l := by
      intro l
      induction l with
      | nil => rfl
      | cons a t iht =>
        rw [List.map_cons, iht]
        exact rfl
    exact hmap ls
  · intro g hgm
    rcases List.mem_map.1 hgm with ⟨s, _, he⟩
    rw [← he]
    simp

theorem pairLab_map_mk_lab_ne (cid sid cid' sid' M : ℕ) (A : Option ℕ) (ls : List ℕ)
    (h : ¬(cid' = cid ∧ sid' = sid)) :
    pairLabSlots (ls.map (fun s => (⟨cid', sid', M, s, true, A⟩ : Gene))) cid sid = [] := by
  unfold pairLabSlots
  rw [List.filter_eq_nil_iff.2, List.map_nil]
  intro g hgm
  rcases List.mem_map.1 hgm with ⟨s, _, he⟩
  rw [← he]
  simp only [decide_eq_true_eq]
  intro hc
  exact h ⟨hc.1, hc.2.1⟩

theorem pairLab_map_mk_theory (cid sid cid' sid' fid : ℕ) (ls : List ℕ) :
    pairLabSlots (ls.map (fun s => (⟨cid', sid', fid, s, false, none⟩ : Gene)))
      cid sid = [] := by
  unfold pairLabSlots
  rw [List.filter_eq_nil_iff.2, List.map_nil]
  intro g hgm
  rcases List.mem_map.1 hgm with ⟨s, _, he⟩
  rw [← he]
  simp

theorem pairLab_snoc_notlab (l : List Gene) (G : Gene) (cid sid : ℕ)
    (h : G.is_lab = false) :
    pairLabSlots (l ++ [G]) cid sid = pairLabSlots l cid sid := by
  rw [pairLab_append]
  have hz : pairLabSlots [G] cid sid = [] := by
    unfold pairLabSlots
    rw [List.filter_eq_nil_iff.2, List.map_nil]
    intro g hg
    rw [List.mem_singleton.1 hg]
    simp only [decide_eq_true_eq]
    intro hc
    rw [h] at hc
    exact absurd hc.2.2 (by decide)
  rw [hz, List.append_nil]

theorem pairLab_all_class_ne (l : List Gene) (c cid sid : ℕ)
    (hall : ∀ g ∈ l, g.class_id = c) (hne : c ≠ cid) :
    pairLabSlots l cid sid = [] := by
  unfold pairLabSlots
  rw [List.filter_eq_nil_iff.2, List.map_nil]
  intro g hg
  simp only [decide_eq_true_eq]
  intro hc
  exact hne ((hall g hg) ▸ hc.1)

theorem fillLoop_pairLab (ga : GeneticAlgorithm) (cid : ℕ) (fillable : List ℕ)
    (maxAtt cid' sid : ℕ) :
    ∀ (fuel : ℕ) (fs : FillSt),
      pairLabSlots (fillLoop ga cid fillable maxAtt fuel fs).genes cid' sid
        = pairLabSlots fs.genes cid' sid := by
  intro fuel
  induction fuel with
  | zero => intro fs; rfl
  | succ n ih =>
    intro fs
    simp only [fillLoop]
    split
    · rfl
    · split
      all_goals try split
      all_goals try split
      all_goals try split
      all_goals rw [ih]
      all_goals
        first
        | rfl
        | exact pairLab_snoc_notlab fs.genes _ cid' sid rfl

theorem fillPhase_pairLab (ga : GeneticAlgorithm) (cid cid' sid : ℕ)
    (fillable : List ℕ) (maxAtt fuel : ℕ) (genes0 : List Gene)
    (fsched : List (ℕ × List ℕ)) (used queue : List ℕ) (sf : List (ℕ × ℕ)) (r : Rng) :
    pairLabSlots (fillLoop ga cid fillable maxAtt fuel
      ⟨genes0, fsched, used, queue, sf, 0, 0, r⟩).genes cid' sid
      = pairLabSlots genes0 cid' sid :=
  fillLoop_pairLab ga cid fillable maxAtt cid' sid fuel _

theorem theoryPassOne_pairLab (ga : GeneticAlgorithm) (cid : ℕ) (st : BuildSt)
    (cs : ClassSt) (subject_id cid' sid : ℕ) :
    pairLabSlots (theoryPassOne ga cid st cs subject_id).1.genes cid' sid
      = pairLabSlots st.genes cid' sid := by
  obtain ⟨fid, ls, hg⟩ := theoryPassOne_genes ga cid st cs subject_id
  rw [hg, pairLab_append, pairLab_map_mk_theory, List.append_nil]

theorem theoriesFold_pairLab (ga : GeneticAlgorithm) (cid cid' sid : ℕ) :
    ∀ (ts : List ℕ) (p : BuildSt × ClassSt),
      pairLabSlots ((ts.foldl
        (fun acc s' => theoryPassOne ga cid acc.1 acc.2 s') p).1.genes) cid' sid
      = pairLabSlots p.1.genes cid' sid := by
  intro ts
  induction ts with
  | nil => intro p; rfl
  | cons s0 t ih =>
    intro p
    simp only [List.foldl_cons]
    rw [ih]
    exact theoryPassOne_pairLab ga cid p.1 p.2 s0 cid' sid

theorem theoriesFold_room (ga : GeneticAlgorithm) (cid : ℕ) :
    ∀ (ts : List ℕ) (p : BuildSt × ClassSt),
      ((ts.foldl (fun acc s' => theoryPassOne ga cid acc.1 acc.2 s') p).1).room_usage
        = p.1.room_usage := by
  intro ts
  induction ts with
  | nil => intro p; rfl
  | cons s0 t ih =>
    intro p
    simp only [List.foldl_cons]
    rw [ih]
    exact theoryPassOne_room ga cid p.1 p.2 s0

theorem RoomHU_congr (ga : GeneticAlgorithm) (st st' : BuildSt)
    (h : st'.room_usage = st.room_usage) (hr : RoomHU ga st) : RoomHU ga st' := by
  intro k
  rw [h]
  exact hr k

theorem check_lab_timing_nil (ga : GeneticAlgorithm) :
    check_lab_timing ga [] = true := by
  simp [check_lab_timing]

theorem labPassOne_half (ga : GeneticAlgorithm) (hnd : (slotIds ga).Nodup)
    (hgrid : GridOK ga) (cid : ℕ) (st : BuildSt) (cs : ClassSt) (lab_id : ℕ)
    (hcsu : HalfUnion ga cs.used) (hroom : RoomHU ga st) :
    ∃ (M : ℕ) (A : Option ℕ) (ls : List ℕ),
      (labPassOne ga cid st cs lab_id).1.genes
        = st.genes ++ ls.map (fun s => (⟨cid, lab_id, M, s, true, A⟩ : Gene)) ∧
      (ls = [] ∨ FullHalf ga ls) ∧
      HalfUnion ga (labPassOne ga cid st cs lab_id).2.used ∧
      RoomHU ga (labPassOne ga cid st cs lab_id).1 := by
  have hspec := find_lab_slots_spec ga (slotIds ga)
    (cs.used ++ (aget st.room_usage lab_id).getD []) cs.lab_days st.day_usage st.rng
  have hhalf := find_lab_slots_half ga hnd hgrid
    (cs.used ++ (aget st.room_usage lab_id).getD [])
    (HalfUnion_append ga _ _ hcsu (hroom lab_id)) cs.lab_days st.day_usage st.rng
  simp only [labPassOne]
  split
  · exact ⟨0, none, [], by simp, Or.inl rfl, hcsu, hroom⟩
  · next hne =>
    rcases hhalf with h0 | hFH
    · exact absurd h0 hne
    have hndT : (find_lab_slots ga (slotIds ga)
        (cs.used ++ (aget st.room_usage lab_id).getD []) cs.lab_days st.day_usage
        st.rng).1.Nodup := hspec.2.2 hnd
    have hfreshU : ∀ s ∈ (find_lab_slots ga (slotIds ga)
        (cs.used ++ (aget st.room_usage lab_id).getD []) cs.lab_days st.day_usage
        st.rng).1, s ∉ cs.used := by
      intro s hs
      obtain ⟨t, _, _, _, hnu⟩ := hspec.2.1 s hs
      exact fun h => hnu (List.mem_append.2 (Or.inl h))
    have hfreshR : ∀ s ∈ (find_lab_slots ga (slotIds ga)
        (cs.used ++ (aget st.room_usage lab_id).getD []) cs.lab_days st.day_usage
        st.rng).1, s ∉ (aget st.room_usage lab_id).getD [] := by
      intro s hs
      obtain ⟨t, _, _, _, hnu⟩ := hspec.2.1 s hs
      exact fun h => hnu (List.mem_append.2 (Or.inr h))
    refine ⟨_, _, _, labFold_genes _ _ _ _ _ _, Or.inr hFH, ?_, ?_⟩
    · rw [labFold_used, insertFold_rev _ _ hndT hfreshU]
      refine HalfUnion_congr ga ((find_lab_slots ga (slotIds ga)
        (cs.used ++ (aget st.room_usage lab_id).getD []) cs.lab_days st.day_usage
        st.rng).1 ++ cs.used) _ ?_
        (HalfUnion_append ga _ _ (FullHalf_halfUnion ga _ hFH) hcsu)
      intro s
      simp [List.mem_append, List.mem_reverse]
    · intro k
      rw [labFold_room]
      by_cases hk : k = lab_id
      · rw [if_pos hk]
        rw [insertFold_rev _ _ hndT (fun s hs => hfreshR s hs)]
        refine HalfUnion_congr ga ((find_lab_slots ga (slotIds ga)
          (cs.used ++ (aget st.room_usage lab_id).getD []) cs.lab_days st.day_usage
          st.rng).1 ++ (aget st.room_usage lab_id).getD []) _ ?_
          (HalfUnion_append ga _ _ (FullHalf_halfUnion ga _ hFH) (hroom lab_id))
        intro s
        simp [List.mem_append, List.mem_reverse]
      · rw [if_neg hk]
        exact hroom k

theorem labPassOne_pairLab_ne (ga : GeneticAlgorithm) (cid : ℕ) (st : BuildSt)
    (cs : ClassSt) (lab_id cid' sid : ℕ) (h : ¬(cid = cid' ∧ lab_id = sid)) :
    pairLabSlots (labPassOne ga cid st cs lab_id).1.genes cid' sid
      = pairLabSlots st.genes cid' sid := by
  obtain ⟨M, A, ls, hg, _⟩ := labPassOne_genes ga cid st cs lab_id
  rw [hg, pairLab_append, pairLab_map_mk_lab_ne cid' sid cid lab_id M A ls h,
    List.append_nil]

theorem labsFold_pairLab_none (ga : GeneticAlgorithm) (cid sid : ℕ) :
    ∀ (labs : List ℕ) (p : BuildSt × ClassSt), sid ∉ labs →
      pairLabSlots ((labs.foldl
        (fun acc lab_id => labPassOne ga cid acc.1 acc.2 lab_id) p).1.genes) cid sid
      = pairLabSlots p.1.genes cid sid := by
  intro labs
  induction labs with
  | nil => intro p _; rfl
  | cons l0 t ih =>
    intro p hni
    simp only [List.foldl_cons]
    rw [ih _ (fun hm => hni (List.mem_cons_of_mem l0 hm))]
    exact labPassOne_pairLab_ne ga cid p.1 p.2 l0 cid sid
      (fun hc => hni (hc.2 ▸ List.mem_cons_self l0 t))

theorem labsFold_half (ga : GeneticAlgorithm) (hnd : (slotIds ga).Nodup)
    (hgrid : GridOK ga) (cid sid : ℕ) :
    ∀ (labs : List ℕ) (p : BuildSt × ClassSt), labs.Nodup →
      HalfUnion ga p.2.used → RoomHU ga p.1 →
      (pairLabSlots ((labs.foldl
          (fun acc lab_id => labPassOne ga cid acc.1 acc.2 lab_id) p).1.genes) cid sid
          = pairLabSlots p.1.genes cid sid ∨
        ∃ T, FullHalf ga T ∧
          pairLabSlots ((labs.foldl
            (fun acc lab_id => labPassOne ga cid acc.1 acc.2 lab_id) p).1.genes) cid sid
            = pairLabSlots p.1.genes cid sid ++ T) ∧
      RoomHU ga ((labs.foldl
        (fun acc lab_id => labPassOne ga cid acc.1 acc.2 lab_id) p).1) := by
  intro labs
  induction labs with
  | nil => intro p _ _ hroom; exact ⟨Or.inl rfl, hroom⟩
  | cons l0 t ih =>
    intro p hnd0 hused hroom
    simp only [List.foldl_cons]
    obtain ⟨M, A, ls, hg, hls, hused', hroom'⟩ :=
      labPassOne_half ga hnd hgrid cid p.1 p.2 l0 hused hroom
    by_cases hl : l0 = sid
    · have hnin : sid ∉ t := fun hm => (List.nodup_cons.1 hnd0).1 (by rw [hl]; exact hm)
      refine ⟨?_, (ih _ (List.Nodup.of_cons hnd0) hused' hroom').2⟩
      rw [labsFold_pairLab_none ga cid sid t _ hnin, hg, pairLab_append, hl,
        pairLab_map_mk_lab_eq]
      rcases hls with h0 | hFH
      · left
        rw [h0, List.append_nil]
      · right
        exact ⟨ls, hFH, rfl⟩
    · have hstep := labPassOne_pairLab_ne ga cid p.1 p.2 l0 cid sid
        (fun hc => hl hc.2)
      refine ⟨?_, (ih _ (List.Nodup.of_cons hnd0) hused' hroom').2⟩
      rcases (ih _ (List.Nodup.of_cons hnd0) hused' hroom').1 with h1 | ⟨T, hT, h1⟩
      · left
        rw [h1, hstep]
      · right
        exact ⟨T, hT, by rw [h1, hstep]⟩

theorem scheduleClass_half (ga : GeneticAlgorithm) (hnd : (slotIds ga).Nodup)
    (hgrid : GridOK ga) (hsubnd : (ga.subjects.map (fun s => s.id)).Nodup)
    (st : BuildSt) (ci : ClassInfo) (sid : ℕ) (hroom : RoomHU ga st) :
    (pairLabSlots (scheduleClass ga st ci).genes ci.id sid
        = pairLabSlots st.genes ci.id sid ∨
      ∃ T, FullHalf ga T ∧
        pairLabSlots (scheduleClass ga st ci).genes ci.id sid
          = pairLabSlots st.genes ci.id sid ++ T) ∧
    RoomHU ga (scheduleClass ga st ci) := by
  have hcsnd : (class_subjects ga ci).Nodup := by
    simp only [class_subjects]
    exact ((List.filter_sublist _).map _).nodup hsubnd
  have hlabsnd : (((class_subjects ga ci).filter
      (fun s' => subjectTypeOf ga s' = "LAB")).take 2).Nodup :=
    ((List.take_sublist 2 _).trans (List.filter_sublist _)).nodup hcsnd
  have hlf := labsFold_half ga hnd hgrid ci.id sid
    (((class_subjects ga ci).filter (fun s' => subjectTypeOf ga s' = "LAB")).take 2)
    (st, ⟨[], []⟩) hlabsnd (HalfUnion_nil ga) hroom
  simp only [scheduleClass]
  split
  · constructor
    · rw [theoriesFold_pairLab]
      exact hlf.1
    · exact RoomHU_congr ga _ _ (theoriesFold_room ga ci.id _ _) hlf.2
  · constructor
    · rw [fillPhase_pairLab, theoriesFold_pairLab]
      exact hlf.1
    · exact RoomHU_congr ga _ _ (theoriesFold_room ga ci.id _ _) hlf.2

theorem schedFold_pairLab_none (ga : GeneticAlgorithm) (hnd : (slotIds ga).Nodup)
    (sid : ℕ) :
    ∀ (L : List ClassInfo) (st : BuildSt) (cid' : ℕ),
      cid' ∉ L.map (fun c => c.id) →
      pairLabSlots ((L.foldl (scheduleClass ga) st).genes) cid' sid
        = pairLabSlots st.genes cid' sid := by
  intro L
  induction L with
  | nil => intro st cid' _; rfl
  | cons c0 t ih =>
    intro st cid' hni
    simp only [List.map_cons, List.mem_cons] at hni
    push_neg at hni
    simp only [List.foldl_cons]
    rw [ih _ cid' hni.2]
    obtain ⟨new, hg, hcls, _, _⟩ := scheduleClass_spec ga hnd st c0
    rw [hg, pairLab_append,
      pairLab_all_class_ne new c0.id cid' sid hcls (fun he => hni.1 he.symm),
      List.append_nil]

theorem schedFold_half (ga : GeneticAlgorithm) (hnd : (slotIds ga).Nodup)
    (hgrid : GridOK ga) (hsubnd : (ga.subjects.map (fun s => s.id)).Nodup)
    (sid : ℕ) :
    ∀ (L : List ClassInfo) (st : BuildSt) (cid' : ℕ),
      (L.map (fun c => c.id)).Nodup → RoomHU ga st →
      (pairLabSlots ((L.foldl (scheduleClass ga) st).genes) cid' sid
          = pairLabSlots st.genes cid' sid ∨
        ∃ T, FullHalf ga T ∧
          pairLabSlots ((L.foldl (scheduleClass ga) st).genes) cid' sid
            = pairLabSlots st.genes cid' sid ++ T) := by
  intro L
  induction L with
  | nil => intro st cid' _ _; exact Or.inl rfl
  | cons c0 t ih =>
    intro st cid' hLnd hroom
    have htnd : (t.map (fun c => c.id)).Nodup := by
      have h1 := hLnd
      simp only [List.map_cons, List.nodup_cons] at h1
      exact h1.2
    have hc0nin : c0.id ∉ t.map (fun c => c.id) := by
      have h1 := hLnd
      simp only [List.map_cons, List.nodup_cons] at h1
      exact h1.1
    obtain ⟨hp0, hr0⟩ := scheduleClass_half ga hnd hgrid hsubnd st c0 sid hroom
    simp only [List.foldl_cons]
    by_cases hcc : cid' = c0.id
    · subst hcc
      rw [schedFold_pairLab_none ga hnd sid t _ c0.id hc0nin]
      exact hp0
    · have hstep : pairLabSlots (scheduleClass ga st c0).genes cid' sid
          = pairLabSlots st.genes cid' sid := by
        obtain ⟨new, hg, hcls, _, _⟩ := scheduleClass_spec ga hnd st c0
        rw [hg, pairLab_append,
          pairLab_all_class_ne new c0.id cid' sid hcls (fun he => hcc he.symm),
          List.append_nil]
      rcases ih (scheduleClass ga st c0) cid' htnd hr0 with h1 | ⟨T, hT, h1⟩
      · left
        rw [h1, hstep]
      · right
        exact ⟨T, hT, by rw [h1, hstep]⟩

/-- C3: in a freshly constructed chromosome every lab triple — the lab
genes of one (class, lab subject) pair — sits entirely inside one
morning {1,2,3} or one afternoon {5,6,7} block (`_check_lab_timing`
holds), so no constructed lab crosses the lunch boundary or touches
period 4.  Hypotheses: unique slot/class/subject ids and an intact
7-period grid on every day. -/
theorem constructor_lab_half_day (ga : GeneticAlgorithm) (r : Rng)
    (hnd : (slotIds ga).Nodup)
    (hcl : (ga.classes.map (fun c => c.id)).Nodup)
    (hsubnd : (ga.subjects.map (fun s => s.id)).Nodup)
    (hgrid : GridOK ga) (ci : ClassInfo) (sid : ℕ) :
    check_lab_timing ga
      (pairLabSlots (create_random_chromosome ga r).1.genes ci.id sid) = true := by
  have h1 : (((randomShuffle ga.classes r).1).map (fun c => c.id)).Nodup :=
    (((randomShuffle_perm ga.classes r).map (fun c => c.id)).nodup_iff).2 hcl
  have hroom0 : RoomHU ga (⟨[], [], [], [], (randomShuffle ga.classes r).2⟩ : BuildSt) :=
    fun _ => HalfUnion_nil ga
  have h2 := schedFold_half ga hnd hgrid hsubnd sid (randomShuffle ga.classes r).1
    ⟨[], [], [], [], (randomShuffle ga.classes r).2⟩ ci.id h1 hroom0
  simp only [create_random_chromosome]
  rcases h2 with h3 | ⟨T, hT, h3⟩
  · rw [h3]
    exact check_lab_timing_nil ga
  · rw [h3]
    exact FullHalf_timing ga T hT

theorem constructor_lab_half_day_witness :
    ((slotIds demoLabGA).Nodup ∧ (demoLabGA.classes.map (fun c => c.id)).Nodup ∧
      (demoLabGA.subjects.map (fun s => s.id)).Nodup ∧ GridOK demoLabGA) ∧
    check_lab_timing demoLabGA
      (pairLabSlots (create_random_chromosome demoLabGA []).1.genes 1 20) = true :=
  ⟨⟨by decide, by decide, by decide, by unfold GridOK; decide⟩,
   constructor_lab_half_day demoLabGA [] (by decide) (by decide) (by decide)
     (by unfold GridOK; decide) ⟨1, 1⟩ 20⟩

/-! ## Claim C1: early termination and hard violations

The fitness score is decomposed into its seven blocks; with no faculty
preferences configured every block is non-positive and every hard
violation forces a strictly negative summand, so a non-negative total
rules the violations out.  With preferences configured the `+100`
bonuses can mask a `-1000` clash, which refutes the claim as stated. -/

theorem WEIGHTS_faculty_clash : WEIGHTS "faculty_clash" = -1000 := by simp [WEIGHTS]

theorem WEIGHTS_class_clash : WEIGHTS "class_clash" = -1000 := by simp [WEIGHTS]

theorem WEIGHTS_workload_exceeded : WEIGHTS "workload_exceeded" = -500 := by simp [WEIGHTS]

theorem WEIGHTS_lab_continuity_val : WEIGHTS "lab_continuity" = -5000 := by simp [WEIGHTS]

theorem WEIGHTS_lab_timing : WEIGHTS "lab_timing" = -100 := by simp [WEIGHTS]

theorem WEIGHTS_lab_day_clash : WEIGHTS "lab_day_clash" = -800 := by simp [WEIGHTS]

theorem WEIGHTS_lab_room_clash : WEIGHTS "lab_room_clash" = -1500 := by simp [WEIGHTS]

theorem WEIGHTS_cross_dept_clash : WEIGHTS "cross_dept_clash" = -2000 := by simp [WEIGHTS]

theorem WEIGHTS_subject_rotation : WEIGHTS "subject_rotation" = -50 := by simp [WEIGHTS]

theorem WEIGHTS_workload_balance : WEIGHTS "workload_balance" = -30 := by simp [WEIGHTS]

theorem ite_nonpos (c : Prop) [Decidable c] (x : ℚ) (h : x ≤ 0) :
    (if c then x else 0) ≤ 0 := by
  split
  · exact h
  · exact le_refl 0

theorem ite_mul_nonpos (c : Prop) [Decidable c] (w x : ℚ) (hw : w ≤ 0) (hx : c → 0 ≤ x) :
    (if c then w * x else 0) ≤ 0 := by
  split
  · rename_i h
    have := hx h
    nlinarith
  · exact le_refl 0

theorem foldl_add_nonpos {α : Type} (f : α → ℚ) :
    ∀ (l : List α) (a : ℚ), a ≤ 0 → (∀ x ∈ l, f x ≤ 0) →
      l.foldl (fun acc x => acc + f x) a ≤ 0 := by
  intro l
  induction l with
  | nil => intro a ha _; simpa using ha
  | cons x xs ih =>
    intro a ha h
    simp only [List.foldl_cons]
    refine ih (a + f x) ?_ (fun y hy => h y (List.mem_cons_of_mem x hy))
    have := h x (List.mem_cons_self x xs)
    linarith

theorem foldl_add_eq_zero {α : Type} (f : α → ℚ) :
    ∀ (l : List α) (a : ℚ), a ≤ 0 → (∀ x ∈ l, f x ≤ 0) →
      l.foldl (fun acc x => acc + f x) a = 0 → a = 0 ∧ ∀ x ∈ l, f x = 0 := by
  intro l
  induction l with
  | nil =>
    intro a _ _ h0
    exact ⟨by simpa using h0, by simp⟩
  | cons x xs ih =>
    intro a ha h h0
    simp only [List.foldl_cons] at h0
    have hx : f x ≤ 0 := h x (List.mem_cons_self x xs)
    have hrest := ih (a + f x) (by linarith) (fun y hy => h y (List.mem_cons_of_mem x hy)) h0
    have ha0 : a = 0 := by linarith [hrest.1]
    have hfx : f x = 0 := by linarith [hrest.1]
    refine ⟨ha0, fun y hy => ?_⟩
    rcases List.mem_cons.1 hy with h | h
    · rw [h]; exact hfx
    · exact hrest.2 y h

theorem six_sum_le (base a b c d e f : ℚ) (ha : a ≤ 0) (hb : b ≤ 0) (hc : c ≤ 0)
    (hd : d = 0) (he : e ≤ 0) (hf : f ≤ 0) :
    base + a + b + c + d + e + f ≤ base := by linarith

theorem six_sum_zero (base a b c d e f : ℚ) (ha : a ≤ 0) (hb : b ≤ 0) (hc : c ≤ 0)
    (hd : d = 0) (he : e ≤ 0) (hf : f ≤ 0)
    (h : base + a + b + c + d + e + f = base) :
    a = 0 ∧ b = 0 ∧ c = 0 ∧ e = 0 ∧ f = 0 :=
  ⟨by linarith, by linarith, by linarith, by linarith, by linarith⟩

/-- The fitness increment of one gene of the first fitness pass, zeta
expanded. -/
theorem fitStep_fitness (ga : GeneticAlgorithm) (st : FitSt) (g : Gene) :
    (fitStep ga st g).fitness =
      st.fitness
      + (if g.time_slot_id ∈ (aget st.faculty_schedule g.faculty_id).getD [] then
          WEIGHTS "faculty_clash" else 0)
      + (if optTruthy g.assistant_faculty_id ∧
            g.time_slot_id ∈ (aget (assocAdjust st.faculty_schedule g.faculty_id []
              (fun l => l.insert g.time_slot_id)) (g.assistant_faculty_id.getD 0)).getD [] then
          WEIGHTS "faculty_clash" else 0)
      + (if g.time_slot_id ∈ (aget st.class_schedule g.class_id).getD [] then
          WEIGHTS "class_clash" else 0)
      + (if subjectCodeOf ga g.subject_id ∈ (aget ga.faculty_preferences g.faculty_id).getD [] then
          WEIGHTS "faculty_preference" else 0)
      + (match aget ga.pre_booked_slots g.faculty_id with
         | some s => if g.time_slot_id ∈ s then WEIGHTS "cross_dept_clash" else 0
         | none => 0)
      + (if optTruthy g.assistant_faculty_id then
          match aget ga.pre_booked_slots (g.assistant_faculty_id.getD 0) with
          | some s => if g.time_slot_id ∈ s then WEIGHTS "cross_dept_clash" else 0
          | none => 0
         else 0) := rfl

theorem fitStep_fac (ga : GeneticAlgorithm) (st : FitSt) (g : Gene) :
    (fitStep ga st g).faculty_schedule =
      (if optTruthy g.assistant_faculty_id then
        assocAdjust (assocAdjust st.faculty_schedule g.faculty_id []
          (fun l => l.insert g.time_slot_id)) (g.assistant_faculty_id.getD 0) []
          (fun l => l.insert g.time_slot_id)
      else assocAdjust st.faculty_schedule g.faculty_id []
          (fun l => l.insert g.time_slot_id)) := rfl

theorem fitStep_class (ga : GeneticAlgorithm) (st : FitSt) (g : Gene) :
    (fitStep ga st g).class_schedule =
      assocAdjust st.class_schedule g.class_id [] (fun l => l.insert g.time_slot_id) := rfl

theorem fitStep_fh (ga : GeneticAlgorithm) (st : FitSt) (g : Gene) :
    (fitStep ga st g).faculty_hours =
      (if optTruthy g.assistant_faculty_id then
        assocAdjust (assocAdjust st.faculty_hours g.faculty_id 0 (fun n => n + 1))
          (g.assistant_faculty_id.getD 0) 0 (fun n => n + 1)
      else assocAdjust st.faculty_hours g.faculty_id 0 (fun n => n + 1)) := rfl

theorem fitStep_cl (ga : GeneticAlgorithm) (st : FitSt) (g : Gene) :
    (fitStep ga st g).class_labs =
      (if g.is_lab then assocAdjust st.class_labs g.class_id [] (fun l => l ++ [g])
       else st.class_labs) := rfl

/-- Membership in an `insert`-adjusted slot-set dict. -/
theorem mem_aget_insert {κ : Type} [DecidableEq κ] (m : List (κ × List ℕ)) (k : κ) (x : ℕ)
    (f : κ) (s : ℕ) :
    s ∈ (aget (assocAdjust m k [] (fun l => l.insert x)) f).getD [] ↔
      (s ∈ (aget m f).getD [] ∨ (f = k ∧ s = x)) := by
  by_cases h : f = k
  · subst h
    rw [aget_assocAdjust_self]
    simp [List.mem_insert_iff]
    tauto
  · rw [aget_assocAdjust_ne _ _ _ _ _ h]
    simp [h]

theorem fitStep_fac_mem (ga : GeneticAlgorithm) (st : FitSt) (g : Gene) (f s : ℕ) :
    s ∈ (aget (fitStep ga st g).faculty_schedule f).getD [] ↔
      (s ∈ (aget st.faculty_schedule f).getD [] ∨ (f ∈ geneFacs g ∧ s = g.time_slot_id)) := by
  rw [fitStep_fac]
  by_cases ha : optTruthy g.assistant_faculty_id
  · rw [if_pos ha, mem_aget_insert, mem_aget_insert]
    simp only [geneFacs, ha, if_pos, List.mem_cons, List.mem_singleton]
    tauto
  · rw [if_neg ha, mem_aget_insert]
    simp [geneFacs, ha]

theorem fitStep_class_mem (ga : GeneticAlgorithm) (st : FitSt) (g : Gene) (c s : ℕ) :
    s ∈ (aget (fitStep ga st g).class_schedule c).getD [] ↔
      (s ∈ (aget st.class_schedule c).getD [] ∨ (c = g.class_id ∧ s = g.time_slot_id)) := by
  rw [fitStep_class]
  exact mem_aget_insert _ _ _ _ _

/-- With no preferences configured, one gene can only lower the
fitness. -/
theorem fitStep_fitness_le (ga : GeneticAlgorithm) (hpref : ga.faculty_preferences = [])
    (st : FitSt) (g : Gene) : (fitStep ga st g).fitness ≤ st.fitness := by
  rw [fitStep_fitness]
  apply six_sum_le
  · exact ite_nonpos _ _ (by rw [WEIGHTS_faculty_clash]; norm_num)
  · exact ite_nonpos _ _ (by rw [WEIGHTS_faculty_clash]; norm_num)
  · exact ite_nonpos _ _ (by rw [WEIGHTS_class_clash]; norm_num)
  · rw [hpref]; simp [aget]
  · cases aget ga.pre_booked_slots g.faculty_id with
    | none => exact le_refl 0
    | some s => exact ite_nonpos _ _ (by rw [WEIGHTS_cross_dept_clash]; norm_num)
  · split
    · cases aget ga.pre_booked_slots (g.assistant_faculty_id.getD 0) with
      | none => exact le_refl 0
      | some s => exact ite_nonpos _ _ (by rw [WEIGHTS_cross_dept_clash]; norm_num)
    · exact le_refl 0

/-- With no preferences configured, a gene that does not lower the
fitness passes all its clash checks. -/
theorem fitStep_eq_cases (ga : GeneticAlgorithm) (hpref : ga.faculty_preferences = [])
    (st : FitSt) (g : Gene) (heq : (fitStep ga st g).fitness = st.fitness) :
    (∀ f ∈ geneFacs g, g.time_slot_id ∉ (aget st.faculty_schedule f).getD []) ∧
    g.time_slot_id ∉ (aget st.class_schedule g.class_id).getD [] ∧
    (∀ f ∈ geneFacs g, g.time_slot_id ∉ (aget ga.pre_booked_slots f).getD []) := by
  rw [fitStep_fitness] at heq
  obtain ⟨h1, h2, h3, h5, h6⟩ := six_sum_zero _ _ _ _ _ _ _
    (ite_nonpos _ _ (by rw [WEIGHTS_faculty_clash]; norm_num))
    (ite_nonpos _ _ (by rw [WEIGHTS_faculty_clash]; norm_num))
    (ite_nonpos _ _ (by rw [WEIGHTS_class_clash]; norm_num))
    (by rw [hpref]; simp [aget])
    (by cases aget ga.pre_booked_slots g.faculty_id with
        | none => exact le_refl 0
        | some s => exact ite_nonpos _ _ (by rw [WEIGHTS_cross_dept_clash]; norm_num))
    (by split
        · cases aget ga.pre_booked_slots (g.assistant_faculty_id.getD 0) with
          | none => exact le_refl 0
          | some s => exact ite_nonpos _ _ (by rw [WEIGHTS_cross_dept_clash]; norm_num)
        · exact le_refl 0)
    heq
  refine ⟨?_, ?_, ?_⟩
  · intro f hf hmem
    rcases List.mem_cons.1 hf with hf1 | hf2
    · subst hf1
      rw [if_pos hmem, WEIGHTS_faculty_clash] at h1
      norm_num at h1
    · by_cases ht : optTruthy g.assistant_faculty_id
      · rw [if_pos ht] at hf2
        have hfa : f = g.assistant_faculty_id.getD 0 := by simpa using hf2
        subst hfa
        have hmem1 : g.time_slot_id ∈
            (aget (assocAdjust st.faculty_schedule g.faculty_id []
              (fun l => l.insert g.time_slot_id)) (g.assistant_faculty_id.getD 0)).getD [] :=
          (mem_aget_insert _ _ _ _ _).2 (Or.inl hmem)
        rw [if_pos ⟨ht, hmem1⟩, WEIGHTS_faculty_clash] at h2
        norm_num at h2
      · rw [if_neg ht] at hf2
        simp at hf2
  · intro hmem
    rw [if_pos hmem, WEIGHTS_class_clash] at h3
    norm_num at h3
  · intro f hf hmem
    rcases List.mem_cons.1 hf with hf1 | hf2
    · subst hf1
      cases hpb : aget ga.pre_booked_slots g.faculty_id with
      | none => rw [hpb] at hmem; simp at hmem
      | some s =>
        rw [hpb] at h5 hmem
        have h5' : (if g.time_slot_id ∈ s then WEIGHTS "cross_dept_clash" else 0) = 0 := h5
        have hms : g.time_slot_id ∈ s := by simpa using hmem
        rw [if_pos hms, WEIGHTS_cross_dept_clash] at h5'
        norm_num at h5'
    · by_cases ht : optTruthy g.assistant_faculty_id
      · rw [if_pos ht] at hf2
        have hfa : f = g.assistant_faculty_id.getD 0 := by simpa using hf2
        subst hfa
        rw [if_pos ht] at h6
        cases hpb : aget ga.pre_booked_slots (g.assistant_faculty_id.getD 0) with
        | none => rw [hpb] at hmem; simp at hmem
        | some s =>
          rw [hpb] at h6 hmem
          have h6' : (if g.time_slot_id ∈ s then WEIGHTS "cross_dept_clash" else 0) = 0 := h6
          have hms : g.time_slot_id ∈ s := by simpa using hmem
          rw [if_pos hms, WEIGHTS_cross_dept_clash] at h6'
          norm_num at h6'
      · rw [if_neg ht] at hf2
        simp at hf2

/-- The first fitness pass can only lower the fitness (no preferences),
and a run that does not lower it books no clashing gene: no gene hits
the incoming schedules, the genes are pairwise clash-free for faculty
and class, and no gene sits on a pre-booked slot. -/
theorem fitPass1_run (ga : GeneticAlgorithm) (hpref : ga.faculty_preferences = []) :
    ∀ (genes : List Gene) (st : FitSt),
      (genes.foldl (fitStep ga) st).fitness ≤ st.fitness ∧
      ((genes.foldl (fitStep ga) st).fitness = st.fitness →
        (∀ g ∈ genes, ∀ f ∈ geneFacs g,
          g.time_slot_id ∉ (aget st.faculty_schedule f).getD []) ∧
        (∀ g ∈ genes, g.time_slot_id ∉ (aget st.class_schedule g.class_id).getD []) ∧
        genes.Pairwise (fun g1 g2 => ∀ f, f ∈ geneFacs g1 → f ∈ geneFacs g2 →
          g1.time_slot_id ≠ g2.time_slot_id) ∧
        genes.Pairwise (fun g1 g2 => g1.class_id = g2.class_id →
          g1.time_slot_id ≠ g2.time_slot_id) ∧
        (∀ g ∈ genes, ∀ f ∈ geneFacs g,
          g.time_slot_id ∉ (aget ga.pre_booked_slots f).getD [])) := by
  intro genes
  induction genes with
  | nil =>
    intro st
    exact ⟨le_refl _, fun _ => ⟨by simp, by simp, List.Pairwise.nil, List.Pairwise.nil, by simp⟩⟩
  | cons g t ih =>
    intro st
    have hle1 : (fitStep ga st g).fitness ≤ st.fitness := fitStep_fitness_le ga hpref st g
    have hle2 := (ih (fitStep ga st g)).1
    constructor
    · simp only [List.foldl_cons]
      exact le_trans hle2 hle1
    · intro heq
      simp only [List.foldl_cons] at heq
      have heq1 : (fitStep ga st g).fitness = st.fitness := by
        apply le_antisymm hle1
        calc st.fitness = (t.foldl (fitStep ga) (fitStep ga st g)).fitness := heq.symm
          _ ≤ (fitStep ga st g).fitness := hle2
      have heq2 : (t.foldl (fitStep ga) (fitStep ga st g)).fitness =
          (fitStep ga st g).fitness := by rw [heq, heq1]
      obtain ⟨hs1, hs2, hs3⟩ := fitStep_eq_cases ga hpref st g heq1
      obtain ⟨ht1, ht2, ht3, ht4, ht5⟩ := (ih (fitStep ga st g)).2 heq2
      refine ⟨?_, ?_, ?_, ?_, ?_⟩
      · intro g1 hg1 f hf
        rcases List.mem_cons.1 hg1 with h | h
        · subst h; exact hs1 f hf
        · intro hmem
          exact ht1 g1 h f hf ((fitStep_fac_mem ga st g f _).2 (Or.inl hmem))
      · intro g1 hg1
        rcases List.mem_cons.1 hg1 with h | h
        · subst h; exact hs2
        · intro hmem
          exact ht2 g1 h ((fitStep_class_mem ga st g _ _).2 (Or.inl hmem))
      · refine List.Pairwise.cons ?_ ht3
        intro g1 hg1 f hf hf1 hslot
        exact ht1 g1 hg1 f hf1 ((fitStep_fac_mem ga st g f _).2 (Or.inr ⟨hf, hslot.symm⟩))
      · refine List.Pairwise.cons ?_ ht4
        intro g1 hg1 hcls hslot
        exact ht2 g1 hg1 ((fitStep_class_mem ga st g _ _).2 (Or.inr ⟨hcls.symm, hslot.symm⟩))
      · intro g1 hg1 f hf
        rcases List.mem_cons.1 hg1 with h | h
        · subst h; exact hs3 f hf
        · exact ht5 g1 h f hf

/-! ### Characterization of the accumulated `faculty_hours` and
`class_labs` dictionaries -/

theorem aget_adjust_succ (m : List (ℕ × ℕ)) (k f : ℕ) :
    (aget (assocAdjust m k 0 (fun n => n + 1)) f).getD 0 =
      (aget m f).getD 0 + (if f = k then 1 else 0) := by
  by_cases h : f = k
  · subst h
    rw [aget_assocAdjust_self]
    simp
  · rw [aget_assocAdjust_ne _ _ _ _ _ h]
    simp [h]

theorem geneFacs_count (g : Gene) (f : ℕ) :
    (geneFacs g).count f =
      (if f = g.faculty_id then 1 else 0) +
      (if optTruthy g.assistant_faculty_id then
        (if f = g.assistant_faculty_id.getD 0 then 1 else 0) else 0) := by
  by_cases ht : optTruthy g.assistant_faculty_id <;>
    by_cases h1 : f = g.faculty_id <;>
      by_cases h2 : f = g.assistant_faculty_id.getD 0 <;>
        simp [geneFacs, ht, h1, h2, List.count_cons] <;>
          (try split_ifs) <;> omega

theorem hoursOf_cons (g : Gene) (t : List Gene) (f : ℕ) :
    hoursOf (g :: t) f = (geneFacs g).count f + hoursOf t f := by
  simp [hoursOf, List.count_append]

theorem fitStep_fh_getD (ga : GeneticAlgorithm) (st : FitSt) (g : Gene) (f : ℕ) :
    (aget (fitStep ga st g).faculty_hours f).getD 0 =
      (aget st.faculty_hours f).getD 0 + (geneFacs g).count f := by
  rw [fitStep_fh, geneFacs_count]
  by_cases ht : optTruthy g.assistant_faculty_id
  · rw [if_pos ht, if_pos ht, aget_adjust_succ, aget_adjust_succ]
    ring
  · rw [if_neg ht, if_neg ht, aget_adjust_succ]
    ring

theorem fitPass1_fh (ga : GeneticAlgorithm) :
    ∀ (genes : List Gene) (st : FitSt) (f : ℕ),
      (aget (genes.foldl (fitStep ga) st).faculty_hours f).getD 0 =
        (aget st.faculty_hours f).getD 0 + hoursOf genes f := by
  intro genes
  induction genes with
  | nil => intro st f; simp [hoursOf]
  | cons g t ih =>
    intro st f
    simp only [List.foldl_cons]
    rw [ih, fitStep_fh_getD, hoursOf_cons]
    ring

theorem fitStep_cl_getD (ga : GeneticAlgorithm) (st : FitSt) (g : Gene) (cid : ℕ) :
    (aget (fitStep ga st g).class_labs cid).getD [] =
      (aget st.class_labs cid).getD [] ++
        (if g.is_lab = true ∧ g.class_id = cid then [g] else []) := by
  rw [fitStep_cl]
  by_cases hl : g.is_lab
  · rw [if_pos hl]
    by_cases hc : g.class_id = cid
    · subst hc
      rw [aget_assocAdjust_self]
      simp [hl]
    · rw [aget_assocAdjust_ne _ _ _ _ _ (Ne.symm hc)]
      simp [hl, hc]
  · rw [if_neg hl]
    simp [hl]

theorem labGenesOf_cons (g : Gene) (t : List Gene) (cid : ℕ) :
    labGenesOf (g :: t) cid =
      (if g.is_lab = true ∧ g.class_id = cid then [g] else []) ++ labGenesOf t cid := by
  by_cases h : g.is_lab = true ∧ g.class_id = cid <;> simp [labGenesOf, List.filter_cons, h]

theorem fitPass1_cl (ga : GeneticAlgorithm) :
    ∀ (genes : List Gene) (st : FitSt) (cid : ℕ),
      (aget (genes.foldl (fitStep ga) st).class_labs cid).getD [] =
        (aget st.class_labs cid).getD [] ++ labGenesOf genes cid := by
  intro genes
  induction genes with
  | nil => intro st cid; simp [labGenesOf]
  | cons g t ih =>
    intro st cid
    simp only [List.foldl_cons]
    rw [ih, fitStep_cl_getD, labGenesOf_cons, List.append_assoc]

theorem aget_adjust_isSome {κ α : Type} [DecidableEq κ] (m : List (κ × α)) (k k' : κ)
    (d : α) (f : α → α) (h : (aget m k').isSome) :
    (aget (assocAdjust m k d f) k').isSome := by
  by_cases hk : k' = k
  · subst hk
    rw [aget_assocAdjust_self]
    rfl
  · rw [aget_assocAdjust_ne _ _ _ _ _ hk]
    exact h

theorem fitPass1_cl_isSome (ga : GeneticAlgorithm) :
    ∀ (genes : List Gene) (st : FitSt) (cid : ℕ),
      ((aget st.class_labs cid).isSome ∨ labGenesOf genes cid ≠ []) →
      (aget (genes.foldl (fitStep ga) st).class_labs cid).isSome := by
  intro genes
  induction genes with
  | nil =>
    intro st cid h
    rcases h with h | h
    · exact h
    · simp [labGenesOf] at h
  | cons g t ih =>
    intro st cid h
    simp only [List.foldl_cons]
    apply ih
    by_cases hg : g.is_lab = true ∧ g.class_id = cid
    · left
      rw [fitStep_cl, if_pos hg.1]
      obtain ⟨_, hc⟩ := hg
      subst hc
      rw [aget_assocAdjust_self]
      rfl
    · rcases h with h | h
      · left
        rw [fitStep_cl]
        split
        · exact aget_adjust_isSome _ _ _ _ _ h
        · exact h
      · right
        rw [labGenesOf_cons, if_neg hg] at h
        simpa using h

/-! ### The aggregate fitness blocks are non-positive -/

theorem workloadTerm_nonpos (ga : GeneticAlgorithm) (fh : List (ℕ × ℕ)) :
    workloadTerm ga fh ≤ 0 := by
  unfold workloadTerm
  exact foldl_add_nonpos _ fh 0 (le_refl 0)
    (fun p _ => ite_mul_nonpos _ _ _ (by rw [WEIGHTS_workload_exceeded]; norm_num)
      (fun h => by
        have hc : (workLimit ga p.1 : ℚ) < (p.2 : ℚ) := by exact_mod_cast h
        linarith))

theorem workloadTerm_zero (ga : GeneticAlgorithm) (fh : List (ℕ × ℕ))
    (h0 : workloadTerm ga fh = 0) : ∀ p ∈ fh, p.2 ≤ workLimit ga p.1 := by
  unfold workloadTerm at h0
  have hall := (foldl_add_eq_zero _ fh 0 (le_refl 0)
    (fun p _ => ite_mul_nonpos _ _ _ (by rw [WEIGHTS_workload_exceeded]; norm_num)
      (fun h => by
        have hc : (workLimit ga p.1 : ℚ) < (p.2 : ℚ) := by exact_mod_cast h
        linarith)) h0).2
  intro p hp
  have hz := hall p hp
  by_cases hlt : workLimit ga p.1 < p.2
  · exfalso
    rw [if_pos hlt, WEIGHTS_workload_exceeded] at hz
    have hc : (workLimit ga p.1 : ℚ) < (p.2 : ℚ) := by exact_mod_cast hlt
    linarith
  · omega

theorem ite_nonpos_rev (c : Prop) [Decidable c] (x : ℚ) (h : x ≤ 0) :
    (if c then 0 else x) ≤ 0 := by
  split
  · exact le_refl 0
  · exact h

theorem subjectLabPenalty_nonpos (ga : GeneticAlgorithm) (l : List Gene) (sid : ℕ) :
    subjectLabPenalty ga l sid ≤ 0 := by
  simp only [subjectLabPenalty]
  split
  · rw [WEIGHTS_lab_continuity_val]; norm_num
  · exact add_nonpos
      (ite_nonpos_rev _ _ (by rw [WEIGHTS_lab_continuity_val]; norm_num))
      (ite_nonpos_rev _ _ (by rw [WEIGHTS_lab_timing]; norm_num))

theorem labConstraintsTerm_nonpos (ga : GeneticAlgorithm) (cl : List (ℕ × List Gene)) :
    labConstraintsTerm ga cl ≤ 0 := by
  unfold labConstraintsTerm
  exact foldl_add_nonpos _ cl 0 (le_refl 0)
    (fun p _ => foldl_add_nonpos _ _ 0 (le_refl 0)
      (fun sid _ => subjectLabPenalty_nonpos ga p.2 sid))

theorem labConstraintsTerm_zero (ga : GeneticAlgorithm) (cl : List (ℕ × List Gene))
    (h0 : labConstraintsTerm ga cl = 0) :
    ∀ p ∈ cl, ∀ sid ∈ (p.2.map (fun g => g.subject_id)).dedup,
      subjectLabPenalty ga p.2 sid = 0 := by
  unfold labConstraintsTerm at h0
  have houter := (foldl_add_eq_zero _ cl 0 (le_refl 0)
    (fun p _ => foldl_add_nonpos _ _ 0 (le_refl 0)
      (fun sid _ => subjectLabPenalty_nonpos ga p.2 sid)) h0).2
  intro p hp
  exact (foldl_add_eq_zero _ _ 0 (le_refl 0)
    (fun sid _ => subjectLabPenalty_nonpos ga p.2 sid) (houter p hp)).2

theorem labDayTerm_nonpos (ga : GeneticAlgorithm) (cl : List (ℕ × List Gene)) :
    labDayTerm ga cl ≤ 0 := by
  simp only [labDayTerm]
  exact foldl_add_nonpos _ _ 0 (le_refl 0)
    (fun p _ => ite_mul_nonpos _ _ _ (by rw [WEIGHTS_lab_day_clash]; norm_num)
      (fun h => by
        have hc : (1 : ℚ) < (p.2 : ℚ) := by exact_mod_cast h
        linarith))

theorem labRoomTerm_nonpos (ga : GeneticAlgorithm) (genes : List Gene) :
    labRoomTerm ga genes ≤ 0 := by
  simp only [labRoomTerm]
  exact foldl_add_nonpos _ _ 0 (le_refl 0)
    (fun p _ => foldl_add_nonpos _ _ 0 (le_refl 0)
      (fun q _ => ite_mul_nonpos _ _ _ (by rw [WEIGHTS_lab_room_clash]; norm_num)
        (fun h => by
          have hc : (1 : ℚ) < (q.2.length : ℚ) := by exact_mod_cast h
          linarith)))

theorem workloadBalanceTerm_nonpos (fh : List (ℕ × ℕ)) :
    workloadBalanceTerm fh ≤ 0 := by
  simp only [workloadBalanceTerm]
  split
  · exact le_refl 0
  · exact foldl_add_nonpos _ _ 0 (le_refl 0)
      (fun p _ => ite_mul_nonpos _ _ _ (by rw [WEIGHTS_workload_balance]; norm_num)
        (fun h => by linarith))

theorem subjectRotationTerm_nonpos (ga : GeneticAlgorithm) (genes : List Gene) :
    subjectRotationTerm ga genes ≤ 0 := by
  unfold subjectRotationTerm
  exact foldl_add_nonpos _ genes 0 (le_refl 0)
    (fun g _ => ite_nonpos _ _ (by rw [WEIGHTS_subject_rotation]; norm_num))

/-- A non-negative total score forces the three penalty blocks that
matter for hard violations to vanish (all seven blocks are
non-positive). -/
theorem calculate_fitness_blocks (ga : GeneticAlgorithm) (c : Chromosome)
    (hpref : ga.faculty_preferences = []) (hfit : 0 ≤ calculate_fitness ga c) :
    (fitPass1 ga c.genes).fitness = 0 ∧
    workloadTerm ga (fitPass1 ga c.genes).faculty_hours = 0 ∧
    labConstraintsTerm ga (fitPass1 ga c.genes).class_labs = 0 := by
  have hA : (fitPass1 ga c.genes).fitness ≤ 0 :=
    (fitPass1_run ga hpref c.genes ⟨0, [], [], [], []⟩).1
  have hB := workloadTerm_nonpos ga (fitPass1 ga c.genes).faculty_hours
  have hC := labConstraintsTerm_nonpos ga (fitPass1 ga c.genes).class_labs
  have hD := labDayTerm_nonpos ga (fitPass1 ga c.genes).class_labs
  have hE := labRoomTerm_nonpos ga c.genes
  have hF := workloadBalanceTerm_nonpos (fitPass1 ga c.genes).faculty_hours
  have hG := subjectRotationTerm_nonpos ga c.genes
  simp only [calculate_fitness] at hfit
  exact ⟨by linarith, by linarith, by linarith⟩

/-- The lab slot group of a `(class, subject)` pair, reached through the
`class_labs` entry of the class, is `labGroupSlots`. -/
theorem labGroup_slots_eq (genes : List Gene) (cid sid : ℕ) :
    ((labGenesOf genes cid).filter (fun g => g.subject_id = sid)).map
      (fun g => g.time_slot_id) = labGroupSlots genes cid sid := by
  unfold labGenesOf labGroupSlots
  rw [List.filter_filter]
  congr 1
  apply List.filter_congr
  intro g _
  by_cases h1 : g.is_lab = true <;> by_cases h2 : g.class_id = cid <;>
    by_cases h3 : g.subject_id = sid <;> simp [h1, h2, h3]

/-- Core of C1: with no faculty preferences configured, a chromosome of
non-negative fitness has none of the five hard violations. -/
theorem fitness_nonneg_clean (ga : GeneticAlgorithm) (hpref : ga.faculty_preferences = [])
    (c : Chromosome) (hfit : 0 ≤ calculate_fitness ga c) :
    c.genes.Pairwise (fun g1 g2 => ∀ f, f ∈ geneFacs g1 → f ∈ geneFacs g2 →
      g1.time_slot_id ≠ g2.time_slot_id) ∧
    c.genes.Pairwise (fun g1 g2 => g1.class_id = g2.class_id →
      g1.time_slot_id ≠ g2.time_slot_id) ∧
    (∀ f : ℕ, hoursOf c.genes f ≤ workLimit ga f) ∧
    (∀ cid sid : ℕ, ¬ brokenTriple ga c.genes cid sid) ∧
    (∀ g ∈ c.genes, ∀ f ∈ geneFacs g,
      g.time_slot_id ∉ (aget ga.pre_booked_slots f).getD []) := by
  obtain ⟨hA, hB, hC⟩ := calculate_fitness_blocks ga c hpref hfit
  have hA' : (c.genes.foldl (fitStep ga) (⟨0, [], [], [], []⟩ : FitSt)).fitness =
      (⟨0, [], [], [], []⟩ : FitSt).fitness := hA
  obtain ⟨_, _, hP1, hP2, hP5⟩ := (fitPass1_run ga hpref c.genes ⟨0, [], [], [], []⟩).2 hA'
  refine ⟨hP1, hP2, ?_, ?_, hP5⟩
  · intro f
    have hchar := fitPass1_fh ga c.genes ⟨0, [], [], [], []⟩ f
    simp only [aget, Option.getD_none, Nat.zero_add] at hchar
    cases hfh : aget (c.genes.foldl (fitStep ga) (⟨0, [], [], [], []⟩ : FitSt)).faculty_hours f with
    | none =>
      rw [hfh] at hchar
      simp at hchar
      omega
    | some h =>
      rw [hfh] at hchar
      simp at hchar
      have hmem := aget_mem _ _ _ hfh
      have hle : h ≤ workLimit ga f := workloadTerm_zero ga _ hB (f, h) hmem
      omega
  · intro cid sid hb
    obtain ⟨hlen, hcont⟩ := hb
    have hslots := labGroup_slots_eq c.genes cid sid
    have hne : labGenesOf c.genes cid ≠ [] := by
      intro hnil
      rw [hnil] at hslots
      simp at hslots
      rw [hslots] at hlen
      simp at hlen
    have hsome := fitPass1_cl_isSome ga c.genes ⟨0, [], [], [], []⟩ cid (Or.inr hne)
    obtain ⟨L, hL⟩ := Option.isSome_iff_exists.1 hsome
    have hchar := fitPass1_cl ga c.genes ⟨0, [], [], [], []⟩ cid
    rw [hL] at hchar
    simp only [aget, Option.getD_none, Option.getD_some, List.nil_append] at hchar
    have hmem := aget_mem _ _ _ hL
    have hz := labConstraintsTerm_zero ga _ hC (cid, L) hmem
    have hgl : 0 < (labGroupSlots c.genes cid sid).length := by rw [hlen]; norm_num
    rw [← hslots, List.length_map] at hgl
    obtain ⟨g0, hg0⟩ := List.exists_mem_of_length_pos hgl
    have hg0' := List.mem_filter.1 hg0
    have hsubj : g0.subject_id = sid := by simpa using hg0'.2
    have hsid : sid ∈ ((cid, L).2.map (fun g => g.subject_id)).dedup := by
      rw [List.mem_dedup]
      refine List.mem_map.2 ⟨g0, ?_, hsubj⟩
      show g0 ∈ L
      rw [hchar]
      exact hg0'.1
    have hpz := hz sid hsid
    have hpz' : subjectLabPenalty ga (labGenesOf c.genes cid) sid = 0 := by
      rw [← hchar]
      exact hpz
    simp only [subjectLabPenalty] at hpz'
    rw [hslots] at hpz'
    rw [if_neg (by rw [hlen]; norm_num)] at hpz'
    rw [if_neg (by simp [hcont]), WEIGHTS_lab_continuity_val] at hpz'
    by_cases htm : check_lab_timing ga (labGroupSlots c.genes cid sid) = true
    · rw [if_pos htm] at hpz'
      norm_num at hpz'
    · rw [if_neg htm, WEIGHTS_lab_timing] at hpz'
      norm_num at hpz'

/-- An empty chromosome scores zero. -/
theorem calculate_fitness_dummy (ga : GeneticAlgorithm) :
    calculate_fitness ga dummyChrom = 0 := by
  simp [calculate_fitness, fitPass1, dummyChrom, workloadTerm, labConstraintsTerm,
    labDayTerm, labRoomTerm, workloadBalanceTerm, subjectRotationTerm]

/-- Claim C1 (corrected, amended form): when the evolver's generation
step stops because the sorted population's current best has fitness
`≥ 0`, and the department has NO faculty preferences configured
(`faculty_preferences` empty, so no positive fitness term exists), the
returned best chromosome has no faculty double-booking (over main and
truthy assistant faculty), no class double-booking, no faculty over its
workload cap, no broken lab triple, and no gene on a pre-booked slot.
The population faithfulness hypotheses state that the stored fitness
values are the evaluated ones, which `evolve` guarantees by
construction.  Without the no-preferences hypothesis the claim is FALSE
(see the counterexample): `+100` preference bonuses can outweigh a
`-1000` clash and stop the loop on a violating timetable. -/
theorem early_exit_no_hard_violations (ga : GeneticAlgorithm)
    (hpref : ga.faculty_preferences = []) (st : EvSt)
    (hpop : ∀ c ∈ st.population, c.fitness = calculate_fitness ga c)
    (hbe : st.best_ever.fitness = calculate_fitness ga st.best_ever)
    (hexit : (genStep ga st).2 = true) :
    (genStep ga st).1.best_ever.genes.Pairwise (fun g1 g2 => ∀ f, f ∈ geneFacs g1 →
      f ∈ geneFacs g2 → g1.time_slot_id ≠ g2.time_slot_id) ∧
    (genStep ga st).1.best_ever.genes.Pairwise (fun g1 g2 => g1.class_id = g2.class_id →
      g1.time_slot_id ≠ g2.time_slot_id) ∧
    (∀ f : ℕ, hoursOf (genStep ga st).1.best_ever.genes f ≤ workLimit ga f) ∧
    (∀ cid sid : ℕ, ¬ brokenTriple ga (genStep ga st).1.best_ever.genes cid sid) ∧
    (∀ g ∈ (genStep ga st).1.best_ever.genes, ∀ f ∈ geneFacs g,
      g.time_slot_id ∉ (aget ga.pre_booked_slots f).getD []) := by
  have hcur : 0 ≤ ((sortPopDesc st.population).headD dummyChrom).fitness := by
    by_contra hneg
    simp only [genStep] at hexit
    rw [if_neg hneg] at hexit
    simp at hexit
  have hbest := genStep_best_ever ga st
  have hfaith : (genStep ga st).1.best_ever.fitness =
      calculate_fitness ga (genStep ga st).1.best_ever ∧
      0 ≤ (genStep ga st).1.best_ever.fitness := by
    rw [hbest]
    split
    · constructor
      · cases hpopl : sortPopDesc st.population with
        | nil =>
          simp only [List.headD_nil]
          rw [calculate_fitness_dummy]
          rfl
        | cons h tl =>
          simp only [List.headD_cons]
          have hmemS : h ∈ sortPopDesc st.population := by
            rw [hpopl]
            exact List.mem_cons_self _ _
          exact hpop h ((stableSort_perm _ st.population).subset hmemS)
      · exact hcur
    · rename_i hlt
      exact ⟨hbe, le_trans hcur (not_lt.1 hlt)⟩
  obtain ⟨hf1, hf2⟩ := hfaith
  have hfin : 0 ≤ calculate_fitness ga (genStep ga st).1.best_ever := by
    rw [← hf1]
    exact hf2
  exact fitness_nonneg_clean ga hpref _ hfin

/-- Witness for C1 at a concrete input: the preference-free `demoGA`
with a single evaluated empty chromosome; the step exits early
(fitness 0 ≥ 0) and the workload bound of the returned best holds. -/
theorem early_exit_no_hard_violations_witness :
    (demoGA.faculty_preferences = [] ∧
     (∀ c ∈ demoCleanEvSt.population, c.fitness = calculate_fitness demoGA c) ∧
     demoCleanEvSt.best_ever.fitness = calculate_fitness demoGA demoCleanEvSt.best_ever ∧
     (genStep demoGA demoCleanEvSt).2 = true) ∧
    (∀ f : ℕ, hoursOf (genStep demoGA demoCleanEvSt).1.best_ever.genes f ≤
      workLimit demoGA f) := by
  have hpop : ∀ c ∈ demoCleanEvSt.population, c.fitness = calculate_fitness demoGA c := by
    intro c hc
    have hc1 : c = demoCleanChrom := List.mem_singleton.1 hc
    subst hc1
    rfl
  have hbe : demoCleanEvSt.best_ever.fitness =
      calculate_fitness demoGA demoCleanEvSt.best_ever := rfl
  have hv : demoCleanChrom.fitness = 0 := calculate_fitness_dummy demoGA
  have hsort : sortPopDesc demoCleanEvSt.population = [demoCleanChrom] := rfl
  have hexit : (genStep demoGA demoCleanEvSt).2 = true := by
    simp only [genStep, hsort, List.headD_cons]
    rw [if_pos (le_of_eq hv.symm)]
  exact ⟨⟨rfl, hpop, hbe, hexit⟩,
    (early_exit_no_hard_violations demoGA rfl demoCleanEvSt hpop hbe hexit).2.2.1⟩

/-- Counterexample to C1 as stated (without the no-preferences
hypothesis): on `demoPrefGA` the evaluated clashing timetable scores
`12·100 − 1000 = 200 ≥ 0`, so the generation step exits early, yet the
returned best chromosome double-books faculty 1 on slot 1 (once for
class 1, once for class 2). -/
theorem early_exit_no_hard_violations_cex :
    demoPrefGA.faculty_preferences ≠ [] ∧
    (∀ c ∈ demoPrefEvSt.population, c.fitness = calculate_fitness demoPrefGA c) ∧
    demoPrefEvSt.best_ever.fitness = calculate_fitness demoPrefGA demoPrefEvSt.best_ever ∧
    (genStep demoPrefGA demoPrefEvSt).2 = true ∧
    ¬ ((genStep demoPrefGA demoPrefEvSt).1.best_ever.genes.Pairwise
        (fun g1 g2 => ∀ f, f ∈ geneFacs g1 → f ∈ geneFacs g2 →
          g1.time_slot_id ≠ g2.time_slot_id)) := by
  have hfit : (0 : ℚ) ≤ demoPrefChrom.fitness := by
    show (0 : ℚ) ≤ calculate_fitness demoPrefGA ⟨demoClashGenes, 0⟩
    simp [calculate_fitness, fitPass1, fitStep, demoPrefGA, demoClashGenes, aget, assocAdjust,
      assocUpd, optTruthy, subjectCodeOf, subject_info, WEIGHTS, workLimit, workloadTerm,
      labConstraintsTerm, labDayTerm, labRoomTerm, workloadBalanceTerm, subjectRotationTerm,
      List.insert]
    norm_num [abs_of_nonneg, abs_of_nonpos]
  have hsort : sortPopDesc demoPrefEvSt.population = [demoPrefChrom] := rfl
  have hbest : (genStep demoPrefGA demoPrefEvSt).1.best_ever = demoPrefChrom := by
    rw [genStep_best_ever, hsort]
    simp only [List.headD_cons]
    split <;> rfl
  refine ⟨by decide, ?_, rfl, ?_, ?_⟩
  · intro c hc
    have hc1 : c = demoPrefChrom := List.mem_singleton.1 hc
    subst hc1
    rfl
  · simp only [genStep, hsort, List.headD_cons]
    rw [if_pos hfit]
  · rw [hbest]
    have hg : demoPrefChrom.genes = demoClashGenes := rfl
    rw [hg]
    decide

/-! ## Claim C6: loader failures abort with no partial writes -/

theorem string_append_ne_empty (a b : String) (h : a ≠ "") : a ++ b ≠ "" := by
  intro he
  apply h
  have hl := congrArg String.length he
  rw [String.length_append] at hl
  simp at hl
  have h0 : a.length = 0 := by omega
  cases a with
  | mk data =>
    cases data with
    | nil => rfl
    | cons c cs => simp [String.length, List.length] at h0

/-- Extract the claim's conclusions from a failure return. -/
theorem failure_pair_extract (res : GenResult) (db db2 : DB) (msg : String)
    (hpair : some ((⟨false, msg⟩ : GenResult), db) = some (res, db2)) (hm : msg ≠ "") :
    res.success = false ∧ res.error ≠ "" ∧ db2 = db := by
  have h := Option.some.inj hpair
  rw [Prod.mk.injEq] at h
  obtain ⟨hres, hdb⟩ := h
  rw [← hres]
  exact ⟨rfl, hm, hdb.symm⟩

/-- Claim C6 (confirmed): whenever `generate_department_timetable`
finds no teaching slots, or a teaching-slot count other than 7·5 = 35,
or no semesters of the department matching the active ODD/EVEN parity,
or no classes, or no (non-zero-hour) subjects, it returns — when it
returns at all rather than raising — a result with `success = false`
and a non-empty error message, and the database state is unchanged: no
timetable entry or faculty-subject assignment row is deleted or
written. -/
theorem generate_failure_no_writes (db : DB) (dep : ℕ) (inst : String) (r : Rng)
    (res : GenResult) (db2 : DB)
    (hrun : generate_department_timetable db dep inst r = some (res, db2))
    (hfail : teachingSlots db = [] ∨ (teachingSlots db).length ≠ 35 ∨
      matchingSemesters db dep = [] ∨ deptClasses db dep = [] ∨
      deptValidSubjects db dep = []) :
    res.success = false ∧ res.error ≠ "" ∧ db2 = db := by
  simp only [generate_department_timetable] at hrun
  split at hrun
  · simp at hrun
  · split at hrun
    · -- no matching-parity semesters
      split at hrun
      · simp at hrun
      · exact failure_pair_extract _ _ _ _ hrun
          (string_append_ne_empty _ _ (string_append_ne_empty _ _
            (string_append_ne_empty _ _ (by decide))))
    · split at hrun
      · -- no classes
        split at hrun
        · simp at hrun
        · exact failure_pair_extract _ _ _ _ hrun
            (string_append_ne_empty _ _ (string_append_ne_empty _ _
              (string_append_ne_empty _ _ (string_append_ne_empty _ _ (by decide)))))
      · split at hrun
        · -- no subjects
          exact failure_pair_extract _ _ _ _ hrun
            (string_append_ne_empty _ _ (by decide))
        · split at hrun
          · -- no teaching slots
            exact failure_pair_extract _ _ _ _ hrun (by decide)
          · split at hrun
            · -- wrong teaching-slot count
              exact failure_pair_extract _ _ _ _ hrun
                (string_append_ne_empty _ _ (string_append_ne_empty _ _ (by decide)))
            · -- all validations passed: contradicts the failure hypothesis
              exfalso
              rename_i hsem hcls hsubj hts hlen
              rcases hfail with h | h | h | h | h
              · exact hts h
              · exact hlen h
              · exact hsem h
              · exact hcls h
              · exact hsubj h

/-- Witness for C6 at a concrete input: `demoDB` has a department,
a matching semester and a class but no subjects; the run aborts with
`success = false` and leaves the pre-existing entry rows untouched. -/
theorem generate_failure_no_writes_witness :
    (generate_department_timetable demoDB 1 "2024-ODD" [] =
       some (⟨false, "No subjects found for CS"⟩, demoDB) ∧
     deptValidSubjects demoDB 1 = []) ∧
    ((⟨false, "No subjects found for CS"⟩ : GenResult).success = false ∧
     (⟨false, "No subjects found for CS"⟩ : GenResult).error ≠ "" ∧ demoDB = demoDB) :=
  ⟨⟨by decide, by decide⟩,
   generate_failure_no_writes demoDB 1 "2024-ODD" [] _ _ (by decide)
     (Or.inr (Or.inr (Or.inr (Or.inr (by decide)))))⟩

end EduPlanner
